import Mathlib

/-! SmallMatrix: verification of the hybrid-storage matrix.

A shallow embedding of `src/SmallMatrix.cpp` / `src/SmallMatrix.hpp`: a dense matrix of
`double` that keeps its elements either in an inline `144 x 144` array (`mStackData`) or in a
vector of vectors (`mHeapData`), selected by the flag `mIsLargeMatrix`.

Conventions of the embedding.

* `int` is `Int`. The two size constructors accept every pair of `int`s and compute their flag
  from the product of their arguments; that product is `intMul`, the product of 32-bit two's
  complement `int`s. Every other product of the source is taken of the dimensions of an
  existing matrix and is exact in the model, which agrees with the source as long as the
  element count fits an `int`.
* `double` is an arbitrary type `Val` with the operations an operation uses (`0`, `+`, `-`,
  `*`). No algebraic law is assumed, so every general theorem holds for IEEE doubles. The test
  `std::abs(a - b) > epsilon` of `operator==` is a parameter `far : Val → Val → Bool`: for
  doubles it is false whenever `a - b` is a NaN. Concrete evaluations use `Int`; the numbers
  that occur are exactly representable as doubles.
* An object of class `SmallMatrix` is created with an indeterminate inline array, since no
  constructor names `mStackData` in its initialiser list. Every function that creates an
  object therefore takes the initial content of that array as the parameter `init`.
  The empty constructor does not initialise `mIsLargeMatrix` either; it takes the content of
  that storage as the parameter `initFlag`.
* A C++ exception is an error value. Mutating member functions return the receiver as it is
  when the exception leaves the function together with the error kind.
* The move operations modify two objects; they return the destination together with the source
  as the move leaves it. Copy and move assignment model two distinct objects; for
  `this == &sm` the source returns at once.
* A `double*` returned by `row` or `col` is a `Ref`: the element of the inline array or of the
  vector of vectors it points to.
* A raw iterator that leaves its container (`begin() + n` past the end, `std::copy` reading
  past a row) is undefined behaviour; the model stops with `Err.undefinedBehaviour`.
* A negative `int` used as a vector size makes `std::vector` throw `std::length_error`; the
  model uses `Int.toNat` there, and every theorem that depends on such a conversion assumes
  non-negative dimensions.
-/

namespace smallMatrix

/-- Ways in which an operation can fail: `std::out_of_range`, `std::invalid_argument`, and
undefined behaviour of a raw iterator leaving its container. -/
inductive Err
  | outOfRange
  | invalidArgument
  | undefinedBehaviour
  deriving DecidableEq

/-- The inline buffer `std::array<std::array<double, 144>, 144>`, indexed like the source by
`int`s. Only the cells with both indices in `[0, 144)` exist; no definition reads or writes
any other cell. -/
abbrev Stack (Val : Type) := Int → Int → Val

/-- The constant `static constexpr int mSmallSize = 144`. -/
def mSmallSize : Int := 144

/-- The data members of class `SmallMatrix`. -/
structure SmallMatrix (Val : Type) where
  mNumRows : Int
  mNumCols : Int
  mIsLargeMatrix : Bool
  mStackData : Stack Val
  mHeapData : List (List Val)

variable {Val : Type}

/-- Attach the state of the receiver to an exception that leaves a member function. -/
def withState {σ α : Type} (s : σ) : Except Err α → Except (Err × σ) α
  | .ok a => .ok a
  | .error e => .error (e, s)

/-- The values taken by `i` in `for (int i = a; i < b; i++)`. -/
def upTo (a b : Int) : List Int :=
  (List.range (b - a).toNat).map (fun (k : Nat) => a + (k : Int))

/-- The values taken by `i` in `for (int i = a; i > b; i--)`. -/
def downTo (a b : Int) : List Int :=
  (List.range (a - b).toNat).map (fun (k : Nat) => a - (k : Int))

/-- Reading `stackArray.at(i).at(j)`: `std::array::at` throws `std::out_of_range` for an index
that is not below `144` (a negative `int` converts to a huge `size_t`). -/
def stackAt (s : Stack Val) (i j : Int) : Except Err Val :=
  if 0 ≤ i ∧ i < 144 ∧ 0 ≤ j ∧ j < 144 then .ok (s i j) else .error .outOfRange

/-- The inline buffer with cell `(i, j)` overwritten. -/
def stackSet (s : Stack Val) (i j : Int) (v : Val) : Stack Val :=
  fun a b => if a = i ∧ b = j then v else s a b

/-- The assignment `stackArray.at(i).at(j) = v`. -/
def stackAssign (s : Stack Val) (i j : Int) (v : Val) : Except Err (Stack Val) :=
  if 0 ≤ i ∧ i < 144 ∧ 0 ≤ j ∧ j < 144 then .ok (stackSet s i j v)
  else .error .outOfRange

/-- Reading `heap.at(i).at(j)` of a vector of vectors. -/
def heapAt (h : List (List Val)) (i j : Int) : Except Err Val :=
  if 0 ≤ i ∧ 0 ≤ j then
    match h[i.toNat]? with
    | none => .error .outOfRange
    | some row =>
      match row[j.toNat]? with
      | none => .error .outOfRange
      | some v => .ok v
  else .error .outOfRange

/-- The assignment `heap.at(i).at(j) = v`. -/
def heapAssign (h : List (List Val)) (i j : Int) (v : Val) : Except Err (List (List Val)) :=
  if 0 ≤ i ∧ 0 ≤ j then
    match h[i.toNat]? with
    | none => .error .outOfRange
    | some row =>
      if j.toNat < row.length then .ok (h.set i.toNat (row.set j.toNat v))
      else .error .outOfRange
  else .error .outOfRange

/-- The call `v.resize(n, fill)` of `std::vector`: truncate, or pad with `fill`. -/
def vecResize {α : Type} (n : Nat) (fill : α) (l : List α) : List α :=
  l.take n ++ List.replicate (n - l.length) fill

/-- The statements `mHeapData.resize(numRows); for (auto &row : mHeapData) row.resize(numCols, 0);`
of `resize`. -/
def heapResize [Zero Val] (h : List (List Val)) (numRows numCols : Int) : List (List Val) :=
  (vecResize numRows.toNat [] h).map (vecResize numCols.toNat 0)

/-- The call `heap.insert(heap.begin() + numRow, row)`; the iterator must not pass `end()`. -/
def vecInsert (h : List (List Val)) (numRow : Int) (row : List Val) :
    Except Err (List (List Val)) :=
  if 0 ≤ numRow ∧ numRow.toNat ≤ h.length then
    .ok (h.take numRow.toNat ++ row :: h.drop numRow.toNat)
  else .error .undefinedBehaviour

/-- The call `heap.erase(heap.begin() + numRow)`; the iterator must point at an element. -/
def vecErase (h : List (List Val)) (numRow : Int) : Except Err (List (List Val)) :=
  if 0 ≤ numRow ∧ numRow.toNat < h.length then .ok (h.eraseIdx numRow.toNat)
  else .error .undefinedBehaviour

/-- The function template `shiftArrayElementsUp`: for `i` from `startingRow` while `i < numRows`
and `j` from `0` while `j < numCols`, `stackArray.at(i).at(j) = stackArray.at(i + 1).at(j)`.
The array is passed by reference, so an exception leaves it partly shifted. -/
def shiftArrayElementsUp (startingRow : Int) (stackArray : Stack Val) (numRows numCols : Int) :
    Except (Err × Stack Val) (Stack Val) :=
  (upTo startingRow numRows).foldlM (fun s i =>
    (upTo 0 numCols).foldlM (fun s j =>
      withState s (do
        let v ← stackAt s (i + 1) j
        stackAssign s i j v)) s) stackArray

/-- The function template `shiftArrayElementsDown`: for `i` from `startingRow` while
`i > numRows`, counting down, and `j` from `0` while `j < numCols`,
`stackArray.at(i).at(j) = stackArray.at(i - 1).at(j)`. -/
def shiftArrayElementsDown (startingRow : Int) (stackArray : Stack Val) (numRows numCols : Int) :
    Except (Err × Stack Val) (Stack Val) :=
  (downTo startingRow numRows).foldlM (fun s i =>
    (upTo 0 numCols).foldlM (fun s j =>
      withState s (do
        let v ← stackAt s (i - 1) j
        stackAssign s i j v)) s) stackArray

/-- The function template `convertStdArrayToStdVector`: a fresh `numRows x numCols` vector of
zeros whose rows `0 .. min(numRows, 144) - 1` receive the first `numCols` entries of the same
row of the array. `std::copy(row.cbegin(), row.cbegin() + numCols, ...)` reads past the row
when `numCols > 144`. -/
def convertStdArrayToStdVector [Zero Val] (stackArray : Stack Val) (numRows numCols : Int) :
    Except Err (List (List Val)) :=
  if 0 < numRows ∧ 144 < numCols then .error .undefinedBehaviour
  else .ok ((List.range numRows.toNat).map fun (i : Nat) =>
    if i < 144 then (List.range numCols.toNat).map (fun (j : Nat) => stackArray (i : Int) (j : Int))
    else List.replicate numCols.toNat 0)

/-- The function `getNumberOfElements`. -/
def getNumberOfElements (sm : SmallMatrix Val) : Int := sm.mNumRows * sm.mNumCols

/-- The member function `size`. -/
def SmallMatrix.size (m : SmallMatrix Val) : Int × Int := (m.mNumRows, m.mNumCols)

/-- The member function `isSmall`. -/
def SmallMatrix.isSmall (m : SmallMatrix Val) : Bool := !m.mIsLargeMatrix

/-- The product `a * b` of two `int`s as a build with 32-bit two's complement `int`s computes
it: the exact product reduced modulo `2^32` into `[-2^31, 2^31)`. Inside that range it is the
exact product; outside it the C++ standard leaves the behaviour undefined. -/
def intMul (a b : Int) : Int := (a * b + 2147483648) % 4294967296 - 2147483648

/-- The constructor `SmallMatrix(int numRows, int numCols, double value)`. -/
def SmallMatrix.ctor3 (init : Stack Val) (numRows numCols : Int) (value : Val) :
    SmallMatrix Val :=
  let mIsLargeMatrix := decide (intMul numRows numCols ≥ mSmallSize)
  if mIsLargeMatrix then
    { mNumRows := numRows, mNumCols := numCols, mIsLargeMatrix := mIsLargeMatrix,
      mStackData := init,
      mHeapData := List.replicate numRows.toNat (List.replicate numCols.toNat value) }
  else
    { mNumRows := numRows, mNumCols := numCols, mIsLargeMatrix := mIsLargeMatrix,
      mStackData := fun a b => if 0 ≤ a ∧ a < 144 ∧ 0 ≤ b ∧ b < 144 then value else init a b,
      mHeapData := [] }

/-- The constructor `SmallMatrix(int numRows, int numCols)`. In the inline branch the statement
`SmallMatrix(numRows, numCols, 0);` builds a temporary object and destroys it; the object under
construction keeps the inline array it started with. -/
def SmallMatrix.ctor2 [Zero Val] (init : Stack Val) (numRows numCols : Int) : SmallMatrix Val :=
  let mIsLargeMatrix := decide (intMul numRows numCols ≥ mSmallSize)
  if mIsLargeMatrix then
    { mNumRows := numRows, mNumCols := numCols, mIsLargeMatrix := mIsLargeMatrix,
      mStackData := init,
      mHeapData := List.replicate numRows.toNat (List.replicate numCols.toNat 0) }
  else
    { mNumRows := numRows, mNumCols := numCols, mIsLargeMatrix := mIsLargeMatrix,
      mStackData := init,
      mHeapData := [] }

/-- The test of `std::adjacent_find` in the list constructor: some row and its successor have
different lengths. -/
def adjacentSizesDiffer : List (List Val) → Bool
  | a :: b :: rest => a.length != b.length || adjacentSizesDiffer (b :: rest)
  | _ => false

/-- One round of the loop `for (auto const& row : il)` of the list constructor, on the object
under construction and `row_index`. -/
def ctorListStep [Zero Val] (st : SmallMatrix Val × Int) (row : List Val) :
    Except Err (SmallMatrix Val × Int) :=
  if st.1.mIsLargeMatrix then
    if 0 ≤ st.2 then
      match st.1.mHeapData[st.2.toNat]? with
      | none => .error .outOfRange
      | some old =>
        let resized := vecResize st.1.mNumCols.toNat 0 old
        if row.length ≤ resized.length then
          .ok ({ st.1 with mHeapData :=
                  st.1.mHeapData.set st.2.toNat (row ++ resized.drop row.length) }, st.2 + 1)
        else .error .undefinedBehaviour
    else .error .outOfRange
  else
    if 0 ≤ st.2 ∧ st.2 < 144 then
      if row.length ≤ 144 then
        .ok ({ st.1 with mStackData := fun a b =>
                if a = st.2 ∧ 0 ≤ b then
                  (match row[b.toNat]? with
                   | some v => v
                   | none => st.1.mStackData a b)
                else st.1.mStackData a b }, st.2 + 1)
      else .error .undefinedBehaviour
    else .error .outOfRange

/-- The initialiser `il.begin() == il.end() ? 0 : il.begin()->size()` of `mNumCols` in the
list constructor. -/
def firstRowSize : List (List Val) → Int
  | [] => 0
  | row :: _ => row.length

/-- The constructor `SmallMatrix(std::initializer_list<std::initializer_list<double>> const&)`. -/
def SmallMatrix.ctorList [Zero Val] (init : Stack Val) (il : List (List Val)) :
    Except Err (SmallMatrix Val) :=
  let mNumRows : Int := il.length
  let mNumCols : Int := firstRowSize il
  let mIsLargeMatrix := decide (mNumRows * mNumCols ≥ mSmallSize)
  if adjacentSizesDiffer il then .error .invalidArgument
  else
    let m0 : SmallMatrix Val :=
      { mNumRows := mNumRows, mNumCols := mNumCols, mIsLargeMatrix := mIsLargeMatrix,
        mStackData := init,
        mHeapData := if mIsLargeMatrix then vecResize mNumRows.toNat [] [] else [] }
    (il.foldlM ctorListStep (m0, 0)).map Prod.fst

/-- The member function `operator()(int, int) const`. -/
def SmallMatrix.get (m : SmallMatrix Val) (numRow numCol : Int) : Except Err Val :=
  let outOfRange :=
    decide (numRow ≥ m.mNumRows ∨ numCol ≥ m.mNumCols ∨ numRow < 0 ∨ numCol < 0)
  if outOfRange then .error .outOfRange
  else if m.mIsLargeMatrix then heapAt m.mHeapData numRow numCol
  else stackAt m.mStackData numRow numCol

/-- An assignment through the reference returned by the non-const `operator()(int, int)`. -/
def SmallMatrix.set (m : SmallMatrix Val) (numRow numCol : Int) (v : Val) :
    Except Err (SmallMatrix Val) :=
  let outOfRange :=
    decide (numRow ≥ m.mNumRows ∨ numCol ≥ m.mNumCols ∨ numRow < 0 ∨ numCol < 0)
  if outOfRange then .error .outOfRange
  else if m.mIsLargeMatrix then
    (heapAssign m.mHeapData numRow numCol v).map fun h => { m with mHeapData := h }
  else
    (stackAssign m.mStackData numRow numCol v).map fun s => { m with mStackData := s }

/-- The call `std::for_each(mStackData.begin() + a, mStackData.begin() + b, fill row with 0)`
of `resize`, made when `a < b`. -/
def fillRows [Zero Val] (s : Stack Val) (a b : Int) : Except Err (Stack Val) :=
  if 0 ≤ a ∧ b ≤ 144 then
    .ok (fun x y => if a ≤ x ∧ x < b ∧ 0 ≤ y ∧ y < 144 then 0 else s x y)
  else .error .undefinedBehaviour

/-- The call `std::for_each(mStackData.begin(), mStackData.begin() + numRows,
std::fill(row.begin() + a, row.begin() + b, 0.0))` of `resize`, made when `a < b`. -/
def fillCols [Zero Val] (s : Stack Val) (numRows a b : Int) : Except Err (Stack Val) :=
  if numRows ≤ 144 ∧ (numRows ≤ 0 ∨ (0 ≤ a ∧ b ≤ 144)) then
    .ok (fun x y => if 0 ≤ x ∧ x < numRows ∧ a ≤ y ∧ y < b then 0 else s x y)
  else .error .undefinedBehaviour

/-- The member function `resize`. -/
def SmallMatrix.resize [Zero Val] (m : SmallMatrix Val) (numRows numCols : Int) :
    Except (Err × SmallMatrix Val) (SmallMatrix Val) :=
  if numRows < 0 ∨ numCols < 0 then .error (.outOfRange, m)
  else
    let tempRowCount := m.mNumRows
    let tempColCount := m.mNumCols
    let m1 := { m with mNumRows := numRows, mNumCols := numCols }
    if getNumberOfElements m1 ≥ mSmallSize then
      if m1.isSmall then
        let m2 := { m1 with mIsLargeMatrix := true }
        match convertStdArrayToStdVector m2.mStackData tempRowCount tempColCount with
        | .error e => .error (e, m2)
        | .ok h => .ok { m2 with mHeapData := heapResize h numRows numCols }
      else .ok { m1 with mHeapData := heapResize m1.mHeapData numRows numCols }
    else
      if m1.mIsLargeMatrix then
        .ok { m1 with mHeapData := heapResize m1.mHeapData numRows numCols }
      else
        match (if numRows > tempRowCount then fillRows m1.mStackData tempRowCount numRows
               else .ok m1.mStackData) with
        | .error e => .error (e, m1)
        | .ok s1 =>
          match (if numCols > tempColCount then fillCols s1 numRows tempColCount numCols
                 else .ok s1) with
          | .error e => .error (e, { m1 with mStackData := s1 })
          | .ok s2 => .ok { m1 with mStackData := s2 }

/-- The loop `for (int i {}; i < mNumCols; i++) mStackData.at(numRow).at(i) = row.at(i);` of
`insertRow`. -/
def writeRow (s : Stack Val) (numRow numCols : Int) (row : List Val) :
    Except (Err × Stack Val) (Stack Val) :=
  (upTo 0 numCols).foldlM (fun s i =>
    withState s (do
      let v ← (match row[i.toNat]? with
               | some v => Except.ok v
               | none => Except.error Err.outOfRange)
      stackAssign s numRow i v)) s

/-- The member function `insertRow`. -/
def SmallMatrix.insertRow [Zero Val] (m : SmallMatrix Val) (numRow : Int) (row : List Val) :
    Except (Err × SmallMatrix Val) (SmallMatrix Val) :=
  let outOfRange := decide (numRow < 0 ∨ numRow > m.mNumRows)
  let notValidNoOfCols := decide ((row.length : Int) ≠ m.mNumCols)
  if outOfRange then .error (.outOfRange, m)
  else if notValidNoOfCols then .error (.invalidArgument, m)
  else
    let m1 := { m with mNumRows := m.mNumRows + 1 }
    if m1.mIsLargeMatrix then
      match vecInsert m1.mHeapData numRow row with
      | .error e => .error (e, m1)
      | .ok h => .ok { m1 with mHeapData := h }
    else if getNumberOfElements m1 ≥ mSmallSize then
      let m2 := { m1 with mIsLargeMatrix := true }
      match convertStdArrayToStdVector m2.mStackData m2.mNumRows m2.mNumCols with
      | .error e => .error (e, m2)
      | .ok h =>
        match vecInsert h numRow row with
        | .error e => .error (e, { m2 with mHeapData := h })
        | .ok h2 => .ok { m2 with mHeapData := h2 }
    else
      match shiftArrayElementsDown m1.mNumRows m1.mStackData numRow m1.mNumCols with
      | .error (e, s) => .error (e, { m1 with mStackData := s })
      | .ok s =>
        match writeRow s numRow m1.mNumCols row with
        | .error (e, s2) => .error (e, { m1 with mStackData := s2 })
        | .ok s2 => .ok { m1 with mStackData := s2 }

/-- The member function `eraseRow`. -/
def SmallMatrix.eraseRow (m : SmallMatrix Val) (numRow : Int) :
    Except (Err × SmallMatrix Val) (SmallMatrix Val) :=
  let outOfRange := decide (numRow < 0 ∨ numRow ≥ m.mNumRows)
  if outOfRange then .error (.outOfRange, m)
  else
    let m1 := { m with mNumRows := m.mNumRows - 1 }
    if m1.mIsLargeMatrix then
      match vecErase m1.mHeapData numRow with
      | .error e => .error (e, m1)
      | .ok h => .ok { m1 with mHeapData := h }
    else
      match shiftArrayElementsUp numRow m1.mStackData m1.mNumRows m1.mNumCols with
      | .error (e, s) => .error (e, { m1 with mStackData := s })
      | .ok s => .ok { m1 with mStackData := s }

/-- The body of the two nested loops of `transpose` at `(i, j)`, on the matrix being built. -/
def transposeStep (sm : SmallMatrix Val) (n : SmallMatrix Val) (i j : Int) :
    Except Err (SmallMatrix Val) :=
  if n.mIsLargeMatrix then do
    let v ← heapAt sm.mHeapData i j
    let h ← heapAssign n.mHeapData j i v
    pure { n with mHeapData := h }
  else do
    let v ← stackAt sm.mStackData i j
    let s ← stackAssign n.mStackData j i v
    pure { n with mStackData := s }

/-- The friend function `transpose`; `init` is the indeterminate inline array of the local
object `newSmallMatrix`. -/
def transpose [Zero Val] (init : Stack Val) (sm : SmallMatrix Val) :
    Except Err (SmallMatrix Val) :=
  let newSmallMatrix := SmallMatrix.ctor2 init sm.mNumCols sm.mNumRows
  (upTo 0 sm.mNumRows).foldlM (fun n i =>
    (upTo 0 sm.mNumCols).foldlM (fun n j => transposeStep sm n i j) n) newSmallMatrix

/-- The member function `eraseCol`; `init1` and `init2` are the indeterminate inline arrays of
the two matrices that the calls of `transpose` create. -/
def SmallMatrix.eraseCol [Zero Val] (init1 init2 : Stack Val) (m : SmallMatrix Val)
    (numCol : Int) : Except (Err × SmallMatrix Val) (SmallMatrix Val) :=
  let outOfRange := decide (numCol < 0 ∨ numCol ≥ m.mNumCols)
  if outOfRange then .error (.outOfRange, m)
  else
    match transpose init1 m with
    | .error e => .error (e, m)
    | .ok newTransposedMatrix =>
      match newTransposedMatrix.eraseRow numCol with
      | .error (e, _) => .error (e, m)
      | .ok erased =>
        match transpose init2 erased with
        | .error e => .error (e, m)
        | .ok back =>
          let m1 :=
            if erased.mIsLargeMatrix then { m with mHeapData := back.mHeapData }
            else { m with mStackData := back.mStackData }
          .ok { m1 with mNumCols := m1.mNumCols - 1 }

/-- The friend function `operator*(SmallMatrix const&, SmallMatrix const&)`; `init` is the
indeterminate inline array of the local object `newSmallMatrix`. -/
def SmallMatrix.mul [Zero Val] [Add Val] [Mul Val] (init : Stack Val)
    (lhs rhs : SmallMatrix Val) : Except Err (SmallMatrix Val) :=
  if lhs.mNumCols ≠ rhs.mNumRows then .error .invalidArgument
  else
    let newSmallMatrix := SmallMatrix.ctor2 init lhs.mNumRows rhs.mNumCols
    (upTo 0 lhs.mNumRows).foldlM (fun n i =>
      (upTo 0 rhs.mNumCols).foldlM (fun n j =>
        (upTo 0 lhs.mNumCols).foldlM (fun n k => do
          let a ← lhs.get i k
          let b ← rhs.get k j
          let cur ← n.get i j
          n.set i j (cur + a * b)) n) n) newSmallMatrix

/-- The member function `insertCol`; `init1` and `init2` are the indeterminate inline arrays of
the two matrices that the calls of `transpose` create. The statement `mIsLargeMatrix = true;`
precedes the second call of `transpose`, so an exception of that call leaves the flag set. -/
def SmallMatrix.insertCol [Zero Val] (init1 init2 : Stack Val) (m : SmallMatrix Val)
    (numCol : Int) (col : List Val) : Except (Err × SmallMatrix Val) (SmallMatrix Val) :=
  let outOfRange := decide (numCol < 0 ∨ numCol > m.mNumCols)
  if outOfRange then .error (.outOfRange, m)
  else
    let notValidNoOfCols := decide ((col.length : Int) ≠ m.mNumRows)
    if notValidNoOfCols then .error (.invalidArgument, m)
    else
      match transpose init1 m with
      | .error e => .error (e, m)
      | .ok newTransposedMatrix =>
        match newTransposedMatrix.insertRow numCol col with
        | .error (e, _) => .error (e, m)
        | .ok inserted =>
          match transpose init2 inserted with
          | .error e =>
            .error (e, if inserted.mIsLargeMatrix then { m with mIsLargeMatrix := true } else m)
          | .ok back =>
            let m1 :=
              if inserted.mIsLargeMatrix then
                { m with mIsLargeMatrix := true, mHeapData := back.mHeapData }
              else { m with mStackData := back.mStackData }
            .ok { m1 with mNumCols := m1.mNumCols + 1 }

/-- The inner loop of `operator==` on row `i`: `false` at the first column `j` with
`std::abs(lhs(i, j) - rhs(i, j)) > epsilon`; `far a b` is that test on two elements. -/
def eqRow (far : Val → Val → Bool) (lhs rhs : SmallMatrix Val) (i : Int) :
    List Int → Except Err Bool
  | [] => .ok true
  | j :: js => do
    let a ← lhs.get i j
    let b ← rhs.get i j
    if far a b then pure false else eqRow far lhs rhs i js

/-- The outer loop of `operator==` over the rows. -/
def eqRows (far : Val → Val → Bool) (lhs rhs : SmallMatrix Val) (cols : List Int) :
    List Int → Except Err Bool
  | [] => .ok true
  | i :: is => do
    let r ← eqRow far lhs rhs i cols
    if r then eqRows far lhs rhs cols is else pure false

/-- The friend function `operator==`; `far a b` is the test `std::abs(a - b) > epsilon` with
`epsilon = 0.0000001`. -/
def SmallMatrix.eq (far : Val → Val → Bool) (lhs rhs : SmallMatrix Val) : Except Err Bool :=
  if lhs.size ≠ rhs.size then .ok false
  else eqRows far lhs rhs (upTo 0 lhs.mNumCols) (upTo 0 lhs.mNumRows)

/-- The friend function `operator!=`. -/
def SmallMatrix.ne (far : Val → Val → Bool) (lhs rhs : SmallMatrix Val) : Except Err Bool :=
  (SmallMatrix.eq far lhs rhs).map not

/-- The friend function `operator+`; `init` is the indeterminate inline array of the local
object `m`. -/
def SmallMatrix.add [Zero Val] [Add Val] (init : Stack Val) (lhs rhs : SmallMatrix Val) :
    Except Err (SmallMatrix Val) :=
  if lhs.mNumRows ≠ rhs.mNumRows ∨ lhs.mNumCols ≠ rhs.mNumCols then .error .invalidArgument
  else
    let m := SmallMatrix.ctor2 init lhs.mNumRows lhs.mNumCols
    (upTo 0 lhs.mNumRows).foldlM (fun n i =>
      (upTo 0 lhs.mNumCols).foldlM (fun n j => do
        let a ← lhs.get i j
        let b ← rhs.get i j
        n.set i j (a + b)) n) m

/-- The friend function `operator-`; `init` is the indeterminate inline array of the local
object `m`. -/
def SmallMatrix.sub [Zero Val] [Sub Val] (init : Stack Val) (lhs rhs : SmallMatrix Val) :
    Except Err (SmallMatrix Val) :=
  if lhs.mNumRows ≠ rhs.mNumRows ∨ lhs.mNumCols ≠ rhs.mNumCols then .error .invalidArgument
  else
    let m := SmallMatrix.ctor2 init lhs.mNumRows lhs.mNumCols
    (upTo 0 lhs.mNumRows).foldlM (fun n i =>
      (upTo 0 lhs.mNumCols).foldlM (fun n j => do
        let a ← lhs.get i j
        let b ← rhs.get i j
        n.set i j (a - b)) n) m

/-- The copy constructor; `init` is the indeterminate inline array of the new object. -/
def SmallMatrix.copyCtor (init : Stack Val) (sm : SmallMatrix Val) :
    Except Err (SmallMatrix Val) :=
  let n0 : SmallMatrix Val :=
    { mNumRows := sm.mNumRows, mNumCols := sm.mNumCols,
      mIsLargeMatrix := decide (sm.mNumRows * sm.mNumCols ≥ mSmallSize),
      mStackData := init, mHeapData := [] }
  if n0.mIsLargeMatrix then .ok { n0 with mHeapData := sm.mHeapData }
  else
    (upTo 0 n0.mNumRows).foldlM (fun n i =>
      (upTo 0 n0.mNumCols).foldlM (fun n j => do
        let v ← sm.get i j
        n.set i j v) n) n0

/-- The copy assignment `*this = sm` for two distinct objects (for `this == &sm` the source
returns at once and nothing changes). -/
def SmallMatrix.copyAssign (m sm : SmallMatrix Val) :
    Except (Err × SmallMatrix Val) (SmallMatrix Val) :=
  let n0 : SmallMatrix Val :=
    { m with mNumRows := sm.mNumRows, mNumCols := sm.mNumCols,
             mIsLargeMatrix := decide (getNumberOfElements sm ≥ mSmallSize) }
  if n0.mIsLargeMatrix then .ok { n0 with mHeapData := sm.mHeapData }
  else
    (upTo 0 n0.mNumRows).foldlM (fun n i =>
      (upTo 0 n0.mNumCols).foldlM (fun n j =>
        withState n (do
          let v ← sm.get i j
          n.set i j v)) n) n0

/-- The member function `operator+=(SmallMatrix const&)`. The local object `m` that the source
constructs is never used. -/
def SmallMatrix.addAssign [Add Val] (m sm : SmallMatrix Val) :
    Except (Err × SmallMatrix Val) (SmallMatrix Val) :=
  if m.mNumRows ≠ sm.mNumRows ∨ m.mNumCols ≠ sm.mNumCols then .error (.invalidArgument, m)
  else
    (upTo 0 m.mNumRows).foldlM (fun n i =>
      (upTo 0 m.mNumCols).foldlM (fun n j =>
        withState n (do
          let a ← n.get i j
          let b ← sm.get i j
          n.set i j (a + b))) n) m

/-- The member function `operator-=(SmallMatrix const&)`. The local object `m` that the source
constructs is never used. -/
def SmallMatrix.subAssign [Sub Val] (m sm : SmallMatrix Val) :
    Except (Err × SmallMatrix Val) (SmallMatrix Val) :=
  if m.mNumRows ≠ sm.mNumRows ∨ m.mNumCols ≠ sm.mNumCols then .error (.invalidArgument, m)
  else
    (upTo 0 m.mNumRows).foldlM (fun n i =>
      (upTo 0 m.mNumCols).foldlM (fun n j =>
        withState n (do
          let a ← n.get i j
          let b ← sm.get i j
          n.set i j (a - b))) n) m

/-- The member function `operator*=(SmallMatrix const&)`; `init` is the indeterminate inline
array of the local object `newSmallMatrix`, which is copy-assigned to the receiver at the
end. -/
def SmallMatrix.mulAssign [Zero Val] [Add Val] [Mul Val] (init : Stack Val)
    (m sm : SmallMatrix Val) : Except (Err × SmallMatrix Val) (SmallMatrix Val) :=
  if m.mNumCols ≠ sm.mNumRows then .error (.invalidArgument, m)
  else
    let newSmallMatrix := SmallMatrix.ctor2 init m.mNumRows sm.mNumCols
    match (upTo 0 m.mNumRows).foldlM (fun n i =>
      (upTo 0 sm.mNumCols).foldlM (fun n j =>
        (upTo 0 m.mNumCols).foldlM (fun n k => do
          let a ← m.get i k
          let b ← sm.get k j
          let cur ← n.get i j
          n.set i j (cur + a * b)) n) n) newSmallMatrix with
    | .error e => .error (e, m)
    | .ok product => m.copyAssign product

/-- The constructor `SmallMatrix()`: its initialiser list names `mNumRows` and `mNumCols`
only, so `mIsLargeMatrix` keeps the indeterminate content `initFlag` of its storage. -/
def SmallMatrix.ctor0 (initFlag : Bool) (init : Stack Val) : SmallMatrix Val :=
  { mNumRows := 0, mNumCols := 0, mIsLargeMatrix := initFlag, mStackData := init,
    mHeapData := [] }

/-- The move constructor: the new object, and the source as the move leaves it. The call
`std::exchange(sm.mHeapData, {{}})` leaves a vector that holds one empty row, and
`std::exchange(sm.mStackData, {{}})` an array of zeros; `init` is the indeterminate inline
array of the new object. -/
def SmallMatrix.moveCtor [Zero Val] (init : Stack Val) (sm : SmallMatrix Val) :
    SmallMatrix Val × SmallMatrix Val :=
  let n0 : SmallMatrix Val :=
    { mNumRows := sm.mNumRows, mNumCols := sm.mNumCols,
      mIsLargeMatrix := decide (sm.mNumRows * sm.mNumCols ≥ mSmallSize),
      mStackData := init, mHeapData := [] }
  if sm.mIsLargeMatrix then
    ({ n0 with mHeapData := sm.mHeapData }, { sm with mHeapData := [[]] })
  else
    ({ n0 with mStackData := sm.mStackData }, { sm with mStackData := fun _ _ => 0 })

/-- The move assignment `*this = std::move(sm)` for two distinct objects (for `this == &sm`
the source returns at once and nothing changes): the receiver, and the source as the move
leaves it. -/
def SmallMatrix.moveAssign [Zero Val] (m sm : SmallMatrix Val) :
    SmallMatrix Val × SmallMatrix Val :=
  let n0 : SmallMatrix Val :=
    { m with mNumRows := sm.mNumRows, mNumCols := sm.mNumCols,
             mIsLargeMatrix := decide (sm.mNumRows * sm.mNumCols ≥ mSmallSize) }
  if sm.mIsLargeMatrix then
    ({ n0 with mHeapData := sm.mHeapData }, { sm with mHeapData := [[]] })
  else
    ({ n0 with mStackData := sm.mStackData }, { sm with mStackData := fun _ _ => 0 })

/-- The object a `double*` returned by `row` or `col` points to: an element of the inline
array or an element of the vector of vectors. -/
inductive Ref
  | stack (i j : Int)
  | heap (i j : Int)
  deriving DecidableEq

/-- The element that `operator()(i, j)` returns a reference to. -/
def SmallMatrix.refTo (m : SmallMatrix Val) (i j : Int) : Ref :=
  if m.mIsLargeMatrix then Ref.heap i j else Ref.stack i j

/-- The member functions `row(int)` and `row(int) const`, whose bodies differ in constness
only. The dynamic branch visits the whole of `mHeapData.at(numRow)`, the inline branch the
range from `begin()` to `begin() + mNumCols` of `mStackData.at(numRow)`. -/
def SmallMatrix.row (m : SmallMatrix Val) (numRow : Int) : Except Err (List Ref) :=
  if numRow ≥ m.mNumRows ∨ numRow < 0 then .error .outOfRange
  else if m.mIsLargeMatrix then
    match m.mHeapData[numRow.toNat]? with
    | none => .error .outOfRange
    | some r => .ok ((List.range r.length).map fun (k : Nat) => Ref.heap numRow (k : Int))
  else if numRow < 144 then
    if 0 ≤ m.mNumCols ∧ m.mNumCols ≤ 144 then
      .ok ((upTo 0 m.mNumCols).map fun k => Ref.stack numRow k)
    else .error .undefinedBehaviour
  else .error .outOfRange

/-- The pointer `&row.at(numCol)` for every row of the vector of vectors, as both overloads of
`col` collect it in the dynamic branch. -/
def heapColumn (h : List (List Val)) (numCol : Int) : Except Err (List Ref) :=
  h.enum.mapM fun (p : Nat × List Val) =>
    if 0 ≤ numCol ∧ numCol.toNat < p.2.length then Except.ok (Ref.heap (p.1 : Int) numCol)
    else Except.error Err.outOfRange

/-- The pointer `&row.at(numCol)` for the rows `begin()` to `begin() + bound` of the inline
array, as the overloads of `col` collect it in the inline branch. -/
def stackColumn (bound numCol : Int) : Except Err (List Ref) :=
  if 0 ≤ bound ∧ bound ≤ 144 then
    (upTo 0 bound).mapM fun k =>
      if 0 ≤ numCol ∧ numCol < 144 then Except.ok (Ref.stack k numCol)
      else Except.error Err.outOfRange
  else .error .undefinedBehaviour

/-- The member function `col(int)`, not const: its inline branch visits the rows from
`mStackData.begin()` to `mStackData.begin() + mNumCols`. -/
def SmallMatrix.col (m : SmallMatrix Val) (numCol : Int) : Except Err (List Ref) :=
  if numCol ≥ m.mNumCols ∨ numCol < 0 then .error .outOfRange
  else if m.mIsLargeMatrix then heapColumn m.mHeapData numCol
  else stackColumn m.mNumCols numCol

/-- The member function `col(int) const`: its inline branch visits the rows from
`mStackData.cbegin()` to `mStackData.cbegin() + mNumRows`. -/
def SmallMatrix.colConst (m : SmallMatrix Val) (numCol : Int) : Except Err (List Ref) :=
  if numCol ≥ m.mNumCols ∨ numCol < 0 then .error .outOfRange
  else if m.mIsLargeMatrix then heapColumn m.mHeapData numCol
  else stackColumn m.mNumRows numCol

/-- The friend function `operator*(double, SmallMatrix const&)`; `init` is the indeterminate
inline array of the local object `newSmallMatrix`. -/
def SmallMatrix.smul [Zero Val] [Mul Val] (init : Stack Val) (s : Val) (sm : SmallMatrix Val) :
    Except Err (SmallMatrix Val) :=
  let newSmallMatrix := SmallMatrix.ctor2 init sm.mNumRows sm.mNumCols
  (upTo 0 sm.mNumRows).foldlM (fun n i =>
    (upTo 0 sm.mNumCols).foldlM (fun n j => do
      let v ← sm.get i j
      n.set i j (s * v)) n) newSmallMatrix

/-- The friend function `operator*(SmallMatrix const&, double)`, which returns
`operator*(s, sm)`. -/
def SmallMatrix.mulScalar [Zero Val] [Mul Val] (init : Stack Val) (sm : SmallMatrix Val)
    (s : Val) : Except Err (SmallMatrix Val) :=
  SmallMatrix.smul init s sm

/-- Every in-range cell of `m` is backed by the buffer that `mIsLargeMatrix` selects: the
dimensions are non-negative; a dynamic matrix has at least `mNumRows` rows in `mHeapData`, the
first `mNumRows` of them of length `mNumCols`; an inline matrix has fewer than `144`
elements. -/
def SmallMatrix.Backed (m : SmallMatrix Val) : Prop :=
  0 ≤ m.mNumRows ∧ 0 ≤ m.mNumCols ∧
  (m.mIsLargeMatrix = true →
    m.mNumRows.toNat ≤ m.mHeapData.length ∧
    ∀ row ∈ m.mHeapData.take m.mNumRows.toNat, row.length = m.mNumCols.toNat) ∧
  (m.mIsLargeMatrix = false → m.mNumRows * m.mNumCols < 144)

/-- The dynamic buffer is sized exactly: `m` is backed and, when dynamic, `mHeapData` has
exactly `mNumRows` rows. -/
def SmallMatrix.Exact (m : SmallMatrix Val) : Prop :=
  m.Backed ∧ (m.mIsLargeMatrix = true → m.mHeapData.length = m.mNumRows.toNat)

/-- The part of the flag invariant that every operation maintains: the shape is non-negative
and a matrix with at least `144` elements is dynamic, so an inline matrix has fewer than `144`
elements. A dynamic matrix may have fewer than `144` elements. -/
def SmallMatrix.FlagSound (m : SmallMatrix Val) : Prop :=
  0 ≤ m.mNumRows ∧ 0 ≤ m.mNumCols ∧
  (m.mIsLargeMatrix = false → m.mNumRows * m.mNumCols < 144)

/-- The value of cell `(i, j)` as `operator()` returns it, and `0` where the access throws;
used to state sums over cells. -/
def SmallMatrix.cell [Zero Val] (m : SmallMatrix Val) (i j : Int) : Val :=
  match m.get i j with
  | .ok x => x
  | .error _ => 0

/-! ## Theorems -/

/-! ### Constructors and the representation flag -/

/-- The 32-bit product of two non-negative `int`s whose exact product fits an `int`. -/
theorem intMul_of_fit (r c : Int) (hr : 0 ≤ r) (hc : 0 ≤ c) (hb : r * c < 2147483648) :
    intMul r c = r * c := by
  have h0 := Int.mul_nonneg hr hc
  unfold intMul
  omega

theorem ctor2_isSmall [Zero Val] (init : Stack Val) (r c : Int) (hr : 0 ≤ r) (hc : 0 ≤ c)
    (hb : r * c < 2147483648) :
    (SmallMatrix.ctor2 init r c).isSmall = decide (r * c < 144) := by
  unfold SmallMatrix.ctor2 SmallMatrix.isSmall mSmallSize
  rw [intMul_of_fit r c hr hc hb]
  by_cases h : r * c < 144
  · have : ¬ (r * c ≥ 144) := by omega
    simp [h, this]
  · have : r * c ≥ 144 := by omega
    simp [h, this]

theorem ctor3_isSmall (init : Stack Val) (r c : Int) (v : Val) (hr : 0 ≤ r) (hc : 0 ≤ c)
    (hb : r * c < 2147483648) :
    (SmallMatrix.ctor3 init r c v).isSmall = decide (r * c < 144) := by
  unfold SmallMatrix.ctor3 SmallMatrix.isSmall mSmallSize
  rw [intMul_of_fit r c hr hc hb]
  by_cases h : r * c < 144
  · have : ¬ (r * c ≥ 144) := by omega
    simp [h, this]
  · have : r * c ≥ 144 := by omega
    simp [h, this]

theorem adjacentSizesDiffer_of_rectangular (c : Nat) :
    ∀ il : List (List Val), (∀ row ∈ il, row.length = c) → adjacentSizesDiffer il = false
  | [], _ => rfl
  | [_], _ => rfl
  | a :: b :: rest, h => by
    have ha : a.length = c := h a (by simp)
    have hb : b.length = c := h b (by simp)
    have ih := adjacentSizesDiffer_of_rectangular c (b :: rest)
      (fun row hrow => h row (List.mem_cons_of_mem _ hrow))
    simp [adjacentSizesDiffer, ha, hb, ih]

/-- A round of the list constructor's loop changes neither the shape nor the flag, and
advances `row_index` by one. -/
theorem ctorListStep_keeps [Zero Val] (st st2 : SmallMatrix Val × Int) (row : List Val)
    (h : ctorListStep st row = .ok st2) :
    st2.1.mIsLargeMatrix = st.1.mIsLargeMatrix ∧ st2.1.mNumRows = st.1.mNumRows ∧
      st2.1.mNumCols = st.1.mNumCols ∧ st2.2 = st.2 + 1 ∧
      (st.1.mIsLargeMatrix = true → st2.1.mHeapData.length = st.1.mHeapData.length) := by
  unfold ctorListStep at h
  split at h
  · split at h
    · split at h
      · cases h
      · dsimp only at h
        split at h
        · cases h; simp_all
        · cases h
    · cases h
  · split at h
    · split at h
      · cases h; simp_all
      · cases h
    · cases h

theorem ctorList_loop_keeps [Zero Val] (il : List (List Val)) :
    ∀ (st st2 : SmallMatrix Val × Int), il.foldlM ctorListStep st = .ok st2 →
      st2.1.mIsLargeMatrix = st.1.mIsLargeMatrix ∧ st2.1.mNumRows = st.1.mNumRows ∧
        st2.1.mNumCols = st.1.mNumCols := by
  induction il with
  | nil =>
    intro st st2 h
    simp [List.foldlM, pure, Except.pure] at h
    subst h
    simp
  | cons row rest ih =>
    intro st st2 h
    rw [List.foldlM_cons] at h
    cases hstep : ctorListStep st row with
    | error e => rw [hstep] at h; cases h
    | ok st1 =>
      rw [hstep] at h
      have h1 := ctorListStep_keeps st st1 row hstep
      have h2 := ih st1 st2 h
      exact ⟨h2.1.trans h1.1, h2.2.1.trans h1.2.1, h2.2.2.trans h1.2.2.1⟩

theorem vecResize_length {α : Type} (n : Nat) (fill : α) (l : List α) :
    (vecResize n fill l).length = n := by
  simp [vecResize]
  omega

/-- The list constructor's loop runs to its end when every remaining row has a slot: in the
dynamic buffer a row of `mHeapData` wide enough after `resize(mNumCols)`, in the inline buffer
a row index below `144`. -/
theorem ctorList_loop_ok [Zero Val] (rest : List (List Val)) :
    ∀ st : SmallMatrix Val × Int, 0 ≤ st.2 →
      (st.1.mIsLargeMatrix = true →
        st.2.toNat + rest.length ≤ st.1.mHeapData.length ∧
        ∀ row ∈ rest, row.length ≤ st.1.mNumCols.toNat) →
      (st.1.mIsLargeMatrix = false →
        st.2 + rest.length ≤ 144 ∧ ∀ row ∈ rest, row.length ≤ 144) →
      ∃ st2, rest.foldlM ctorListStep st = .ok st2 := by
  induction rest with
  | nil => intro st _ _ _; exact ⟨st, rfl⟩
  | cons row rest ih =>
    intro st h0 hL hS
    rw [List.foldlM_cons]
    have hstep : ∃ st1, ctorListStep st row = .ok st1 := by
      unfold ctorListStep
      cases hflag : st.1.mIsLargeMatrix with
      | true =>
        obtain ⟨hlen, hrows⟩ := hL hflag
        have hlt : st.2.toNat < st.1.mHeapData.length := by
          simp only [List.length_cons] at hlen; omega
        have hrow : row.length ≤ st.1.mNumCols.toNat := hrows row (by simp)
        simp [h0, List.getElem?_eq_getElem hlt, vecResize_length, hrow]
      | false =>
        obtain ⟨hlen, hrows⟩ := hS hflag
        have hrow : row.length ≤ 144 := hrows row (by simp)
        have hlt : st.2 < 144 := by
          simp only [List.length_cons] at hlen; push_cast at hlen; omega
        simp [h0, hlt, hrow]
    obtain ⟨st1, hst1⟩ := hstep
    rw [hst1]
    have hk := ctorListStep_keeps st st1 row hst1
    apply ih st1
    · omega
    · intro hf
      have hf0 : st.1.mIsLargeMatrix = true := by rw [← hk.1]; exact hf
      obtain ⟨hlen, hrows⟩ := hL hf0
      refine ⟨?_, ?_⟩
      · rw [hk.2.2.2.2 hf0, hk.2.2.2.1]
        simp only [List.length_cons] at hlen
        omega
      · intro r hr
        rw [hk.2.2.1]
        exact hrows r (List.mem_cons_of_mem _ hr)
    · intro hf
      have hf0 : st.1.mIsLargeMatrix = false := by rw [← hk.1]; exact hf
      obtain ⟨hlen, hrows⟩ := hS hf0
      refine ⟨?_, ?_⟩
      · rw [hk.2.2.2.1]
        simp only [List.length_cons] at hlen
        push_cast at hlen
        omega
      · intro r hr
        exact hrows r (List.mem_cons_of_mem _ hr)

/-- The column count that the list constructor reads off the first row. -/
theorem ctorList_cols (il : List (List Val)) (c : Int) (hc : ∀ row ∈ il, (row.length : Int) = c) :
    (il.length : Int) * firstRowSize il = (il.length : Int) * c := by
  cases il with
  | nil => simp
  | cons row rest => simp only [firstRowSize]; rw [hc row (by simp)]

/-- For every `r, c >= 0` whose product fits an `int` and every value `v`, the matrices built
by `SmallMatrix(r, c)`, by `SmallMatrix(r, c, v)` and from a rectangular nested list of `r` rows
of `c` numbers report `isSmall() == true` exactly when `r * c < 144` (and `false` exactly when
`r * c >= 144`). The list constructor builds a matrix for every such list with `r <= 144` or
`r * c >= 144`. -/
theorem isSmall_iff_below_threshold [Zero Val] (init : Stack Val) (r c : Int)
    (hr : 0 ≤ r) (hc : 0 ≤ c) (hb : r * c < 2147483648) (v : Val) :
    (SmallMatrix.ctor2 init r c).isSmall = decide (r * c < 144) ∧
    (SmallMatrix.ctor3 init r c v).isSmall = decide (r * c < 144) ∧
    ∀ il : List (List Val), (il.length : Int) = r → (∀ row ∈ il, (row.length : Int) = c) →
      (∀ m, SmallMatrix.ctorList init il = .ok m → m.isSmall = decide (r * c < 144)) ∧
      ((r ≤ 144 ∨ 144 ≤ r * c) → ∃ m, SmallMatrix.ctorList init il = .ok m) := by
  refine ⟨ctor2_isSmall init r c hr hc hb, ctor3_isSmall init r c v hr hc hb, ?_⟩
  intro il hlen hrows
  have hrect : adjacentSizesDiffer il = false :=
    adjacentSizesDiffer_of_rectangular c.toNat il (fun row hrow => by
      have := hrows row hrow
      omega)
  have hprod := ctorList_cols il c hrows
  rw [hlen] at hprod
  refine ⟨?_, ?_⟩
  · intro m hm
    unfold SmallMatrix.ctorList at hm
    simp only [hrect, Bool.false_eq_true, if_false] at hm
    cases hloop : il.foldlM ctorListStep _ with
    | error e => rw [hloop] at hm; cases hm
    | ok st2 =>
      rw [hloop] at hm
      simp only [Except.map] at hm
      cases hm
      have hk := ctorList_loop_keeps il _ st2 hloop
      unfold SmallMatrix.isSmall
      rw [hk.1]
      simp only [hlen, hprod, mSmallSize]
      by_cases h : r * c < 144
      · have : ¬ (r * c ≥ 144) := by omega
        simp [h, this]
      · have : r * c ≥ 144 := by omega
        simp [h, this]
  · intro hsize
    unfold SmallMatrix.ctorList
    simp only [hrect, Bool.false_eq_true, if_false]
    have hok := ctorList_loop_ok il
      (({ mNumRows := (il.length : Int),
          mNumCols := firstRowSize il,
          mIsLargeMatrix := decide ((il.length : Int) * firstRowSize il ≥ mSmallSize),
          mStackData := init,
          mHeapData := if decide ((il.length : Int) * firstRowSize il ≥ mSmallSize) = true
            then vecResize (il.length : Int).toNat [] [] else [] } : SmallMatrix Val), 0)
      (le_refl _) ?_ ?_
    · obtain ⟨st2, hst2⟩ := hok
      exact ⟨st2.1, by rw [hst2]; rfl⟩
    · intro hf
      simp only at hf
      simp only [hf, if_true, vecResize_length]
      refine ⟨by simp, ?_⟩
      intro row hrow
      cases il with
      | nil => cases hrow
      | cons r0 rest =>
        have h1 := hrows row hrow
        have h2 := hrows r0 (by simp)
        have h3 : firstRowSize (r0 :: rest) = (r0.length : Int) := rfl
        omega
    · intro hf
      simp only [hlen, hprod, mSmallSize, decide_eq_false_iff_not, not_le, ge_iff_le] at hf
      have hr144 : r ≤ 144 := by
        rcases hsize with h | h
        · exact h
        · omega
      refine ⟨by simp only; omega, ?_⟩
      intro row hrow
      have h1 := hrows row hrow
      have hpos : 1 ≤ r := by
        cases il with
        | nil => cases hrow
        | cons r0 rest => simp only [List.length_cons] at hlen; push_cast at hlen; omega
      have : c < 144 := by nlinarith
      omega

/-! ### Loops over the inline buffer -/

theorem upTo_nil (a b : Int) (h : b ≤ a) : upTo a b = [] := by
  have : (b - a).toNat = 0 := by omega
  simp [upTo, this]

theorem upTo_succ (a b : Int) (h : a ≤ b) : upTo a (b + 1) = upTo a b ++ [b] := by
  have h1 : (b + 1 - a).toNat = (b - a).toNat + 1 := by omega
  have h2 : a + ((b - a).toNat : Int) = b := by omega
  simp only [upTo, h1, List.range_succ, List.map_append, List.map_cons, List.map_nil, h2]

theorem downTo_nil (a b : Int) (h : a ≤ b) : downTo a b = [] := by
  have : (a - b).toNat = 0 := by omega
  simp [downTo, this]

theorem downTo_succ (a b : Int) (h : b < a) : downTo a b = downTo a (b + 1) ++ [b + 1] := by
  have h1 : (a - b).toNat = (a - (b + 1)).toNat + 1 := by omega
  have h2 : a - ((a - (b + 1)).toNat : Int) = b + 1 := by omega
  simp only [downTo, h1, List.range_succ, List.map_append, List.map_cons, List.map_nil, h2]

/-- A loop that has run over `l` without an exception runs over `l ++ [x]` like its body
at `x`. -/
theorem foldlM_snoc_ok {ε σ ι : Type} (f : σ → ι → Except ε σ) (l : List ι) (x : ι)
    (s s1 : σ) (r : Except ε σ) (h1 : l.foldlM f s = .ok s1) (h2 : f s1 x = r) :
    (l ++ [x]).foldlM f s = r := by
  rw [List.foldlM_append, h1]
  simp only [bind, Except.bind, List.foldlM_cons, List.foldlM_nil, h2, pure, Except.pure]
  cases r <;> rfl

/-- One assignment `stackArray.at(dst).at(j) = stackArray.at(src).at(j)` inside the buffer. -/
theorem copyCell_ok (s : Stack Val) (dst src j : Int) (hd : 0 ≤ dst ∧ dst < 144)
    (hs : 0 ≤ src ∧ src < 144) (hj : 0 ≤ j ∧ j < 144) :
    withState s (do
        let v ← stackAt s src j
        stackAssign s dst j v) = .ok (stackSet s dst j (s src j)) := by
  simp [stackAt, stackAssign, hd.1, hd.2, hs.1, hs.2, hj.1, hj.2, withState, bind, Except.bind]

/-- The inner loop of the two shift functions copies the first `n` cells of row `src` into
row `dst`. -/
theorem copyRow_loop_nat (dst src : Int) (n : Nat)
    (hb : 0 < n → 0 ≤ dst ∧ dst < 144 ∧ 0 ≤ src ∧ src < 144 ∧ (n : Int) ≤ 144)
    (s : Stack Val) :
    (upTo 0 (n : Int)).foldlM (fun s j =>
        withState s (do
          let v ← stackAt s src j
          stackAssign s dst j v)) s =
      .ok (fun a b => if a = dst ∧ 0 ≤ b ∧ b < (n : Int) then s src b else s a b) := by
  induction n with
  | zero =>
    simp only [Nat.cast_zero, upTo_nil 0 0 (le_refl _), List.foldlM_nil, pure, Except.pure]
    congr 1
    funext a b
    have : ¬ (a = dst ∧ 0 ≤ b ∧ b < 0) := by omega
    simp [this]
  | succ n ih =>
    have hb1 := hb (Nat.succ_pos n)
    have hcast : ((n + 1 : Nat) : Int) = (n : Int) + 1 := by push_cast; rfl
    rw [hcast, upTo_succ 0 n (by omega)]
    refine foldlM_snoc_ok _ _ _ _ _ _
      (ih (fun hn => ⟨hb1.1, hb1.2.1, hb1.2.2.1, hb1.2.2.2.1, by omega⟩)) ?_
    beta_reduce
    rw [copyCell_ok _ dst src n ⟨hb1.1, hb1.2.1⟩ ⟨hb1.2.2.1, hb1.2.2.2.1⟩ ⟨by omega, by omega⟩]
    congr 1
    funext a b
    simp only [stackSet]
    have hsrc : ¬ (src = dst ∧ 0 ≤ (n : Int) ∧ (n : Int) < (n : Int)) := by omega
    simp only [hsrc, if_false]
    by_cases h1 : a = dst ∧ b = (n : Int)
    · have h2 : a = dst ∧ 0 ≤ b ∧ b < (n : Int) + 1 := by omega
      rw [if_pos h1, if_pos h2, h1.2]
    · rw [if_neg h1]
      by_cases h3 : a = dst ∧ 0 ≤ b ∧ b < (n : Int)
      · have h2 : a = dst ∧ 0 ≤ b ∧ b < (n : Int) + 1 := by omega
        rw [if_pos h3, if_pos h2]
      · have h2 : ¬ (a = dst ∧ 0 ≤ b ∧ b < (n : Int) + 1) := by omega
        rw [if_neg h3, if_neg h2]

theorem copyRow_loop (dst src : Int) (c : Int)
    (hb : 0 < c → 0 ≤ dst ∧ dst < 144 ∧ 0 ≤ src ∧ src < 144 ∧ c ≤ 144)
    (s : Stack Val) :
    (upTo 0 c).foldlM (fun s j =>
        withState s (do
          let v ← stackAt s src j
          stackAssign s dst j v)) s =
      .ok (fun a b => if a = dst ∧ 0 ≤ b ∧ b < c then s src b else s a b) := by
  by_cases hc : 0 ≤ c
  · obtain ⟨n, rfl⟩ := Int.eq_ofNat_of_zero_le hc
    exact copyRow_loop_nat dst src n (fun hn => hb (by omega)) s
  · rw [upTo_nil 0 c (by omega)]
    simp only [List.foldlM_nil, pure, Except.pure]
    congr 1
    funext a b
    have : ¬ (a = dst ∧ 0 ≤ b ∧ b < c) := by omega
    simp [this]

theorem shiftArrayElementsUp_nat (k c : Int) (hk : 0 ≤ k) (n : Nat)
    (hb : 0 < c → k + n < 144 ∧ c ≤ 144) (s : Stack Val) :
    shiftArrayElementsUp k s (k + n) c =
      .ok (fun a b => if k ≤ a ∧ a < k + n ∧ 0 ≤ b ∧ b < c then s (a + 1) b else s a b) := by
  unfold shiftArrayElementsUp
  induction n with
  | zero =>
    rw [upTo_nil k _ (by simp)]
    simp only [List.foldlM_nil, pure, Except.pure]
    congr 1
    funext a b
    have : ¬ (k ≤ a ∧ a < k + ((0 : Nat) : Int) ∧ 0 ≤ b ∧ b < c) := by omega
    rw [if_neg this]
  | succ n ih =>
    have hcast : k + ((n + 1 : Nat) : Int) = (k + (n : Int)) + 1 := by push_cast; ring
    rw [hcast, upTo_succ k _ (by omega)]
    refine foldlM_snoc_ok _ _ _ _ _ _ (ih (fun hc => ⟨by have := hb hc; omega, (hb hc).2⟩)) ?_
    beta_reduce
    rw [copyRow_loop _ _ c (fun hc => by have := hb hc; omega)]
    congr 1
    funext a b
    by_cases h1 : a = k + (n : Int) ∧ 0 ≤ b ∧ b < c
    · have h2 : k ≤ a ∧ a < k + (n : Int) + 1 ∧ 0 ≤ b ∧ b < c := by omega
      have h3 : ¬ (k ≤ k + (n : Int) + 1 ∧ k + (n : Int) + 1 < k + (n : Int) ∧ 0 ≤ b ∧ b < c) := by
        omega
      rw [if_pos h1, if_pos h2, if_neg h3, h1.1]
    · rw [if_neg h1]
      by_cases h3 : k ≤ a ∧ a < k + (n : Int) ∧ 0 ≤ b ∧ b < c
      · have h2 : k ≤ a ∧ a < k + (n : Int) + 1 ∧ 0 ≤ b ∧ b < c := by omega
        rw [if_pos h3, if_pos h2]
      · have h2 : ¬ (k ≤ a ∧ a < k + (n : Int) + 1 ∧ 0 ≤ b ∧ b < c) := by omega
        rw [if_neg h3, if_neg h2]

/-- Closed form of `shiftArrayElementsUp`: rows `k .. R - 1` receive their successors. -/
theorem shiftArrayElementsUp_ok (k R c : Int) (hk : 0 ≤ k) (hb : 0 < c → R < 144 ∧ c ≤ 144)
    (s : Stack Val) :
    shiftArrayElementsUp k s R c =
      .ok (fun a b => if k ≤ a ∧ a < R ∧ 0 ≤ b ∧ b < c then s (a + 1) b else s a b) := by
  by_cases hR : k ≤ R
  · have h := shiftArrayElementsUp_nat k c hk (R - k).toNat
      (fun hc => by have := hb hc; omega) s
    have e : k + ((R - k).toNat : Int) = R := by omega
    rw [e] at h
    exact h
  · unfold shiftArrayElementsUp
    rw [upTo_nil k R (by omega)]
    simp only [List.foldlM_nil, pure, Except.pure]
    congr 1
    funext a b
    have : ¬ (k ≤ a ∧ a < R ∧ 0 ≤ b ∧ b < c) := by omega
    simp [this]

theorem shiftArrayElementsDown_nat (R c : Int) (n : Nat)
    (hb : 0 < c → R < 144 ∧ 0 ≤ R - n ∧ c ≤ 144) (s : Stack Val) :
    shiftArrayElementsDown R s (R - n) c =
      .ok (fun a b => if R - n < a ∧ a ≤ R ∧ 0 ≤ b ∧ b < c then s (a - 1) b else s a b) := by
  unfold shiftArrayElementsDown
  induction n with
  | zero =>
    rw [downTo_nil R _ (by simp)]
    simp only [List.foldlM_nil, pure, Except.pure]
    congr 1
    funext a b
    have : ¬ (R - ((0 : Nat) : Int) < a ∧ a ≤ R ∧ 0 ≤ b ∧ b < c) := by omega
    rw [if_neg this]
  | succ n ih =>
    have hcast : R - ((n + 1 : Nat) : Int) + 1 = R - (n : Int) := by push_cast; ring
    rw [downTo_succ R _ (by omega), hcast]
    refine foldlM_snoc_ok _ _ _ _ _ _ (ih (fun hc => by have := hb hc; omega)) ?_
    beta_reduce
    rw [copyRow_loop _ _ c (fun hc => by have := hb hc; omega)]
    congr 1
    funext a b
    have hc2 : R - ((n + 1 : Nat) : Int) = R - (n : Int) - 1 := by push_cast; ring
    rw [hc2]
    by_cases h1 : a = R - (n : Int) ∧ 0 ≤ b ∧ b < c
    · have h2 : R - (n : Int) - 1 < a ∧ a ≤ R ∧ 0 ≤ b ∧ b < c := by omega
      have h3 : ¬ (R - (n : Int) < R - (n : Int) - 1 ∧ R - (n : Int) - 1 ≤ R ∧ 0 ≤ b ∧ b < c) := by
        omega
      rw [if_pos h1, if_pos h2, if_neg h3, h1.1]
    · rw [if_neg h1]
      by_cases h3 : R - (n : Int) < a ∧ a ≤ R ∧ 0 ≤ b ∧ b < c
      · have h2 : R - (n : Int) - 1 < a ∧ a ≤ R ∧ 0 ≤ b ∧ b < c := by omega
        rw [if_pos h3, if_pos h2]
      · have h2 : ¬ (R - (n : Int) - 1 < a ∧ a ≤ R ∧ 0 ≤ b ∧ b < c) := by omega
        rw [if_neg h3, if_neg h2]

/-- Closed form of `shiftArrayElementsDown`: rows `k + 1 .. R` receive their predecessors. -/
theorem shiftArrayElementsDown_ok (R k c : Int) (hk : 0 ≤ k) (hb : 0 < c → R < 144 ∧ c ≤ 144)
    (s : Stack Val) :
    shiftArrayElementsDown R s k c =
      .ok (fun a b => if k < a ∧ a ≤ R ∧ 0 ≤ b ∧ b < c then s (a - 1) b else s a b) := by
  by_cases hR : k ≤ R
  · have h := shiftArrayElementsDown_nat R c (R - k).toNat
      (fun hc => by have := hb hc; omega) s
    have e : R - ((R - k).toNat : Int) = k := by omega
    rw [e] at h
    exact h
  · unfold shiftArrayElementsDown
    rw [downTo_nil R k (by omega)]
    simp only [List.foldlM_nil, pure, Except.pure]
    congr 1
    funext a b
    have : ¬ (k < a ∧ a ≤ R ∧ 0 ≤ b ∧ b < c) := by omega
    simp [this]

theorem writeRow_nat (k : Int) (row : List Val) (n : Nat) (hn : n ≤ row.length)
    (hb : 0 < n → 0 ≤ k ∧ k < 144 ∧ (n : Int) ≤ 144) (s : Stack Val) :
    writeRow s k (n : Int) row =
      .ok (fun a b => if a = k ∧ 0 ≤ b ∧ b < (n : Int) then (row[b.toNat]?).getD (s a b)
        else s a b) := by
  unfold writeRow
  induction n with
  | zero =>
    rw [upTo_nil 0 _ (by simp)]
    simp only [List.foldlM_nil, pure, Except.pure]
    congr 1
    funext a b
    have : ¬ (a = k ∧ 0 ≤ b ∧ b < ((0 : Nat) : Int)) := by omega
    rw [if_neg this]
  | succ n ih =>
    have hb1 := hb (Nat.succ_pos n)
    have hcast : ((n + 1 : Nat) : Int) = (n : Int) + 1 := by push_cast; rfl
    rw [hcast, upTo_succ 0 n (by omega)]
    refine foldlM_snoc_ok _ _ _ _ _ _ (ih (by omega) (fun _ => ⟨hb1.1, hb1.2.1, by omega⟩)) ?_
    beta_reduce
    have hlt : n < row.length := by omega
    have hget : row[((n : Int)).toNat]? = some row[n] := by
      simp [List.getElem?_eq_getElem hlt]
    have hn0 : (0 : Int) ≤ n := by omega
    have hn1 : (n : Int) < 144 := by omega
    simp only [hget, stackAssign, hb1.1, hb1.2.1, hn0, hn1, and_self, if_true, bind,
      Except.bind, withState]
    congr 1
    funext a b
    simp only [stackSet]
    by_cases h1 : a = k ∧ b = (n : Int)
    · have h2 : a = k ∧ 0 ≤ b ∧ b < (n : Int) + 1 := by omega
      rw [if_pos h1, if_pos h2, h1.2, hget]
      rfl
    · rw [if_neg h1]
      by_cases h3 : a = k ∧ 0 ≤ b ∧ b < (n : Int)
      · have h2 : a = k ∧ 0 ≤ b ∧ b < (n : Int) + 1 := by omega
        rw [if_pos h3, if_pos h2]
      · have h2 : ¬ (a = k ∧ 0 ≤ b ∧ b < (n : Int) + 1) := by omega
        rw [if_neg h3, if_neg h2]

/-- Closed form of the loop of `insertRow` that writes the new row into the inline buffer. -/
theorem writeRow_ok (k c : Int) (row : List Val) (hlen : (row.length : Int) = c)
    (hb : 0 < c → 0 ≤ k ∧ k < 144 ∧ c ≤ 144) (s : Stack Val) :
    writeRow s k c row =
      .ok (fun a b => if a = k ∧ 0 ≤ b ∧ b < c then (row[b.toNat]?).getD (s a b)
        else s a b) := by
  subst hlen
  exact writeRow_nat k row row.length (le_refl _) (fun h => hb (by omega)) s

/-! ### Element access -/

theorem get_outOfRange (m : SmallMatrix Val) (i j : Int)
    (h : i < 0 ∨ i ≥ m.mNumRows ∨ j < 0 ∨ j ≥ m.mNumCols) : m.get i j = .error .outOfRange := by
  unfold SmallMatrix.get
  have : i ≥ m.mNumRows ∨ j ≥ m.mNumCols ∨ i < 0 ∨ j < 0 := by omega
  simp [this]

theorem get_inRange (m : SmallMatrix Val) (i j : Int)
    (hi : 0 ≤ i ∧ i < m.mNumRows) (hj : 0 ≤ j ∧ j < m.mNumCols) :
    m.get i j = if m.mIsLargeMatrix then heapAt m.mHeapData i j
      else stackAt m.mStackData i j := by
  unfold SmallMatrix.get
  have : ¬ (i ≥ m.mNumRows ∨ j ≥ m.mNumCols ∨ i < 0 ∨ j < 0) := by omega
  simp [this]

theorem stackAt_ok (s : Stack Val) (i j : Int) (hi : 0 ≤ i ∧ i < 144) (hj : 0 ≤ j ∧ j < 144) :
    stackAt s i j = .ok (s i j) := by
  simp [stackAt, hi.1, hi.2, hj.1, hj.2]

theorem heapAt_ok (h : List (List Val)) (i j : Int) (row : List Val) (x : Val)
    (hi : 0 ≤ i) (hj : 0 ≤ j) (hrow : h[i.toNat]? = some row) (hx : row[j.toNat]? = some x) :
    heapAt h i j = .ok x := by
  simp [heapAt, hi, hj, hrow, hx]

/-- In an inline matrix with fewer than `144` elements every in-range index is below `144`. -/
theorem inline_index_bound (r c i j : Int) (h : r * c < 144) (hi : 0 ≤ i ∧ i < r)
    (hj : 0 ≤ j ∧ j < c) : i < 144 ∧ j < 144 := by
  constructor
  · by_contra hcon
    have h1 : 144 ≤ r := by omega
    have h2 : 1 ≤ c := by omega
    nlinarith
  · by_contra hcon
    have h1 : 144 ≤ c := by omega
    have h2 : 1 ≤ r := by omega
    nlinarith

/-- An in-range cell of a backed matrix can be read. -/
theorem get_ok_of_backed (m : SmallMatrix Val) (hB : m.Backed) (i j : Int)
    (hi : 0 ≤ i ∧ i < m.mNumRows) (hj : 0 ≤ j ∧ j < m.mNumCols) :
    ∃ x, m.get i j = .ok x := by
  rw [get_inRange m i j hi hj]
  obtain ⟨_, _, hL, hS⟩ := hB
  cases hflag : m.mIsLargeMatrix with
  | true =>
    obtain ⟨hlen, hrows⟩ := hL hflag
    have hlt : i.toNat < m.mHeapData.length := by omega
    have hmem : m.mHeapData[i.toNat] ∈ m.mHeapData.take m.mNumRows.toNat := by
      rw [List.mem_take_iff_getElem]
      exact ⟨i.toNat, by omega, rfl⟩
    have hrl := hrows _ hmem
    have hjl : j.toNat < (m.mHeapData[i.toNat]).length := by omega
    have e1 := List.getElem?_eq_getElem hlt
    have e2 := List.getElem?_eq_getElem hjl
    refine ⟨m.mHeapData[i.toNat][j.toNat], ?_⟩
    simpa using heapAt_ok m.mHeapData i j _ _ hi.1 hj.1 e1 e2
  | false =>
    have hb := inline_index_bound _ _ i j (hS hflag) hi hj
    refine ⟨m.mStackData i j, ?_⟩
    simpa using stackAt_ok m.mStackData i j ⟨hi.1, hb.1⟩ ⟨hj.1, hb.2⟩

theorem heapAt_congr (h1 h2 : List (List Val)) (i1 i2 j : Int) (hi1 : 0 ≤ i1) (hi2 : 0 ≤ i2)
    (h : h1[i1.toNat]? = h2[i2.toNat]?) : heapAt h1 i1 j = heapAt h2 i2 j := by
  unfold heapAt
  simp only [hi1, hi2, true_and, h]

/-! ### eraseRow -/

theorem eraseRow_outOfRange (m : SmallMatrix Val) (k : Int) (h : k < 0 ∨ k ≥ m.mNumRows) :
    m.eraseRow k = .error (.outOfRange, m) := by
  unfold SmallMatrix.eraseRow
  simp [h]

theorem get_large (m : SmallMatrix Val) (hflag : m.mIsLargeMatrix = true) (i j : Int)
    (hi : 0 ≤ i ∧ i < m.mNumRows) (hj : 0 ≤ j ∧ j < m.mNumCols) :
    m.get i j = heapAt m.mHeapData i j := by
  rw [get_inRange m i j hi hj, hflag]
  rfl

theorem get_inline (m : SmallMatrix Val) (hflag : m.mIsLargeMatrix = false) (i j : Int)
    (hi : 0 ≤ i ∧ i < m.mNumRows) (hj : 0 ≤ j ∧ j < m.mNumCols)
    (hb : i < 144 ∧ j < 144) :
    m.get i j = .ok (m.mStackData i j) := by
  rw [get_inRange m i j hi hj, hflag]
  exact stackAt_ok _ i j ⟨hi.1, hb.1⟩ ⟨hj.1, hb.2⟩

theorem eraseRow_large (m : SmallMatrix Val) (k : Int) (hk : 0 ≤ k ∧ k < m.mNumRows)
    (hflag : m.mIsLargeMatrix = true) (hlen : m.mNumRows.toNat ≤ m.mHeapData.length) :
    ∃ m2, m.eraseRow k = .ok m2 ∧ m2.mNumRows = m.mNumRows - 1 ∧ m2.mNumCols = m.mNumCols ∧
      m2.mIsLargeMatrix = true ∧ m2.mStackData = m.mStackData ∧
      m2.mHeapData = m.mHeapData.eraseIdx k.toNat := by
  unfold SmallMatrix.eraseRow
  have h1 : ¬ (k < 0 ∨ k ≥ m.mNumRows) := by omega
  have h2 : k.toNat < m.mHeapData.length := by omega
  simp [h1, hflag, vecErase, hk.1, h2]

theorem eraseRow_inline (m : SmallMatrix Val) (k : Int) (hk : 0 ≤ k ∧ k < m.mNumRows)
    (hflag : m.mIsLargeMatrix = false) (hcount : m.mNumRows * m.mNumCols < 144) :
    ∃ m2, m.eraseRow k = .ok m2 ∧ m2.mNumRows = m.mNumRows - 1 ∧ m2.mNumCols = m.mNumCols ∧
      m2.mIsLargeMatrix = false ∧ m2.mHeapData = m.mHeapData ∧
      m2.mStackData = (fun a b =>
        if k ≤ a ∧ a < m.mNumRows - 1 ∧ 0 ≤ b ∧ b < m.mNumCols then m.mStackData (a + 1) b
        else m.mStackData a b) := by
  unfold SmallMatrix.eraseRow
  have h1 : ¬ (k < 0 ∨ k ≥ m.mNumRows) := by omega
  have hb : 0 < m.mNumCols → m.mNumRows - 1 < 144 ∧ m.mNumCols ≤ 144 := by
    intro hpos
    have hr := inline_index_bound _ _ k 0 hcount hk ⟨le_refl _, hpos⟩
    have hcb := inline_index_bound _ _ k (m.mNumCols - 1) hcount hk ⟨by omega, by omega⟩
    constructor
    · by_contra hcon
      have : 144 ≤ m.mNumRows := by omega
      nlinarith
    · omega
  simp [h1, hflag, shiftArrayElementsUp_ok k _ _ hk.1 hb]

/-- The cells after `eraseRow`, on a matrix whose cells are backed by its active buffer:
the failure condition, the shape, the rows below and above the erased one, and the flag. -/
theorem eraseRow_cells (m : SmallMatrix Val) (hB : m.Backed) (k : Int) :
    ((∃ st, m.eraseRow k = .error (Err.outOfRange, st)) ↔ (k < 0 ∨ k ≥ m.mNumRows)) ∧
    (¬ (k < 0 ∨ k ≥ m.mNumRows) →
      ∃ m2, m.eraseRow k = .ok m2 ∧ m2.size = (m.mNumRows - 1, m.mNumCols) ∧
        m2.isSmall = m.isSmall ∧
        (∀ i j, 0 ≤ i → i < k → 0 ≤ j → j < m.mNumCols →
          ∃ x, m.get i j = .ok x ∧ m2.get i j = .ok x) ∧
        (∀ i j, k ≤ i → i < m.mNumRows - 1 → 0 ≤ j → j < m.mNumCols →
          ∃ x, m.get (i + 1) j = .ok x ∧ m2.get i j = .ok x)) := by
  have main : ¬ (k < 0 ∨ k ≥ m.mNumRows) →
      ∃ m2, m.eraseRow k = .ok m2 ∧ m2.size = (m.mNumRows - 1, m.mNumCols) ∧
        m2.isSmall = m.isSmall ∧
        (∀ i j, 0 ≤ i → i < k → 0 ≤ j → j < m.mNumCols →
          ∃ x, m.get i j = .ok x ∧ m2.get i j = .ok x) ∧
        (∀ i j, k ≤ i → i < m.mNumRows - 1 → 0 ≤ j → j < m.mNumCols →
          ∃ x, m.get (i + 1) j = .ok x ∧ m2.get i j = .ok x) := by
    intro hin
    have hk : 0 ≤ k ∧ k < m.mNumRows := by omega
    have hB2 := hB
    obtain ⟨hr0, hc0, hL, hS⟩ := hB
    cases hflag : m.mIsLargeMatrix with
    | true =>
      obtain ⟨hlen, hrows⟩ := hL hflag
      obtain ⟨m2, hm2, e1, e2, e3, _, e5⟩ := eraseRow_large m k hk hflag hlen
      refine ⟨m2, hm2, ?_, ?_, ?_, ?_⟩
      · simp [SmallMatrix.size, e1, e2]
      · simp [SmallMatrix.isSmall, e3, hflag]
      · intro i j hi0 hik hj0 hjc
        obtain ⟨x, hx⟩ := get_ok_of_backed m hB2 i j ⟨hi0, by omega⟩ ⟨hj0, hjc⟩
        refine ⟨x, hx, ?_⟩
        rw [← hx, get_large m hflag i j ⟨hi0, by omega⟩ ⟨hj0, hjc⟩,
          get_large m2 e3 i j ⟨hi0, by omega⟩ ⟨hj0, by omega⟩, e5]
        apply heapAt_congr _ _ _ _ _ hi0 hi0
        exact List.getElem?_eraseIdx_of_lt _ _ _ (by omega)
      · intro i j hki hir hj0 hjc
        obtain ⟨x, hx⟩ := get_ok_of_backed m hB2 (i + 1) j ⟨by omega, by omega⟩ ⟨hj0, hjc⟩
        refine ⟨x, hx, ?_⟩
        rw [← hx, get_large m hflag (i + 1) j ⟨by omega, by omega⟩ ⟨hj0, hjc⟩,
          get_large m2 e3 i j ⟨by omega, by omega⟩ ⟨hj0, by omega⟩, e5]
        apply heapAt_congr _ _ _ _ _ (by omega) (by omega)
        rw [List.getElem?_eraseIdx_of_ge _ _ _ (by omega)]
        congr 1
        omega
    | false =>
      have hcount := hS hflag
      obtain ⟨m2, hm2, e1, e2, e3, _, e5⟩ := eraseRow_inline m k hk hflag hcount
      refine ⟨m2, hm2, ?_, ?_, ?_, ?_⟩
      · simp [SmallMatrix.size, e1, e2]
      · simp [SmallMatrix.isSmall, e3, hflag]
      · intro i j hi0 hik hj0 hjc
        have hb := inline_index_bound _ _ i j hcount ⟨hi0, by omega⟩ ⟨hj0, hjc⟩
        refine ⟨m.mStackData i j, get_inline m hflag i j ⟨hi0, by omega⟩ ⟨hj0, hjc⟩ hb, ?_⟩
        rw [get_inline m2 e3 i j ⟨hi0, by omega⟩ ⟨hj0, by omega⟩ hb, e5]
        have : ¬ (k ≤ i ∧ i < m.mNumRows - 1 ∧ 0 ≤ j ∧ j < m.mNumCols) := by omega
        simp only [if_neg this]
      · intro i j hki hir hj0 hjc
        have hb := inline_index_bound _ _ (i + 1) j hcount ⟨by omega, by omega⟩ ⟨hj0, hjc⟩
        refine ⟨m.mStackData (i + 1) j,
          get_inline m hflag (i + 1) j ⟨by omega, by omega⟩ ⟨hj0, hjc⟩ hb, ?_⟩
        rw [get_inline m2 e3 i j ⟨by omega, by omega⟩ ⟨hj0, by omega⟩ ⟨by omega, hb.2⟩, e5]
        have : k ≤ i ∧ i < m.mNumRows - 1 ∧ 0 ≤ j ∧ j < m.mNumCols := by omega
        simp only [if_pos this]
  refine ⟨⟨?_, fun h => ⟨m, eraseRow_outOfRange m k h⟩⟩, main⟩
  rintro ⟨st, hst⟩
  by_contra hin
  obtain ⟨m2, hm2, _⟩ := main hin
  rw [hm2] at hst
  cases hst

/-! ### insertRow -/

theorem heap_insert_below {α : Type} (H : List α) (n : Nat) (hn : n ≤ H.length) (x : α)
    (i : Nat) (hi : i < n) : (H.take n ++ x :: H.drop n)[i]? = H[i]? := by
  rw [List.getElem?_append_left (by rw [List.length_take]; omega)]
  exact List.getElem?_take_of_lt hi

theorem heap_insert_at {α : Type} (H : List α) (n : Nat) (hn : n ≤ H.length) (x : α) :
    (H.take n ++ x :: H.drop n)[n]? = some x := by
  rw [List.getElem?_append_right (by rw [List.length_take]; omega)]
  have : n - (List.take n H).length = 0 := by rw [List.length_take]; omega
  rw [this]
  simp

theorem heap_insert_above {α : Type} (H : List α) (n : Nat) (hn : n ≤ H.length) (x : α)
    (i : Nat) (hi : n < i) : (H.take n ++ x :: H.drop n)[i]? = H[i - 1]? := by
  rw [List.getElem?_append_right (by rw [List.length_take]; omega)]
  have e : i - (List.take n H).length = (i - n - 1) + 1 := by rw [List.length_take]; omega
  rw [e, List.getElem?_cons_succ, List.getElem?_drop]
  congr 1
  omega

theorem insertRow_outOfRange [Zero Val] (m : SmallMatrix Val) (k : Int) (v : List Val)
    (h : k < 0 ∨ k > m.mNumRows) : m.insertRow k v = .error (.outOfRange, m) := by
  unfold SmallMatrix.insertRow
  simp [h]

theorem insertRow_invalidArgument [Zero Val] (m : SmallMatrix Val) (k : Int) (v : List Val)
    (h : ¬ (k < 0 ∨ k > m.mNumRows)) (hv : (v.length : Int) ≠ m.mNumCols) :
    m.insertRow k v = .error (.invalidArgument, m) := by
  unfold SmallMatrix.insertRow
  simp [h, hv]

theorem insertRow_large [Zero Val] (m : SmallMatrix Val) (k : Int) (v : List Val)
    (hk : 0 ≤ k ∧ k ≤ m.mNumRows) (hv : (v.length : Int) = m.mNumCols)
    (hflag : m.mIsLargeMatrix = true) (hlen : m.mNumRows.toNat ≤ m.mHeapData.length) :
    ∃ m2, m.insertRow k v = .ok m2 ∧ m2.mNumRows = m.mNumRows + 1 ∧
      m2.mNumCols = m.mNumCols ∧ m2.mIsLargeMatrix = true ∧ m2.mStackData = m.mStackData ∧
      m2.mHeapData = m.mHeapData.take k.toNat ++ v :: m.mHeapData.drop k.toNat := by
  unfold SmallMatrix.insertRow
  have h1 : ¬ (k < 0 ∨ k > m.mNumRows) := by omega
  have h2 : k.toNat ≤ m.mHeapData.length := by omega
  simp [h1, hv, hflag, vecInsert, hk.1, h2]

/-- Shape facts on the path of `insertRow` that takes an inline matrix over the threshold. -/
theorem crossing_bounds (r c : Int) (hr : 0 ≤ r) (h1 : r * c < 144) (h2 : (r + 1) * c ≥ 144) :
    1 ≤ c ∧ r + 1 ≤ 144 := by
  have hc : 1 ≤ c := by
    by_contra hcon
    have : c ≤ 0 := by omega
    nlinarith
  refine ⟨hc, ?_⟩
  by_contra hcon
  have : 144 ≤ r := by omega
  nlinarith

theorem insertRow_crossing [Zero Val] (m : SmallMatrix Val) (k : Int) (v : List Val)
    (hk : 0 ≤ k ∧ k ≤ m.mNumRows) (hv : (v.length : Int) = m.mNumCols)
    (hflag : m.mIsLargeMatrix = false) (hcross : (m.mNumRows + 1) * m.mNumCols ≥ 144)
    (hfit : m.mNumCols ≤ 144) :
    ∃ m2 H, m.insertRow k v = .ok m2 ∧ m2.mNumRows = m.mNumRows + 1 ∧
      m2.mNumCols = m.mNumCols ∧ m2.mIsLargeMatrix = true ∧ m2.mStackData = m.mStackData ∧
      convertStdArrayToStdVector m.mStackData (m.mNumRows + 1) m.mNumCols = .ok H ∧
      m2.mHeapData = H.take k.toNat ++ v :: H.drop k.toNat := by
  unfold SmallMatrix.insertRow
  have h1 : ¬ (k < 0 ∨ k > m.mNumRows) := by omega
  have h3 : ¬ (0 < m.mNumRows + 1 ∧ 144 < m.mNumCols) := by omega
  have h4 : k.toNat ≤ (m.mNumRows + 1).toNat := by omega
  simp [h1, hv, hflag, getNumberOfElements, mSmallSize, hcross, convertStdArrayToStdVector, h3,
    vecInsert, hk.1, h4]

theorem staying_bounds (r c : Int) (hr : 0 ≤ r) (h : (r + 1) * c < 144) (hc : 0 < c) :
    r + 1 < 144 ∧ c < 144 := by
  constructor
  · by_contra hcon
    have : 144 ≤ r + 1 := by omega
    nlinarith
  · by_contra hcon
    have : 144 ≤ c := by omega
    nlinarith

theorem insertRow_inline [Zero Val] (m : SmallMatrix Val) (k : Int) (v : List Val)
    (hk : 0 ≤ k ∧ k ≤ m.mNumRows) (hv : (v.length : Int) = m.mNumCols)
    (hflag : m.mIsLargeMatrix = false) (hstay : (m.mNumRows + 1) * m.mNumCols < 144) :
    ∃ m2, m.insertRow k v = .ok m2 ∧ m2.mNumRows = m.mNumRows + 1 ∧
      m2.mNumCols = m.mNumCols ∧ m2.mIsLargeMatrix = false ∧ m2.mHeapData = m.mHeapData ∧
      m2.mStackData = (fun a b =>
        if a = k ∧ 0 ≤ b ∧ b < m.mNumCols then
          (v[b.toNat]?).getD
            (if k < a ∧ a ≤ m.mNumRows + 1 ∧ 0 ≤ b ∧ b < m.mNumCols then m.mStackData (a - 1) b
             else m.mStackData a b)
        else if k < a ∧ a ≤ m.mNumRows + 1 ∧ 0 ≤ b ∧ b < m.mNumCols then m.mStackData (a - 1) b
        else m.mStackData a b) := by
  unfold SmallMatrix.insertRow
  have h1 : ¬ (k < 0 ∨ k > m.mNumRows) := by omega
  have h2 : ¬ ((m.mNumRows + 1) * m.mNumCols ≥ 144) := by omega
  have hb : 0 < m.mNumCols → m.mNumRows + 1 < 144 ∧ m.mNumCols ≤ 144 := by
    intro hpos
    have := staying_bounds _ _ (by omega) hstay hpos
    omega
  have hb2 : 0 < m.mNumCols → 0 ≤ k ∧ k < 144 ∧ m.mNumCols ≤ 144 := by
    intro hpos
    have := hb hpos
    omega
  simp [h1, hv, hflag, getNumberOfElements, mSmallSize, h2,
    shiftArrayElementsDown_ok _ k _ hk.1 hb, writeRow_ok k _ v hv hb2]

/-- Reading the vector that `convertStdArrayToStdVector` returns gives the cell of the array. -/
theorem heapAt_convert [Zero Val] (s : Stack Val) (R C : Int) (H : List (List Val))
    (h : convertStdArrayToStdVector s R C = .ok H) (i j : Int) (hi : 0 ≤ i ∧ i < R)
    (hi144 : i < 144) (hj : 0 ≤ j ∧ j < C) : heapAt H i j = .ok (s i j) := by
  unfold convertStdArrayToStdVector at h
  split at h
  · cases h
  · cases h
    have h1 : i.toNat < R.toNat := by omega
    have h2 : j.toNat < C.toNat := by omega
    have h3 : i.toNat < 144 := by omega
    have e1 : ((i.toNat : Nat) : Int) = i := Int.toNat_of_nonneg hi.1
    have e2 : ((j.toNat : Nat) : Int) = j := Int.toNat_of_nonneg hj.1
    apply heapAt_ok _ i j ((List.range C.toNat).map (fun (j : Nat) => s i (j : Int))) _ hi.1 hj.1
    · rw [List.getElem?_map, List.getElem?_range h1]
      simp only [Option.map_some', h3, if_true, e1]
    · rw [List.getElem?_map, List.getElem?_range h2]
      simp only [Option.map_some', e2]

theorem heapAt_insert_below (H : List (List Val)) (k : Int) (hk : k.toNat ≤ H.length)
    (v : List Val) (i j : Int) (hi : 0 ≤ i ∧ i < k) :
    heapAt (H.take k.toNat ++ v :: H.drop k.toNat) i j = heapAt H i j :=
  heapAt_congr _ _ _ _ _ hi.1 hi.1 (heap_insert_below H _ hk v _ (by omega))

theorem heapAt_insert_at (H : List (List Val)) (k : Int) (hk0 : 0 ≤ k)
    (hk : k.toNat ≤ H.length) (v : List Val) (j : Int) (hj : 0 ≤ j) (x : Val)
    (hx : v[j.toNat]? = some x) :
    heapAt (H.take k.toNat ++ v :: H.drop k.toNat) k j = .ok x :=
  heapAt_ok _ k j v x hk0 hj (heap_insert_at H _ hk v) hx

theorem heapAt_insert_above (H : List (List Val)) (k : Int) (hk0 : 0 ≤ k)
    (hk : k.toNat ≤ H.length) (v : List Val) (i j : Int) (hi : k < i) :
    heapAt (H.take k.toNat ++ v :: H.drop k.toNat) i j = heapAt H (i - 1) j := by
  apply heapAt_congr _ _ _ _ _ (by omega) (by omega)
  rw [heap_insert_above H _ hk v _ (by omega)]
  congr 1
  omega

/-- The entry of the inserted row at an in-range column. -/
theorem row_entry (v : List Val) (c j : Int) (hv : (v.length : Int) = c) (hj : 0 ≤ j ∧ j < c) :
    ∃ x, v[j.toNat]? = some x := by
  have hlt : j.toNat < v.length := by omega
  exact ⟨v[j.toNat], List.getElem?_eq_getElem hlt⟩

/-- The cells after `insertRow` with valid arguments, on a matrix whose cells are backed by
its active buffer: the shape, the new row, the rows below and above it, and the flag. -/
theorem insertRow_cells [Zero Val] (m : SmallMatrix Val) (hB : m.Backed)
    (hfit : m.mIsLargeMatrix = false → m.mNumCols ≤ 144) (k : Int) (v : List Val)
    (hk : 0 ≤ k ∧ k ≤ m.mNumRows) (hv : (v.length : Int) = m.mNumCols) :
    ∃ m2, m.insertRow k v = .ok m2 ∧ m2.size = (m.mNumRows + 1, m.mNumCols) ∧
      (∀ j, 0 ≤ j → j < m.mNumCols → ∃ x, v[j.toNat]? = some x ∧ m2.get k j = .ok x) ∧
      (∀ i j, 0 ≤ i → i < k → 0 ≤ j → j < m.mNumCols →
        ∃ x, m.get i j = .ok x ∧ m2.get i j = .ok x) ∧
      (∀ i j, k < i → i ≤ m.mNumRows → 0 ≤ j → j < m.mNumCols →
        ∃ x, m.get (i - 1) j = .ok x ∧ m2.get i j = .ok x) ∧
      m2.isSmall = (m.isSmall && decide ((m.mNumRows + 1) * m.mNumCols < 144)) := by
  have hB2 := hB
  obtain ⟨hr0, hc0, hL, hS⟩ := hB
  cases hflag : m.mIsLargeMatrix with
  | true =>
    obtain ⟨hlen, _⟩ := hL hflag
    obtain ⟨m2, hm2, e1, e2, e3, _, e5⟩ := insertRow_large m k v hk hv hflag hlen
    have hkl : k.toNat ≤ m.mHeapData.length := by omega
    refine ⟨m2, hm2, ?_, ?_, ?_, ?_, ?_⟩
    · simp [SmallMatrix.size, e1, e2]
    · intro j hj0 hjc
      obtain ⟨x, hx⟩ := row_entry v _ j hv ⟨hj0, hjc⟩
      refine ⟨x, hx, ?_⟩
      rw [get_large m2 e3 k j ⟨hk.1, by omega⟩ ⟨hj0, by omega⟩, e5]
      exact heapAt_insert_at _ k hk.1 hkl v j hj0 x hx
    · intro i j hi0 hik hj0 hjc
      obtain ⟨x, hx⟩ := get_ok_of_backed m hB2 i j ⟨hi0, by omega⟩ ⟨hj0, hjc⟩
      refine ⟨x, hx, ?_⟩
      rw [← hx, get_large m hflag i j ⟨hi0, by omega⟩ ⟨hj0, hjc⟩,
        get_large m2 e3 i j ⟨hi0, by omega⟩ ⟨hj0, by omega⟩, e5]
      exact heapAt_insert_below _ k hkl v i j ⟨hi0, hik⟩
    · intro i j hki hir hj0 hjc
      obtain ⟨x, hx⟩ := get_ok_of_backed m hB2 (i - 1) j ⟨by omega, by omega⟩ ⟨hj0, hjc⟩
      refine ⟨x, hx, ?_⟩
      rw [← hx, get_large m hflag (i - 1) j ⟨by omega, by omega⟩ ⟨hj0, hjc⟩,
        get_large m2 e3 i j ⟨by omega, by omega⟩ ⟨hj0, by omega⟩, e5]
      exact heapAt_insert_above _ k hk.1 hkl v i j hki
    · simp [SmallMatrix.isSmall, e3, hflag]
  | false =>
    have hcount := hS hflag
    by_cases hcross : (m.mNumRows + 1) * m.mNumCols ≥ 144
    · obtain ⟨m2, H, hm2, e1, e2, e3, _, hH, e5⟩ :=
        insertRow_crossing m k v hk hv hflag hcross (hfit hflag)
      have hcb := crossing_bounds _ _ hr0 hcount hcross
      have hHlen : H.length = (m.mNumRows + 1).toNat := by
        unfold convertStdArrayToStdVector at hH
        split at hH
        · cases hH
        · cases hH; simp
      have hkl : k.toNat ≤ H.length := by omega
      refine ⟨m2, hm2, ?_, ?_, ?_, ?_, ?_⟩
      · simp [SmallMatrix.size, e1, e2]
      · intro j hj0 hjc
        obtain ⟨x, hx⟩ := row_entry v _ j hv ⟨hj0, hjc⟩
        refine ⟨x, hx, ?_⟩
        rw [get_large m2 e3 k j ⟨hk.1, by omega⟩ ⟨hj0, by omega⟩, e5]
        exact heapAt_insert_at _ k hk.1 hkl v j hj0 x hx
      · intro i j hi0 hik hj0 hjc
        have hb := inline_index_bound _ _ i j hcount ⟨hi0, by omega⟩ ⟨hj0, hjc⟩
        refine ⟨m.mStackData i j, get_inline m hflag i j ⟨hi0, by omega⟩ ⟨hj0, hjc⟩ hb, ?_⟩
        rw [get_large m2 e3 i j ⟨hi0, by omega⟩ ⟨hj0, by omega⟩, e5,
          heapAt_insert_below _ k hkl v i j ⟨hi0, hik⟩]
        exact heapAt_convert _ _ _ H hH i j ⟨hi0, by omega⟩ hb.1 ⟨hj0, hjc⟩
      · intro i j hki hir hj0 hjc
        have hb := inline_index_bound _ _ (i - 1) j hcount ⟨by omega, by omega⟩ ⟨hj0, hjc⟩
        refine ⟨m.mStackData (i - 1) j,
          get_inline m hflag (i - 1) j ⟨by omega, by omega⟩ ⟨hj0, hjc⟩ hb, ?_⟩
        rw [get_large m2 e3 i j ⟨by omega, by omega⟩ ⟨hj0, by omega⟩, e5,
          heapAt_insert_above _ k hk.1 hkl v i j hki]
        exact heapAt_convert _ _ _ H hH (i - 1) j ⟨by omega, by omega⟩ hb.1 ⟨hj0, hjc⟩
      · have : ¬ ((m.mNumRows + 1) * m.mNumCols < 144) := by omega
        simp [SmallMatrix.isSmall, e3, hflag, this]
    · have hstay : (m.mNumRows + 1) * m.mNumCols < 144 := by omega
      obtain ⟨m2, hm2, e1, e2, e3, _, e5⟩ := insertRow_inline m k v hk hv hflag hstay
      have hcount2 : m2.mNumRows * m2.mNumCols < 144 := by rw [e1, e2]; exact hstay
      refine ⟨m2, hm2, ?_, ?_, ?_, ?_, ?_⟩
      · simp [SmallMatrix.size, e1, e2]
      · intro j hj0 hjc
        obtain ⟨x, hx⟩ := row_entry v _ j hv ⟨hj0, hjc⟩
        refine ⟨x, hx, ?_⟩
        have hb := inline_index_bound _ _ k j hcount2 ⟨hk.1, by omega⟩ ⟨hj0, by omega⟩
        rw [get_inline m2 e3 k j ⟨hk.1, by omega⟩ ⟨hj0, by omega⟩ hb, e5]
        simp [hj0, hjc, hx]
      · intro i j hi0 hik hj0 hjc
        have hb := inline_index_bound _ _ i j hcount ⟨hi0, by omega⟩ ⟨hj0, hjc⟩
        refine ⟨m.mStackData i j, get_inline m hflag i j ⟨hi0, by omega⟩ ⟨hj0, hjc⟩ hb, ?_⟩
        rw [get_inline m2 e3 i j ⟨hi0, by omega⟩ ⟨hj0, by omega⟩ hb, e5]
        have h1 : ¬ (i = k ∧ 0 ≤ j ∧ j < m.mNumCols) := by omega
        have h2 : ¬ (k < i ∧ i ≤ m.mNumRows + 1 ∧ 0 ≤ j ∧ j < m.mNumCols) := by omega
        simp only [if_neg h1, if_neg h2]
      · intro i j hki hir hj0 hjc
        have hb := inline_index_bound _ _ (i - 1) j hcount ⟨by omega, by omega⟩ ⟨hj0, hjc⟩
        have hb2 := inline_index_bound _ _ i j hcount2 ⟨by omega, by omega⟩ ⟨hj0, by omega⟩
        refine ⟨m.mStackData (i - 1) j,
          get_inline m hflag (i - 1) j ⟨by omega, by omega⟩ ⟨hj0, hjc⟩ hb, ?_⟩
        rw [get_inline m2 e3 i j ⟨by omega, by omega⟩ ⟨hj0, by omega⟩ hb2, e5]
        have h1 : ¬ (i = k ∧ 0 ≤ j ∧ j < m.mNumCols) := by omega
        have h2 : k < i ∧ i ≤ m.mNumRows + 1 ∧ 0 ≤ j ∧ j < m.mNumCols := by omega
        simp only [if_neg h1, if_pos h2]
      · simp [SmallMatrix.isSmall, e3, hflag, hstay]

/-- Once the two validations of `insertRow` have passed, the body throws no exception: it
returns, or a raw iterator leaves its container. -/
theorem insertRow_body [Zero Val] (m : SmallMatrix Val) (k : Int) (v : List Val)
    (hk : 0 ≤ k ∧ k ≤ m.mNumRows) (hv : (v.length : Int) = m.mNumCols) :
    (∃ m2, m.insertRow k v = .ok m2) ∨
    (∃ st, m.insertRow k v = .error (Err.undefinedBehaviour, st)) := by
  cases hflag : m.mIsLargeMatrix with
  | true =>
    by_cases hlen : m.mNumRows.toNat ≤ m.mHeapData.length
    · obtain ⟨m2, hm2, _⟩ := insertRow_large m k v hk hv hflag hlen
      exact Or.inl ⟨m2, hm2⟩
    · by_cases hkl : k.toNat ≤ m.mHeapData.length
      · left
        unfold SmallMatrix.insertRow
        have h1 : ¬ (k < 0 ∨ k > m.mNumRows) := by omega
        simp [h1, hv, hflag, vecInsert, hk.1, hkl]
      · right
        unfold SmallMatrix.insertRow
        have h1 : ¬ (k < 0 ∨ k > m.mNumRows) := by omega
        simp [h1, hv, hflag, vecInsert, hk.1, hkl]
  | false =>
    by_cases hcross : (m.mNumRows + 1) * m.mNumCols ≥ 144
    · by_cases hfit : m.mNumCols ≤ 144
      · obtain ⟨m2, _, hm2, _⟩ := insertRow_crossing m k v hk hv hflag hcross hfit
        exact Or.inl ⟨m2, hm2⟩
      · right
        unfold SmallMatrix.insertRow
        have h1 : ¬ (k < 0 ∨ k > m.mNumRows) := by omega
        have h3 : 0 < m.mNumRows + 1 ∧ 144 < m.mNumCols := by omega
        simp [h1, hv, hflag, getNumberOfElements, mSmallSize, hcross,
          convertStdArrayToStdVector, h3]
    · obtain ⟨m2, hm2, _⟩ := insertRow_inline m k v hk hv hflag (by omega)
      exact Or.inl ⟨m2, hm2⟩

/-- For every matrix `M` of shape `(r, c)`, every index `k` and every sequence `v`:
`insertRow(k, v)` fails with `OutOfRange` if and only if `k < 0` or `k > r`; otherwise it fails
with `InvalidArgument` if and only if `len(v) != c`; otherwise it succeeds, for every matrix
whose in-range cells are backed by its active buffer (with `c <= 144` when it is inline). -/
theorem insertRow_errors [Zero Val] (m : SmallMatrix Val) (k : Int) (v : List Val) :
    ((∃ st, m.insertRow k v = .error (Err.outOfRange, st)) ↔ (k < 0 ∨ k > m.mNumRows)) ∧
    (¬ (k < 0 ∨ k > m.mNumRows) →
      ((∃ st, m.insertRow k v = .error (Err.invalidArgument, st)) ↔
        (v.length : Int) ≠ m.mNumCols)) ∧
    (¬ (k < 0 ∨ k > m.mNumRows) → (v.length : Int) = m.mNumCols → m.Backed →
      (m.mIsLargeMatrix = false → m.mNumCols ≤ 144) → ∃ m2, m.insertRow k v = .ok m2) := by
  refine ⟨⟨?_, fun h => ⟨m, insertRow_outOfRange m k v h⟩⟩, ?_, ?_⟩
  · rintro ⟨st, hst⟩
    by_contra hin
    by_cases hv : (v.length : Int) = m.mNumCols
    · rcases insertRow_body m k v (by omega) hv with ⟨m2, hm2⟩ | ⟨st2, hst2⟩
      · rw [hm2] at hst
        cases hst
      · rw [hst2] at hst
        cases hst
    · rw [insertRow_invalidArgument m k v hin hv] at hst
      cases hst
  · intro hin
    refine ⟨?_, fun hv => ⟨m, insertRow_invalidArgument m k v hin hv⟩⟩
    rintro ⟨st, hst⟩ hv
    rcases insertRow_body m k v (by omega) hv with ⟨m2, hm2⟩ | ⟨st2, hst2⟩
    · rw [hm2] at hst
      cases hst
    · rw [hst2] at hst
      cases hst
  · intro hin hv hB hfit
    have hk : 0 ≤ k ∧ k ≤ m.mNumRows := by omega
    obtain ⟨hr0, hc0, hL, hS⟩ := hB
    cases hflag : m.mIsLargeMatrix with
    | true =>
      obtain ⟨m2, hm2, _⟩ := insertRow_large m k v hk hv hflag (hL hflag).1
      exact ⟨m2, hm2⟩
    | false =>
      by_cases hcross : (m.mNumRows + 1) * m.mNumCols ≥ 144
      · obtain ⟨m2, _, hm2, _⟩ := insertRow_crossing m k v hk hv hflag hcross (hfit hflag)
        exact ⟨m2, hm2⟩
      · obtain ⟨m2, hm2, _⟩ := insertRow_inline m k v hk hv hflag (by omega)
        exact ⟨m2, hm2⟩

/-! ### resize -/

theorem resize_of_negative [Zero Val] (m : SmallMatrix Val) (r c : Int) (h : r < 0 ∨ c < 0) :
    m.resize r c = .error (.outOfRange, m) := by
  unfold SmallMatrix.resize
  simp [h]

/-- The flag after a `resize` that returns: set when the new count reaches `144`, and never
cleared. -/
theorem resize_flag [Zero Val] (m m2 : SmallMatrix Val) (r c : Int)
    (h : m.resize r c = .ok m2) :
    m2.mIsLargeMatrix = (m.mIsLargeMatrix || decide (r * c ≥ 144)) := by
  unfold SmallMatrix.resize at h
  split at h
  · cases h
  · simp only [getNumberOfElements, mSmallSize, SmallMatrix.isSmall] at h
    by_cases hcount : r * c ≥ 144
    · simp only [hcount, if_true] at h
      cases hflag : m.mIsLargeMatrix with
      | true =>
        simp only [hflag, Bool.not_true, Bool.false_eq_true, if_false] at h
        cases h
        simp [hflag]
      | false =>
        simp only [hflag, Bool.not_false, if_true] at h
        split at h
        · cases h
        · cases h
          simp [hcount]
    · simp only [hcount, if_false] at h
      cases hflag : m.mIsLargeMatrix with
      | true =>
        simp only [hflag, if_true] at h
        cases h
        simp [hflag]
      | false =>
        simp only [hflag, Bool.false_eq_true, if_false] at h
        split at h
        · cases h
        · split at h
          · cases h
          · cases h
            simp [hflag, hcount]

/-- C6 (amended). `resize(newRows, newCols)` fails with the `OutOfRange` error kind whenever
`newRows < 0` or `newCols < 0`, and leaves the matrix as it was. -/
theorem resize_negative_outOfRange [Zero Val] (m : SmallMatrix Val) (r c : Int)
    (h : r < 0 ∨ c < 0) : m.resize r c = .error (Err.outOfRange, m) :=
  resize_of_negative m r c h

/-- C6, witness: `resize(-1, 3)` on a `2 x 2` matrix. -/
theorem resize_negative_outOfRange_witness :
    ((-1 : Int) < 0 ∨ (3 : Int) < 0) ∧
    (SmallMatrix.ctor3 (fun _ _ => (0 : Int)) 2 2 5).resize (-1) 3 =
      .error (Err.outOfRange, SmallMatrix.ctor3 (fun _ _ => (0 : Int)) 2 2 5) :=
  ⟨by decide, resize_negative_outOfRange _ (-1) 3 (by decide)⟩

/-- C6, counterexample: `resize(-1, 3)` does not fail with `InvalidArgument`. -/
theorem resize_negative_not_invalidArgument :
    ¬ ∃ st, (SmallMatrix.ctor3 (fun _ _ => (0 : Int)) 2 2 5).resize (-1) 3 =
      .error (Err.invalidArgument, st) := by
  rintro ⟨st, h⟩
  rw [resize_of_negative _ (-1) 3 (by decide)] at h
  cases h

/-- An instance: the shapes `12 x 11` and `12 x 12`, and the list `{{1, 2}, {3, 4}}`. -/
theorem isSmall_iff_below_threshold_witness :
    (0 : Int) ≤ 12 ∧ (0 : Int) ≤ 11 ∧
    (SmallMatrix.ctor2 (fun _ _ => (0 : Int)) 12 11).isSmall = decide ((12 : Int) * 11 < 144) ∧
    (SmallMatrix.ctor3 (fun _ _ => (0 : Int)) 12 12 5).isSmall = decide ((12 : Int) * 12 < 144) ∧
    ∃ m, SmallMatrix.ctorList (fun _ _ => (0 : Int)) [[1, 2], [3, 4]] = .ok m ∧
      m.isSmall = decide ((2 : Int) * 2 < 144) := by
  have h1 := isSmall_iff_below_threshold (fun _ _ => (0 : Int)) 12 11 (by decide) (by decide)
    (by decide) 5
  have h2 := isSmall_iff_below_threshold (fun _ _ => (0 : Int)) 12 12 (by decide) (by decide)
    (by decide) 5
  have h3 := (isSmall_iff_below_threshold (fun _ _ => (0 : Int)) 2 2 (by decide) (by decide)
    (by decide) 5).2.2 [[1, 2], [3, 4]] (by decide) (by decide)
  obtain ⟨m, hm⟩ := h3.2 (Or.inl (by decide))
  exact ⟨by decide, by decide, h1.1, h2.2.1, m, hm, h3.1 m hm⟩

/-- An instance: appending a row of length `3` to an inline `2 x 3` matrix. -/
theorem insertRow_errors_witness :
    (SmallMatrix.ctor3 (fun _ _ => (0 : Int)) 2 3 7).Backed ∧
    ((SmallMatrix.ctor3 (fun _ _ => (0 : Int)) 2 3 7).mIsLargeMatrix = false →
      (SmallMatrix.ctor3 (fun _ _ => (0 : Int)) 2 3 7).mNumCols ≤ 144) ∧
    ∃ m2, (SmallMatrix.ctor3 (fun _ _ => (0 : Int)) 2 3 7).insertRow 2 [1, 2, 3] = .ok m2 := by
  have hB : (SmallMatrix.ctor3 (fun _ _ => (0 : Int)) 2 3 7).Backed := by
    unfold SmallMatrix.Backed
    decide
  have hfit : (SmallMatrix.ctor3 (fun _ _ => (0 : Int)) 2 3 7).mIsLargeMatrix = false →
      (SmallMatrix.ctor3 (fun _ _ => (0 : Int)) 2 3 7).mNumCols ≤ 144 := fun _ => by decide
  exact ⟨hB, hfit,
    (insertRow_errors _ 2 [1, 2, 3]).2.2 (by decide) (by decide) hB hfit⟩

/-! ### Matrices whose cells are backed by the active buffer

The constructors build such matrices, and `resize`, `insertRow` and `eraseRow` keep the
property. -/

theorem ctor3_backed (init : Stack Val) (r c : Int) (hr : 0 ≤ r) (hc : 0 ≤ c) (v : Val)
    (hb : r * c < 2147483648) : (SmallMatrix.ctor3 init r c v).Backed := by
  unfold SmallMatrix.ctor3 SmallMatrix.Backed mSmallSize
  rw [intMul_of_fit r c hr hc hb]
  by_cases h : r * c ≥ 144
  · simp only [h, decide_True, if_true]
    refine ⟨hr, hc, ?_, ?_⟩
    · intro _
      refine ⟨by simp, ?_⟩
      intro row hrow
      have := List.mem_of_mem_take hrow
      rw [List.mem_replicate] at this
      rw [this.2, List.length_replicate]
    · intro hf
      cases hf
  · simp only [h, decide_False, Bool.false_eq_true, if_false]
    refine ⟨hr, hc, ?_, ?_⟩
    · intro hf
      cases hf
    · intro _
      omega

theorem ctor2_backed [Zero Val] (init : Stack Val) (r c : Int) (hr : 0 ≤ r) (hc : 0 ≤ c)
    (hb : r * c < 2147483648) : (SmallMatrix.ctor2 init r c).Backed := by
  unfold SmallMatrix.ctor2 SmallMatrix.Backed mSmallSize
  rw [intMul_of_fit r c hr hc hb]
  by_cases h : r * c ≥ 144
  · simp only [h, decide_True, if_true]
    refine ⟨hr, hc, ?_, ?_⟩
    · intro _
      refine ⟨by simp, ?_⟩
      intro row hrow
      have := List.mem_of_mem_take hrow
      rw [List.mem_replicate] at this
      rw [this.2, List.length_replicate]
    · intro hf
      cases hf
  · simp only [h, decide_False, Bool.false_eq_true, if_false]
    refine ⟨hr, hc, ?_, ?_⟩
    · intro hf
      cases hf
    · intro _
      omega

theorem heapResize_length [Zero Val] (H : List (List Val)) (r c : Int) :
    (heapResize H r c).length = r.toNat := by
  simp [heapResize, vecResize_length]

theorem heapResize_rows [Zero Val] (H : List (List Val)) (r c : Int) :
    ∀ row ∈ heapResize H r c, row.length = c.toNat := by
  intro row hrow
  unfold heapResize at hrow
  rw [List.mem_map] at hrow
  obtain ⟨old, _, rfl⟩ := hrow
  exact vecResize_length _ _ _

/-- The shape, and the buffer when the matrix is dynamic, after a `resize` that returns. -/
theorem resize_shape [Zero Val] (m m2 : SmallMatrix Val) (r c : Int)
    (h : m.resize r c = .ok m2) :
    0 ≤ r ∧ 0 ≤ c ∧ m2.mNumRows = r ∧ m2.mNumCols = c ∧
      (m2.mIsLargeMatrix = true → ∃ H, m2.mHeapData = heapResize H r c) := by
  unfold SmallMatrix.resize at h
  split at h
  · cases h
  · rename_i hneg
    simp only [getNumberOfElements, mSmallSize, SmallMatrix.isSmall] at h
    refine ⟨by omega, by omega, ?_⟩
    by_cases hcount : r * c ≥ 144
    · simp only [hcount, if_true] at h
      cases hflag : m.mIsLargeMatrix with
      | true =>
        simp only [hflag, Bool.not_true, Bool.false_eq_true, if_false] at h
        cases h
        exact ⟨rfl, rfl, fun _ => ⟨_, rfl⟩⟩
      | false =>
        simp only [hflag, Bool.not_false, if_true] at h
        split at h
        · cases h
        · cases h
          exact ⟨rfl, rfl, fun _ => ⟨_, rfl⟩⟩
    · simp only [hcount, if_false] at h
      cases hflag : m.mIsLargeMatrix with
      | true =>
        simp only [hflag, if_true] at h
        cases h
        exact ⟨rfl, rfl, fun _ => ⟨_, rfl⟩⟩
      | false =>
        simp only [hflag, Bool.false_eq_true, if_false] at h
        split at h
        · cases h
        · split at h
          · cases h
          · cases h
            exact ⟨rfl, rfl, fun hf => by simp [hflag] at hf⟩

theorem resize_backed [Zero Val] (m m2 : SmallMatrix Val) (r c : Int)
    (h : m.resize r c = .ok m2) : m2.Backed := by
  obtain ⟨hr, hc, e1, e2, hheap⟩ := resize_shape m m2 r c h
  have hf := resize_flag m m2 r c h
  refine ⟨by omega, by omega, ?_, ?_⟩
  · intro hflag
    obtain ⟨H, hH⟩ := hheap hflag
    rw [hH, e1, e2, heapResize_length]
    exact ⟨le_refl _, fun row hrow => heapResize_rows H r c row (List.mem_of_mem_take hrow)⟩
  · intro hflag
    rw [hflag] at hf
    have : decide (r * c ≥ 144) = false := by
      cases hd : decide (r * c ≥ 144)
      · rfl
      · rw [hd] at hf; simp at hf
    have : ¬ (r * c ≥ 144) := by simpa using this
    rw [e1, e2]
    omega

theorem eraseRow_backed (m m2 : SmallMatrix Val) (hB : m.Backed) (k : Int)
    (h : m.eraseRow k = .ok m2) : m2.Backed := by
  have hk : 0 ≤ k ∧ k < m.mNumRows := by
    by_contra hcon
    rw [eraseRow_outOfRange m k (by omega)] at h
    cases h
  obtain ⟨hr0, hc0, hL, hS⟩ := hB
  cases hflag : m.mIsLargeMatrix with
  | true =>
    obtain ⟨hlen, hrows⟩ := hL hflag
    obtain ⟨m3, hm3, e1, e2, e3, _, e5⟩ := eraseRow_large m k hk hflag hlen
    rw [hm3] at h
    cases h
    refine ⟨by omega, by omega, ?_, ?_⟩
    swap
    · intro hf
      rw [e3] at hf
      cases hf
    intro _
    have hklt : k.toNat < m.mHeapData.length := by omega
    have hl2 : (m.mHeapData.eraseIdx k.toNat).length = m.mHeapData.length - 1 :=
      List.length_eraseIdx_of_lt hklt
    rw [e5, e1, e2]
    refine ⟨by omega, ?_⟩
    intro row hrow
    rw [List.mem_take_iff_getElem] at hrow
    obtain ⟨i, hi, rfl⟩ := hrow
    have hi1 : i < (m.mNumRows - 1).toNat := by omega
    have hi2 : i < (m.mHeapData.eraseIdx k.toNat).length := by omega
    have hsome : (m.mHeapData.eraseIdx k.toNat)[i]? =
        some (m.mHeapData.eraseIdx k.toNat)[i] := List.getElem?_eq_getElem hi2
    by_cases hik : i < k.toNat
    · rw [List.getElem?_eraseIdx_of_lt _ _ _ hik] at hsome
      have hil : i < m.mHeapData.length := by omega
      rw [List.getElem?_eq_getElem hil] at hsome
      have heq := Option.some.inj hsome
      rw [← heq]
      exact hrows _ (List.mem_take_iff_getElem.mpr ⟨i, by omega, rfl⟩)
    · rw [List.getElem?_eraseIdx_of_ge _ _ _ (by omega)] at hsome
      have hil : i + 1 < m.mHeapData.length := by omega
      rw [List.getElem?_eq_getElem hil] at hsome
      have heq := Option.some.inj hsome
      rw [← heq]
      exact hrows _ (List.mem_take_iff_getElem.mpr ⟨i + 1, by omega, rfl⟩)
  | false =>
    have hcount := hS hflag
    obtain ⟨m3, hm3, e1, e2, e3, _, _⟩ := eraseRow_inline m k hk hflag hcount
    rw [hm3] at h
    cases h
    refine ⟨by omega, by omega, ?_, ?_⟩
    · intro hf
      rw [e3] at hf
      cases hf
    · intro _
      rw [e1, e2]
      nlinarith

/-- Row lengths after `heap.insert(heap.begin() + k, v)`: the first `n + 1` rows have length
`c` when the first `n` rows had and `v` has. -/
theorem insert_rows_length {α : Type} (H : List (List α)) (v : List α) (k n c : Nat)
    (hk : k ≤ n) (hn : n ≤ H.length) (hv : v.length = c)
    (hrows : ∀ row ∈ H.take n, row.length = c) :
    ∀ row ∈ (H.take k ++ v :: H.drop k).take (n + 1), row.length = c := by
  intro row hrow
  rw [List.mem_take_iff_getElem] at hrow
  obtain ⟨i, hi, rfl⟩ := hrow
  have hlen : (H.take k ++ v :: H.drop k).length = H.length + 1 := by
    simp only [List.length_append, List.length_take, List.length_cons, List.length_drop]
    omega
  have hi2 : i < (H.take k ++ v :: H.drop k).length := by omega
  have hsome : (H.take k ++ v :: H.drop k)[i]? = some (H.take k ++ v :: H.drop k)[i] :=
    List.getElem?_eq_getElem hi2
  have hkl : k ≤ H.length := by omega
  rcases Nat.lt_trichotomy i k with hlt | heq | hgt
  · rw [heap_insert_below H k hkl v i hlt] at hsome
    have hil : i < H.length := by omega
    rw [List.getElem?_eq_getElem hil] at hsome
    rw [← Option.some.inj hsome]
    exact hrows _ (List.mem_take_iff_getElem.mpr ⟨i, by omega, rfl⟩)
  · subst heq
    rw [heap_insert_at H i hkl v] at hsome
    rw [← Option.some.inj hsome]
    exact hv
  · rw [heap_insert_above H k hkl v i hgt] at hsome
    have hil : i - 1 < H.length := by omega
    rw [List.getElem?_eq_getElem hil] at hsome
    rw [← Option.some.inj hsome]
    exact hrows _ (List.mem_take_iff_getElem.mpr ⟨i - 1, by omega, rfl⟩)

theorem convert_rows [Zero Val] (s : Stack Val) (R C : Int) (H : List (List Val))
    (h : convertStdArrayToStdVector s R C = .ok H) :
    H.length = R.toNat ∧ ∀ row ∈ H, row.length = C.toNat := by
  unfold convertStdArrayToStdVector at h
  split at h
  · cases h
  · cases h
    refine ⟨by simp, ?_⟩
    intro row hrow
    rw [List.mem_map] at hrow
    obtain ⟨i, _, rfl⟩ := hrow
    split <;> simp

theorem insertRow_backed [Zero Val] (m m2 : SmallMatrix Val) (hB : m.Backed) (k : Int)
    (v : List Val) (h : m.insertRow k v = .ok m2) : m2.Backed := by
  have hk : 0 ≤ k ∧ k ≤ m.mNumRows := by
    by_contra hcon
    rw [insertRow_outOfRange m k v (by omega)] at h
    cases h
  have hv : (v.length : Int) = m.mNumCols := by
    by_contra hcon
    rw [insertRow_invalidArgument m k v (by omega) hcon] at h
    cases h
  obtain ⟨hr0, hc0, hL, hS⟩ := hB
  cases hflag : m.mIsLargeMatrix with
  | true =>
    obtain ⟨hlen, hrows⟩ := hL hflag
    obtain ⟨m3, hm3, e1, e2, e3, _, e5⟩ := insertRow_large m k v hk hv hflag hlen
    rw [hm3] at h
    cases h
    refine ⟨by omega, by omega, ?_, ?_⟩
    · intro _
      rw [e5, e1, e2]
      have hsucc : (m.mNumRows + 1).toNat = m.mNumRows.toNat + 1 := by omega
      rw [hsucc]
      refine ⟨?_, insert_rows_length _ v _ _ _ (by omega) hlen (by omega) hrows⟩
      simp only [List.length_append, List.length_take, List.length_cons, List.length_drop]
      omega
    · intro hf
      rw [e3] at hf
      cases hf
  | false =>
    have hcount := hS hflag
    by_cases hcross : (m.mNumRows + 1) * m.mNumCols ≥ 144
    · by_cases hfit : m.mNumCols ≤ 144
      · obtain ⟨m3, H, hm3, e1, e2, e3, _, hH, e5⟩ :=
          insertRow_crossing m k v hk hv hflag hcross hfit
        rw [hm3] at h
        cases h
        obtain ⟨hHlen, hHrows⟩ := convert_rows _ _ _ H hH
        refine ⟨by omega, by omega, ?_, ?_⟩
        · intro _
          rw [e5, e1, e2]
          refine ⟨?_, ?_⟩
          · simp only [List.length_append, List.length_take, List.length_cons,
              List.length_drop]
            omega
          · intro row hrow
            have hmem := List.mem_of_mem_take hrow
            rw [List.mem_append, List.mem_cons] at hmem
            rcases hmem with hm | hm | hm
            · exact hHrows _ (List.mem_of_mem_take hm)
            · rw [hm]; omega
            · exact hHrows _ (List.mem_of_mem_drop hm)
        · intro hf
          rw [e3] at hf
          cases hf
      · exfalso
        unfold SmallMatrix.insertRow at h
        have h1 : ¬ (k < 0 ∨ k > m.mNumRows) := by omega
        have h3 : 0 < m.mNumRows + 1 ∧ 144 < m.mNumCols := by omega
        simp [h1, hv, hflag, getNumberOfElements, mSmallSize, hcross,
          convertStdArrayToStdVector, h3] at h
    · obtain ⟨m3, hm3, e1, e2, e3, _, _⟩ := insertRow_inline m k v hk hv hflag (by omega)
      rw [hm3] at h
      cases h
      refine ⟨by omega, by omega, ?_, ?_⟩
      · intro hf
        rw [e3] at hf
        cases hf
      · intro _
        rw [e1, e2]
        omega

/-- The element that `SmallMatrix(r, c)` leaves in an in-range cell: `0` in the dynamic
branch, the content the storage had before construction in the inline branch. -/
theorem ctor2_get [Zero Val] (init : Stack Val) (r c i j : Int) (hi : 0 ≤ i ∧ i < r)
    (hj : 0 ≤ j ∧ j < c) (hb : r * c < 2147483648) :
    (SmallMatrix.ctor2 init r c).get i j =
      .ok (if r * c ≥ 144 then 0 else init i j) := by
  have hfit := intMul_of_fit r c (by omega) (by omega) hb
  by_cases h : r * c ≥ 144
  · have hm : (SmallMatrix.ctor2 init r c) =
        { mNumRows := r, mNumCols := c, mIsLargeMatrix := true, mStackData := init,
          mHeapData := List.replicate r.toNat (List.replicate c.toNat 0) } := by
      simp [SmallMatrix.ctor2, mSmallSize, hfit, h]
    rw [hm, get_large _ rfl i j hi hj, if_pos h]
    apply heapAt_ok _ i j (List.replicate c.toNat 0) 0 hi.1 hj.1
    · exact List.getElem?_replicate_of_lt (by omega)
    · exact List.getElem?_replicate_of_lt (by omega)
  · have hm : (SmallMatrix.ctor2 init r c) =
        { mNumRows := r, mNumCols := c, mIsLargeMatrix := false, mStackData := init,
          mHeapData := [] } := by
      simp [SmallMatrix.ctor2, mSmallSize, hfit, h]
    have hb := inline_index_bound r c i j (by omega) hi hj
    rw [hm, get_inline _ rfl i j hi hj hb, if_neg h]

/-! ### The cells after resize, on a matrix with an exactly sized buffer -/

theorem vecResize_getElem? {α : Type} (n : Nat) (fill : α) (l : List α) (i : Nat)
    (hi : i < n) : (vecResize n fill l)[i]? = some ((l[i]?).getD fill) := by
  unfold vecResize
  by_cases hl : i < l.length
  · rw [List.getElem?_append_left (by rw [List.length_take]; omega),
      List.getElem?_take_of_lt hi, List.getElem?_eq_getElem hl]
    rfl
  · rw [List.getElem?_append_right (by rw [List.length_take]; omega),
      List.getElem?_replicate_of_lt (by rw [List.length_take]; omega),
      List.getElem?_eq_none (by omega)]
    rfl

/-- Reading the buffer that the two `resize` statements of `resize` produce. -/
theorem heapAt_heapResize [Zero Val] (H : List (List Val)) (r c i j : Int)
    (hi : 0 ≤ i ∧ i < r) (hj : 0 ≤ j ∧ j < c) :
    heapAt (heapResize H r c) i j = .ok (((((H[i.toNat]?).getD []))[j.toNat]?).getD 0) := by
  apply heapAt_ok _ i j (vecResize c.toNat 0 ((H[i.toNat]?).getD [])) _ hi.1 hj.1
  · unfold heapResize
    rw [List.getElem?_map, vecResize_getElem? _ _ _ _ (by omega)]
    rfl
  · exact vecResize_getElem? _ _ _ _ (by omega)

theorem resize_large [Zero Val] (m : SmallMatrix Val) (r c : Int) (hr : 0 ≤ r) (hc : 0 ≤ c)
    (hflag : m.mIsLargeMatrix = true) :
    ∃ m2, m.resize r c = .ok m2 ∧ m2.mNumRows = r ∧ m2.mNumCols = c ∧
      m2.mIsLargeMatrix = true ∧ m2.mHeapData = heapResize m.mHeapData r c := by
  unfold SmallMatrix.resize
  have hneg : ¬ (r < 0 ∨ c < 0) := by omega
  simp only [hneg, if_false, getNumberOfElements, mSmallSize, SmallMatrix.isSmall, hflag]
  by_cases hcount : r * c ≥ 144 <;> simp [hcount]

theorem resize_crossing [Zero Val] (m : SmallMatrix Val) (r c : Int) (hr : 0 ≤ r) (hc : 0 ≤ c)
    (hflag : m.mIsLargeMatrix = false) (hcount : r * c ≥ 144)
    (hfit : ¬ (0 < m.mNumRows ∧ 144 < m.mNumCols)) :
    ∃ m2 H, m.resize r c = .ok m2 ∧ m2.mNumRows = r ∧ m2.mNumCols = c ∧
      m2.mIsLargeMatrix = true ∧
      convertStdArrayToStdVector m.mStackData m.mNumRows m.mNumCols = .ok H ∧
      m2.mHeapData = heapResize H r c := by
  unfold SmallMatrix.resize
  have hneg : ¬ (r < 0 ∨ c < 0) := by omega
  simp [hneg, getNumberOfElements, mSmallSize, SmallMatrix.isSmall, hflag, hcount,
    convertStdArrayToStdVector, hfit]

theorem resize_inline [Zero Val] (m : SmallMatrix Val) (r c : Int) (hr : 0 ≤ r) (hc : 0 ≤ c)
    (hflag : m.mIsLargeMatrix = false) (hcount : r * c < 144)
    (hr0 : 0 ≤ m.mNumRows) (hc0 : 0 ≤ m.mNumCols) (hgrow : m.mNumRows < r → r ≤ 144) :
    ∃ m2, m.resize r c = .ok m2 ∧ m2.mNumRows = r ∧ m2.mNumCols = c ∧
      m2.mIsLargeMatrix = false ∧
      m2.mStackData = (fun x y =>
        if c > m.mNumCols ∧ 0 ≤ x ∧ x < r ∧ m.mNumCols ≤ y ∧ y < c then 0
        else if r > m.mNumRows ∧ m.mNumRows ≤ x ∧ x < r ∧ 0 ≤ y ∧ y < 144 then 0
        else m.mStackData x y) := by
  unfold SmallMatrix.resize
  have hneg : ¬ (r < 0 ∨ c < 0) := by omega
  have hcnt : ¬ (r * c ≥ 144) := by omega
  simp only [hneg, if_false, getNumberOfElements, mSmallSize, hcnt, hflag,
    Bool.false_eq_true]
  have hcolsOk : c > m.mNumCols → (r ≤ 144 ∧ (r ≤ 0 ∨ (0 ≤ m.mNumCols ∧ c ≤ 144))) := by
    intro hg
    have hc1 : 1 ≤ c := by omega
    have hr144 : r ≤ 144 := by
      by_contra hcon
      have : 144 < r := by omega
      nlinarith
    refine ⟨hr144, ?_⟩
    by_cases hr1 : r ≤ 0
    · exact Or.inl hr1
    · right
      refine ⟨hc0, ?_⟩
      by_contra hcon
      have : 144 < c := by omega
      have : 1 ≤ r := by omega
      nlinarith
  by_cases hgr : r > m.mNumRows
  · have h144 := hgrow hgr
    by_cases hgc : c > m.mNumCols
    · have := hcolsOk hgc
      simp only [hgr, hgc, if_true, fillRows, hr0, h144, and_self, fillCols, this]
      refine ⟨_, rfl, rfl, rfl, rfl, ?_⟩
      funext x y
      simp
    · simp only [hgr, hgc, if_true, if_false, fillRows, hr0, h144, and_self]
      refine ⟨_, rfl, rfl, rfl, rfl, ?_⟩
      funext x y
      simp [hgc]
  · by_cases hgc : c > m.mNumCols
    · have := hcolsOk hgc
      simp only [hgr, hgc, if_true, if_false, fillCols, this, and_self]
      refine ⟨_, rfl, rfl, rfl, rfl, ?_⟩
      funext x y
      simp [hgr]
    · simp only [hgr, hgc, if_false]
      refine ⟨_, rfl, rfl, rfl, rfl, ?_⟩
      funext x y
      simp [hgr, hgc]

/-- Reading a buffer of exactly `r0` rows of `c0` entries through the padding of `resize`:
an old cell keeps its value, every other cell reads `0`. -/
theorem exact_read [Zero Val] (H : List (List Val)) (r0 c0 : Nat) (hlen : H.length = r0)
    (hrows : ∀ row ∈ H, row.length = c0) (i j : Int) (hi : 0 ≤ i) (hj : 0 ≤ j) :
    (i.toNat < r0 ∧ j.toNat < c0 →
      heapAt H i j = .ok ((((H[i.toNat]?).getD [])[j.toNat]?).getD 0)) ∧
    (¬ (i.toNat < r0 ∧ j.toNat < c0) →
      (((H[i.toNat]?).getD [])[j.toNat]?).getD 0 = (0 : Val)) := by
  constructor
  · rintro ⟨h1, h2⟩
    have hil : i.toNat < H.length := by omega
    have hrl : (H[i.toNat]).length = c0 := hrows _ (List.getElem_mem _)
    have hjl : j.toNat < (H[i.toNat]).length := by omega
    rw [heapAt_ok H i j _ _ hi hj (List.getElem?_eq_getElem hil) (List.getElem?_eq_getElem hjl)]
    simp [List.getElem?_eq_getElem hil, List.getElem?_eq_getElem hjl]
  · intro hnot
    by_cases h1 : i.toNat < r0
    · have hil : i.toNat < H.length := by omega
      have hrl : (H[i.toNat]).length = c0 := hrows _ (List.getElem_mem _)
      have hjl : (H[i.toNat]).length ≤ j.toNat := by omega
      simp [List.getElem?_eq_getElem hil, List.getElem?_eq_none hjl]
    · have hil : H.length ≤ i.toNat := by omega
      simp [List.getElem?_eq_none hil]

/-- The cells after `resize` on a matrix whose dynamic buffer is sized exactly: for all
`r, c >= 0` (unless an inline matrix would grow beyond `144` rows) the call returns, the size
is `(r, c)`, a cell inside the old shape keeps its value and every other cell is `0`. -/
theorem resize_cells [Zero Val] (m : SmallMatrix Val) (hE : m.Exact) (r c : Int)
    (hr : 0 ≤ r) (hc : 0 ≤ c)
    (hgrow : m.mIsLargeMatrix = false → r * c < 144 → m.mNumRows < r → r ≤ 144) :
    ∃ m2, m.resize r c = .ok m2 ∧ m2.size = (r, c) ∧
      (∀ i j, 0 ≤ i → i < r → 0 ≤ j → j < c → i < m.mNumRows → j < m.mNumCols →
        ∃ x, m.get i j = .ok x ∧ m2.get i j = .ok x) ∧
      (∀ i j, 0 ≤ i → i < r → 0 ≤ j → j < c → ¬ (i < m.mNumRows ∧ j < m.mNumCols) →
        m2.get i j = .ok 0) := by
  obtain ⟨hB, hX⟩ := hE
  have hB2 := hB
  obtain ⟨hr0, hc0, hL, hS⟩ := hB
  cases hflag : m.mIsLargeMatrix with
  | true =>
    obtain ⟨m2, hm2, e1, e2, e3, e5⟩ := resize_large m r c hr hc hflag
    have hlen := hX hflag
    have hrows : ∀ row ∈ m.mHeapData, row.length = m.mNumCols.toNat := by
      intro row hrow
      apply (hL hflag).2
      rw [← hlen, List.take_length]
      exact hrow
    refine ⟨m2, hm2, by simp [SmallMatrix.size, e1, e2], ?_, ?_⟩
    · intro i j hi0 hir hj0 hjc hio hjo
      have hrd := (exact_read m.mHeapData _ _ hlen hrows i j hi0 hj0).1 ⟨by omega, by omega⟩
      refine ⟨(((m.mHeapData[i.toNat]?).getD [])[j.toNat]?).getD 0, ?_, ?_⟩
      · rw [get_large m hflag i j ⟨hi0, hio⟩ ⟨hj0, hjo⟩]
        exact hrd
      · rw [get_large m2 e3 i j ⟨hi0, by omega⟩ ⟨hj0, by omega⟩, e5]
        exact heapAt_heapResize _ r c i j ⟨hi0, hir⟩ ⟨hj0, hjc⟩
    · intro i j hi0 hir hj0 hjc hnot
      rw [get_large m2 e3 i j ⟨hi0, by omega⟩ ⟨hj0, by omega⟩, e5,
        heapAt_heapResize _ r c i j ⟨hi0, hir⟩ ⟨hj0, hjc⟩,
        (exact_read m.mHeapData _ _ hlen hrows i j hi0 hj0).2 (by omega)]
  | false =>
    have hcount := hS hflag
    by_cases hcross : r * c ≥ 144
    · have hfit : ¬ (0 < m.mNumRows ∧ 144 < m.mNumCols) := by
        rintro ⟨h1, h2⟩
        nlinarith
      obtain ⟨m2, H, hm2, e1, e2, e3, hH, e5⟩ := resize_crossing m r c hr hc hflag hcross hfit
      obtain ⟨hlen, hrows⟩ := convert_rows _ _ _ H hH
      refine ⟨m2, hm2, by simp [SmallMatrix.size, e1, e2], ?_, ?_⟩
      · intro i j hi0 hir hj0 hjc hio hjo
        have hb := inline_index_bound _ _ i j hcount ⟨hi0, hio⟩ ⟨hj0, hjo⟩
        have hrd := (exact_read H _ _ hlen hrows i j hi0 hj0).1 ⟨by omega, by omega⟩
        rw [heapAt_convert _ _ _ H hH i j ⟨hi0, hio⟩ hb.1 ⟨hj0, hjo⟩] at hrd
        refine ⟨m.mStackData i j, get_inline m hflag i j ⟨hi0, hio⟩ ⟨hj0, hjo⟩ hb, ?_⟩
        rw [get_large m2 e3 i j ⟨hi0, by omega⟩ ⟨hj0, by omega⟩, e5,
          heapAt_heapResize _ r c i j ⟨hi0, hir⟩ ⟨hj0, hjc⟩, hrd]
      · intro i j hi0 hir hj0 hjc hnot
        rw [get_large m2 e3 i j ⟨hi0, by omega⟩ ⟨hj0, by omega⟩, e5,
          heapAt_heapResize _ r c i j ⟨hi0, hir⟩ ⟨hj0, hjc⟩,
          (exact_read H _ _ hlen hrows i j hi0 hj0).2 (by omega)]
    · have hlt : r * c < 144 := by omega
      obtain ⟨m2, hm2, e1, e2, e3, e5⟩ :=
        resize_inline m r c hr hc hflag hlt hr0 hc0 (hgrow hflag hlt)
      refine ⟨m2, hm2, by simp [SmallMatrix.size, e1, e2], ?_, ?_⟩
      · intro i j hi0 hir hj0 hjc hio hjo
        have hb := inline_index_bound _ _ i j hcount ⟨hi0, hio⟩ ⟨hj0, hjo⟩
        refine ⟨m.mStackData i j, get_inline m hflag i j ⟨hi0, hio⟩ ⟨hj0, hjo⟩ hb, ?_⟩
        rw [get_inline m2 e3 i j ⟨hi0, by omega⟩ ⟨hj0, by omega⟩ hb, e5]
        have h1 : ¬ (c > m.mNumCols ∧ 0 ≤ i ∧ i < r ∧ m.mNumCols ≤ j ∧ j < c) := by omega
        have h2 : ¬ (r > m.mNumRows ∧ m.mNumRows ≤ i ∧ i < r ∧ 0 ≤ j ∧ j < 144) := by omega
        simp only [if_neg h1, if_neg h2]
      · intro i j hi0 hir hj0 hjc hnot
        have hb := inline_index_bound _ _ i j hlt ⟨hi0, hir⟩ ⟨hj0, hjc⟩
        rw [get_inline m2 e3 i j ⟨hi0, by omega⟩ ⟨hj0, by omega⟩ hb, e5]
        by_cases h1 : c > m.mNumCols ∧ 0 ≤ i ∧ i < r ∧ m.mNumCols ≤ j ∧ j < c
        · simp only [if_pos h1]
        · have h2 : r > m.mNumRows ∧ m.mNumRows ≤ i ∧ i < r ∧ 0 ≤ j ∧ j < 144 := by omega
          simp only [if_neg h1, if_pos h2]

/-! ### Writing a cell, and loops that visit every cell once -/

theorem heapAt_set (h : List (List Val)) (row : List Val) (i j : Int) (v : Val)
    (hi : 0 ≤ i) (hj : 0 ≤ j) (hrow : h[i.toNat]? = some row) (hjl : j.toNat < row.length)
    (a b : Int) (ha : 0 ≤ a) (hb : 0 ≤ b) :
    heapAt (h.set i.toNat (row.set j.toNat v)) a b =
      if a = i ∧ b = j then .ok v else heapAt h a b := by
  have hil : i.toNat < h.length := by
    by_contra hcon
    rw [List.getElem?_eq_none (by omega)] at hrow
    cases hrow
  by_cases hai : a = i
  · subst hai
    by_cases hbj : b = j
    · subst hbj
      rw [if_pos ⟨rfl, rfl⟩]
      apply heapAt_ok _ a b (row.set b.toNat v) v ha hb
      · rw [List.getElem?_set_self hil]
      · rw [List.getElem?_set_self hjl]
    · have hne : ¬ (a = a ∧ b = j) := fun h => hbj h.2
      rw [if_neg hne]
      unfold heapAt
      simp only [ha, hb, and_self, if_true, List.getElem?_set_self hil, hrow]
      have hnat : j.toNat ≠ b.toNat := by omega
      rw [List.getElem?_set_ne hnat]
  · have hne : ¬ (a = i ∧ b = j) := fun h => hai h.1
    rw [if_neg hne]
    apply heapAt_congr _ _ _ _ _ ha ha
    have hnat : i.toNat ≠ a.toNat := by omega
    rw [List.getElem?_set_ne hnat]

/-- A row of a backed dynamic matrix. -/
theorem backed_row (m : SmallMatrix Val) (hB : m.Backed) (hflag : m.mIsLargeMatrix = true)
    (i : Int) (hi : 0 ≤ i ∧ i < m.mNumRows) :
    ∃ row, m.mHeapData[i.toNat]? = some row ∧ row.length = m.mNumCols.toNat := by
  obtain ⟨_, _, hL, _⟩ := hB
  obtain ⟨hlen, hrows⟩ := hL hflag
  have hlt : i.toNat < m.mHeapData.length := by omega
  refine ⟨m.mHeapData[i.toNat], List.getElem?_eq_getElem hlt, ?_⟩
  exact hrows _ (List.mem_take_iff_getElem.mpr ⟨i.toNat, by omega, rfl⟩)

theorem set_large (m : SmallMatrix Val) (hflag : m.mIsLargeMatrix = true) (i j : Int)
    (hi : 0 ≤ i ∧ i < m.mNumRows) (hj : 0 ≤ j ∧ j < m.mNumCols) (v : Val) (row : List Val)
    (hrow : m.mHeapData[i.toNat]? = some row) (hjl : j.toNat < row.length) :
    ∃ m2, m.set i j v = .ok m2 ∧ m2.mNumRows = m.mNumRows ∧ m2.mNumCols = m.mNumCols ∧
      m2.mIsLargeMatrix = true ∧ m2.mStackData = m.mStackData ∧
      m2.mHeapData = m.mHeapData.set i.toNat (row.set j.toNat v) := by
  have hin : ¬ (i ≥ m.mNumRows ∨ j ≥ m.mNumCols ∨ i < 0 ∨ j < 0) := by omega
  unfold SmallMatrix.set heapAssign
  simp [hin, hflag, hi.1, hj.1, hrow, hjl, Except.map]

theorem set_inline (m : SmallMatrix Val) (hflag : m.mIsLargeMatrix = false) (i j : Int)
    (hi : 0 ≤ i ∧ i < m.mNumRows) (hj : 0 ≤ j ∧ j < m.mNumCols) (hb : i < 144 ∧ j < 144)
    (v : Val) :
    ∃ m2, m.set i j v = .ok m2 ∧ m2.mNumRows = m.mNumRows ∧ m2.mNumCols = m.mNumCols ∧
      m2.mIsLargeMatrix = false ∧ m2.mHeapData = m.mHeapData ∧
      m2.mStackData = stackSet m.mStackData i j v := by
  have hin : ¬ (i ≥ m.mNumRows ∨ j ≥ m.mNumCols ∨ i < 0 ∨ j < 0) := by omega
  unfold SmallMatrix.set stackAssign
  simp [hin, hflag, hi.1, hj.1, hb.1, hb.2, Except.map]

/-- Writing an in-range cell of a backed matrix through `operator()`: the call returns, shape
and flag stay, the matrix stays backed, the cell holds the new value and no other cell
changes. -/
theorem set_spec (m : SmallMatrix Val) (hB : m.Backed) (i j : Int)
    (hi : 0 ≤ i ∧ i < m.mNumRows) (hj : 0 ≤ j ∧ j < m.mNumCols) (v : Val) :
    ∃ m2, m.set i j v = .ok m2 ∧ m2.mNumRows = m.mNumRows ∧ m2.mNumCols = m.mNumCols ∧
      m2.mIsLargeMatrix = m.mIsLargeMatrix ∧ m2.Backed ∧
      ∀ a b, 0 ≤ a ∧ a < m.mNumRows → 0 ≤ b ∧ b < m.mNumCols →
        m2.get a b = if a = i ∧ b = j then .ok v else m.get a b := by
  have hB2 := hB
  obtain ⟨hr0, hc0, hL, hS⟩ := hB
  cases hflag : m.mIsLargeMatrix with
  | true =>
    obtain ⟨row, hrow, hrl⟩ := backed_row m hB2 hflag i hi
    have hjl : j.toNat < row.length := by omega
    obtain ⟨m2, hm2, e1, e2, e3, _, e5⟩ := set_large m hflag i j hi hj v row hrow hjl
    refine ⟨m2, hm2, e1, e2, e3, ?_, ?_⟩
    · obtain ⟨hlen, hrows⟩ := hL hflag
      refine ⟨by omega, by omega, ?_, ?_⟩
      · intro _
        rw [e5, e1, e2]
        refine ⟨by simp only [List.length_set]; exact hlen, ?_⟩
        intro r hr
        rw [List.mem_take_iff_getElem] at hr
        obtain ⟨a, ha, rfl⟩ := hr
        simp only [List.length_set] at ha
        by_cases hai : i.toNat = a
        · subst hai
          simp only [List.getElem_set_self, List.length_set]
          exact hrl
        · rw [List.getElem_set_ne hai]
          exact hrows _ (List.mem_take_iff_getElem.mpr ⟨a, by omega, rfl⟩)
      · intro hf
        rw [e3] at hf
        cases hf
    · intro a b ha hb
      rw [get_large m2 e3 a b ⟨ha.1, by omega⟩ ⟨hb.1, by omega⟩, get_large m hflag a b ha hb, e5]
      exact heapAt_set _ row i j v hi.1 hj.1 hrow hjl a b ha.1 hb.1
  | false =>
    have hcount := hS hflag
    have hb0 := inline_index_bound _ _ i j hcount hi hj
    obtain ⟨m2, hm2, e1, e2, e3, _, e5⟩ := set_inline m hflag i j hi hj hb0 v
    refine ⟨m2, hm2, e1, e2, e3, ?_, ?_⟩
    · refine ⟨by omega, by omega, ?_, ?_⟩
      · intro hf
        rw [e3] at hf
        cases hf
      · intro _
        rw [e1, e2]
        exact hcount
    · intro a b ha hb
      have hb1 := inline_index_bound _ _ a b hcount ha hb
      rw [get_inline m2 e3 a b ⟨ha.1, by omega⟩ ⟨hb.1, by omega⟩ hb1,
        get_inline m hflag a b ha hb hb1, e5]
      simp only [stackSet]
      by_cases h : a = i ∧ b = j
      · rw [if_pos h, if_pos h]
      · rw [if_neg h, if_neg h]

theorem get_cell [Zero Val] (m : SmallMatrix Val) (hB : m.Backed) (i j : Int)
    (hi : 0 ≤ i ∧ i < m.mNumRows) (hj : 0 ≤ j ∧ j < m.mNumCols) :
    m.get i j = .ok (m.cell i j) := by
  obtain ⟨x, hx⟩ := get_ok_of_backed m hB i j hi hj
  unfold SmallMatrix.cell
  rw [hx]

/-- A loop over the columns of row `i` whose body rewrites cell `(i, j)` from its own value
and leaves the other cells alone rewrites the first `t` cells of the row. -/
theorem cellwise_row (R C : Int)
    (body : SmallMatrix Val → Int → Int → Except Err (SmallMatrix Val))
    (f : Int → Int → Val → Val)
    (hbody : ∀ p i j, p.Backed → p.mNumRows = R → p.mNumCols = C → 0 ≤ i ∧ i < R →
      0 ≤ j ∧ j < C →
      ∃ p2, body p i j = .ok p2 ∧ p2.Backed ∧ p2.mNumRows = R ∧ p2.mNumCols = C ∧
        p2.mIsLargeMatrix = p.mIsLargeMatrix ∧
        ∀ a b, 0 ≤ a ∧ a < R → 0 ≤ b ∧ b < C →
          p2.get a b = if a = i ∧ b = j then (p.get a b).map (f a b) else p.get a b)
    (i : Int) (hi : 0 ≤ i ∧ i < R) (p : SmallMatrix Val) (hB : p.Backed)
    (hR : p.mNumRows = R) (hC : p.mNumCols = C) (t : Nat) (ht : (t : Int) ≤ C) :
    ∃ p2, (upTo 0 (t : Int)).foldlM (fun n j => body n i j) p = .ok p2 ∧ p2.Backed ∧
      p2.mNumRows = R ∧ p2.mNumCols = C ∧ p2.mIsLargeMatrix = p.mIsLargeMatrix ∧
      ∀ a b, 0 ≤ a ∧ a < R → 0 ≤ b ∧ b < C →
        p2.get a b = if a = i ∧ b < (t : Int) then (p.get a b).map (f a b) else p.get a b := by
  induction t with
  | zero =>
    refine ⟨p, ?_, hB, hR, hC, rfl, ?_⟩
    · rw [upTo_nil 0 ((0 : Nat) : Int) (le_of_eq rfl)]
      rfl
    · intro a b ha hb
      have : ¬ (a = i ∧ b < ((0 : Nat) : Int)) := by omega
      rw [if_neg this]
  | succ t ih =>
    obtain ⟨p1, hp1, hB1, hR1, hC1, hF1, hcells1⟩ := ih (by omega)
    have hcast : ((t + 1 : Nat) : Int) = (t : Int) + 1 := by push_cast; rfl
    obtain ⟨p2, hp2, hB2, hR2, hC2, hF2, hcells2⟩ :=
      hbody p1 i t hB1 hR1 hC1 hi ⟨by omega, by omega⟩
    refine ⟨p2, ?_, hB2, hR2, hC2, hF2.trans hF1, ?_⟩
    · rw [hcast, upTo_succ 0 t (by omega)]
      exact foldlM_snoc_ok _ _ _ _ _ _ hp1 hp2
    · intro a b ha hb
      rw [hcells2 a b ha hb, hcells1 a b ha hb, hcast]
      by_cases h1 : a = i ∧ b = (t : Int)
      · have h2 : ¬ (a = i ∧ b < (t : Int)) := by omega
        have h3 : a = i ∧ b < (t : Int) + 1 := by omega
        rw [if_pos h1, if_neg h2, if_pos h3]
      · rw [if_neg h1]
        by_cases h2 : a = i ∧ b < (t : Int)
        · have h3 : a = i ∧ b < (t : Int) + 1 := by omega
          rw [if_pos h2, if_pos h3]
        · have h3 : ¬ (a = i ∧ b < (t : Int) + 1) := by omega
          rw [if_neg h2, if_neg h3]

/-- The two nested loops over all cells: every cell is rewritten once from its own value. -/
theorem cellwise_loop (R C : Int) (hC0 : 0 ≤ C)
    (body : SmallMatrix Val → Int → Int → Except Err (SmallMatrix Val))
    (f : Int → Int → Val → Val)
    (hbody : ∀ p i j, p.Backed → p.mNumRows = R → p.mNumCols = C → 0 ≤ i ∧ i < R →
      0 ≤ j ∧ j < C →
      ∃ p2, body p i j = .ok p2 ∧ p2.Backed ∧ p2.mNumRows = R ∧ p2.mNumCols = C ∧
        p2.mIsLargeMatrix = p.mIsLargeMatrix ∧
        ∀ a b, 0 ≤ a ∧ a < R → 0 ≤ b ∧ b < C →
          p2.get a b = if a = i ∧ b = j then (p.get a b).map (f a b) else p.get a b)
    (p : SmallMatrix Val) (hB : p.Backed) (hR : p.mNumRows = R) (hC : p.mNumCols = C)
    (s : Nat) (hs : (s : Int) ≤ R) :
    ∃ p2, (upTo 0 (s : Int)).foldlM
        (fun n i => (upTo 0 C).foldlM (fun n j => body n i j) n) p = .ok p2 ∧
      p2.Backed ∧ p2.mNumRows = R ∧ p2.mNumCols = C ∧
      p2.mIsLargeMatrix = p.mIsLargeMatrix ∧
      ∀ a b, 0 ≤ a ∧ a < R → 0 ≤ b ∧ b < C →
        p2.get a b = if a < (s : Int) then (p.get a b).map (f a b) else p.get a b := by
  induction s with
  | zero =>
    refine ⟨p, ?_, hB, hR, hC, rfl, ?_⟩
    · rw [upTo_nil 0 ((0 : Nat) : Int) (le_of_eq rfl)]
      rfl
    · intro a b ha hb
      have : ¬ (a < ((0 : Nat) : Int)) := by omega
      rw [if_neg this]
  | succ s ih =>
    obtain ⟨p1, hp1, hB1, hR1, hC1, hF1, hcells1⟩ := ih (by omega)
    have hcast : ((s + 1 : Nat) : Int) = (s : Int) + 1 := by push_cast; rfl
    obtain ⟨p2, hp2, hB2, hR2, hC2, hF2, hcells2⟩ :=
      cellwise_row R C body f hbody s ⟨by omega, by omega⟩ p1 hB1 hR1 hC1 C.toNat (by omega)
    have hCc : ((C.toNat : Nat) : Int) = C := Int.toNat_of_nonneg hC0
    rw [hCc] at hp2
    refine ⟨p2, ?_, hB2, hR2, hC2, hF2.trans hF1, ?_⟩
    · rw [hcast, upTo_succ 0 s (by omega)]
      exact foldlM_snoc_ok _ _ _ _ _ _ hp1 hp2
    · intro a b ha hb
      rw [hcells2 a b ha hb, hcells1 a b ha hb, hcast, hCc]
      by_cases h1 : a = (s : Int) ∧ b < C
      · have h2 : ¬ (a < (s : Int)) := by omega
        have h3 : a < (s : Int) + 1 := by omega
        rw [if_pos h1, if_neg h2, if_pos h3]
      · rw [if_neg h1]
        by_cases h2 : a < (s : Int)
        · have h3 : a < (s : Int) + 1 := by omega
          rw [if_pos h2, if_pos h3]
        · have h3 : ¬ (a < (s : Int) + 1) := by omega
          rw [if_neg h2, if_neg h3]

/-! ### Matrix multiplication -/

theorem heapAt_error (h : List (List Val)) (i j : Int) (e : Err)
    (he : heapAt h i j = .error e) : e = .outOfRange := by
  unfold heapAt at he
  split at he
  · split at he
    · cases he; rfl
    · split at he
      · cases he; rfl
      · cases he
  · cases he; rfl

theorem get_error (m : SmallMatrix Val) (i j : Int) (e : Err) (he : m.get i j = .error e) :
    e = .outOfRange := by
  unfold SmallMatrix.get at he
  simp only at he
  split at he
  · cases he; rfl
  · split at he
    · exact heapAt_error _ _ _ _ he
    · unfold stackAt at he
      split at he
      · cases he
      · cases he; rfl

theorem set_error (m : SmallMatrix Val) (i j : Int) (v : Val) (e : Err)
    (he : m.set i j v = .error e) : e = .outOfRange := by
  unfold SmallMatrix.set at he
  simp only at he
  split at he
  · cases he; rfl
  · split at he
    · unfold heapAssign at he
      split at he
      · split at he
        · cases he; rfl
        · split at he
          · cases he
          · cases he; rfl
      · cases he; rfl
    · unfold stackAssign at he
      split at he
      · cases he
      · cases he; rfl

/-- A loop whose body throws nothing but `std::out_of_range` throws nothing else. -/
theorem foldlM_error_kind {σ ι : Type} (f : σ → ι → Except Err σ)
    (hf : ∀ s x e, f s x = .error e → e = .outOfRange) :
    ∀ (l : List ι) (s : σ) (e : Err), l.foldlM f s = .error e → e = .outOfRange := by
  intro l
  induction l with
  | nil => intro s e h; cases h
  | cons x rest ih =>
    intro s e h
    rw [List.foldlM_cons] at h
    cases hx : f s x with
    | error e2 =>
      rw [hx] at h
      cases h
      exact hf s x e hx
    | ok s2 =>
      rw [hx] at h
      exact ih s2 e h

/-- The statement `newSmallMatrix(i, j) += lhs(i, k) * rhs(k, j)` throws nothing but
`std::out_of_range`. -/
theorem mul_step_error [Add Val] [Mul Val] (lhs rhs n : SmallMatrix Val) (i j k : Int)
    (e : Err)
    (he : (do
      let a ← lhs.get i k
      let b ← rhs.get k j
      let cur ← n.get i j
      n.set i j (cur + a * b)) = Except.error e) : e = .outOfRange := by
  cases h1 : lhs.get i k with
  | error e1 =>
    rw [h1] at he
    cases he
    exact get_error _ _ _ _ h1
  | ok a =>
    cases h2 : rhs.get k j with
    | error e2 =>
      rw [h1, h2] at he
      cases he
      exact get_error _ _ _ _ h2
    | ok b =>
      cases h3 : n.get i j with
      | error e3 =>
        rw [h1, h2, h3] at he
        cases he
        exact get_error _ _ _ _ h3
      | ok cur =>
        rw [h1, h2, h3] at he
        exact set_error _ _ _ _ _ he

/-- The innermost loop of `operator*` adds the products `lhs(i, k) * rhs(k, j)`, in the order
`k = 0, 1, ...`, to the value that cell `(i, j)` of the result holds when the loop starts. -/
theorem mul_cell [Zero Val] [Add Val] [Mul Val] (lhs rhs : SmallMatrix Val)
    (hBl : lhs.Backed) (hBr : rhs.Backed) (hdim : lhs.mNumCols = rhs.mNumRows)
    (p : SmallMatrix Val) (hB : p.Backed) (hR : p.mNumRows = lhs.mNumRows)
    (hC : p.mNumCols = rhs.mNumCols) (i j : Int) (hi : 0 ≤ i ∧ i < lhs.mNumRows)
    (hj : 0 ≤ j ∧ j < rhs.mNumCols) (t : Nat) (ht : (t : Int) ≤ lhs.mNumCols) :
    ∃ p2, (upTo 0 (t : Int)).foldlM (fun n k => do
        let a ← lhs.get i k
        let b ← rhs.get k j
        let cur ← n.get i j
        n.set i j (cur + a * b)) p = .ok p2 ∧
      p2.Backed ∧ p2.mNumRows = lhs.mNumRows ∧ p2.mNumCols = rhs.mNumCols ∧
      p2.mIsLargeMatrix = p.mIsLargeMatrix ∧
      ∀ a b, 0 ≤ a ∧ a < lhs.mNumRows → 0 ≤ b ∧ b < rhs.mNumCols →
        p2.get a b = if a = i ∧ b = j then
            (p.get a b).map (fun x0 => (upTo 0 (t : Int)).foldl
              (fun acc k => acc + lhs.cell a k * rhs.cell k b) x0)
          else p.get a b := by
  induction t with
  | zero =>
    refine ⟨p, ?_, hB, hR, hC, rfl, ?_⟩
    · rw [upTo_nil 0 ((0 : Nat) : Int) (le_of_eq rfl)]
      rfl
    · intro a b ha hb
      rw [upTo_nil 0 ((0 : Nat) : Int) (le_of_eq rfl)]
      rw [get_cell p hB a b ⟨ha.1, by omega⟩ ⟨hb.1, by omega⟩]
      simp [Except.map]
  | succ t ih =>
    obtain ⟨p1, hp1, hB1, hR1, hC1, hF1, hcells1⟩ := ih (by omega)
    have hcast : ((t + 1 : Nat) : Int) = (t : Int) + 1 := by push_cast; rfl
    have hl := get_cell lhs hBl i t hi ⟨by omega, by omega⟩
    have hr := get_cell rhs hBr t j ⟨by omega, by omega⟩ hj
    have hcur := get_cell p1 hB1 i j ⟨hi.1, by omega⟩ ⟨hj.1, by omega⟩
    obtain ⟨p2, hp2, e1, e2, e3, hB2, hcells2⟩ :=
      set_spec p1 hB1 i j ⟨hi.1, by omega⟩ ⟨hj.1, by omega⟩
        (p1.cell i j + lhs.cell i t * rhs.cell t j)
    refine ⟨p2, ?_, hB2, by omega, by omega, e3.trans hF1, ?_⟩
    · rw [hcast, upTo_succ 0 t (by omega)]
      refine foldlM_snoc_ok _ _ _ _ _ _ hp1 ?_
      beta_reduce
      rw [hl, hr, hcur]
      exact hp2
    · intro a b ha hb
      rw [hcells2 a b ⟨ha.1, by omega⟩ ⟨hb.1, by omega⟩, hcells1 a b ha hb]
      by_cases h : a = i ∧ b = j
      · obtain ⟨rfl, rfl⟩ := h
        have hp1c := hcells1 a b ha hb
        rw [if_pos ⟨rfl, rfl⟩, get_cell p hB a b ⟨ha.1, by omega⟩ ⟨hb.1, by omega⟩,
          hcur] at hp1c
        simp only [Except.map] at hp1c
        have hval := Except.ok.inj hp1c
        rw [if_pos ⟨rfl, rfl⟩, if_pos ⟨rfl, rfl⟩,
          get_cell p hB a b ⟨ha.1, by omega⟩ ⟨hb.1, by omega⟩, hcast,
          upTo_succ 0 t (by omega)]
        simp only [Except.map, List.foldl_append, List.foldl_cons, List.foldl_nil, hval]
      · simp only [if_neg h]

/-- The three nested loops of `operator*` and `operator*=` on operands whose cells are backed,
with `lhs.cols = rhs.rows`: they return a matrix whose cells are backed, of shape
`(lhs.rows, rhs.cols)`, and cell `(i, j)` is the sum of the products accumulated from the
value the cell held in the freshly constructed result. -/
theorem mul_loops [Zero Val] [Add Val] [Mul Val] (init : Stack Val)
    (lhs rhs : SmallMatrix Val) (hdim : lhs.mNumCols = rhs.mNumRows) (hBl : lhs.Backed)
    (hBr : rhs.Backed) (hb : lhs.mNumRows * rhs.mNumCols < 2147483648) :
    ∃ p, (upTo 0 lhs.mNumRows).foldlM (fun n i =>
        (upTo 0 rhs.mNumCols).foldlM (fun n j =>
          (upTo 0 lhs.mNumCols).foldlM (fun n k => do
            let a ← lhs.get i k
            let b ← rhs.get k j
            let cur ← n.get i j
            n.set i j (cur + a * b)) n) n)
          (SmallMatrix.ctor2 init lhs.mNumRows rhs.mNumCols) = .ok p ∧
      p.Backed ∧ p.mNumRows = lhs.mNumRows ∧ p.mNumCols = rhs.mNumCols ∧
      ∀ i j, 0 ≤ i ∧ i < lhs.mNumRows → 0 ≤ j ∧ j < rhs.mNumCols →
        p.get i j = .ok ((upTo 0 lhs.mNumCols).foldl
          (fun acc k => acc + lhs.cell i k * rhs.cell k j)
          (if lhs.mNumRows * rhs.mNumCols ≥ 144 then 0 else init i j)) := by
  have hr0 := hBl.1
  have hc0 := hBr.2.1
  have hK0 := hBl.2.1
  have hB0 := ctor2_backed init lhs.mNumRows rhs.mNumCols hr0 hc0 hb
  have hR0 : (SmallMatrix.ctor2 init lhs.mNumRows rhs.mNumCols).mNumRows = lhs.mNumRows := by
    unfold SmallMatrix.ctor2
    dsimp only
    split <;> rfl
  have hC0 : (SmallMatrix.ctor2 init lhs.mNumRows rhs.mNumCols).mNumCols = rhs.mNumCols := by
    unfold SmallMatrix.ctor2
    dsimp only
    split <;> rfl
  have hKc : ((lhs.mNumCols.toNat : Nat) : Int) = lhs.mNumCols := Int.toNat_of_nonneg hK0
  have hRc : ((lhs.mNumRows.toNat : Nat) : Int) = lhs.mNumRows := Int.toNat_of_nonneg hr0
  obtain ⟨p, hp, hBp, hRp, hCp, _, hcells⟩ :=
    cellwise_loop lhs.mNumRows rhs.mNumCols hc0
      (fun n i j => (upTo 0 lhs.mNumCols).foldlM (fun n k => do
        let a ← lhs.get i k
        let b ← rhs.get k j
        let cur ← n.get i j
        n.set i j (cur + a * b)) n)
      (fun a b x0 => (upTo 0 lhs.mNumCols).foldl
        (fun acc k => acc + lhs.cell a k * rhs.cell k b) x0)
      (by
        intro q i j hBq hRq hCq hi hj
        have h := mul_cell lhs rhs hBl hBr hdim q hBq hRq hCq i j hi hj
          lhs.mNumCols.toNat (by omega)
        rw [hKc] at h
        exact h)
      (SmallMatrix.ctor2 init lhs.mNumRows rhs.mNumCols) hB0 hR0 hC0
      lhs.mNumRows.toNat (by omega)
  rw [hRc] at hp hcells
  refine ⟨p, hp, hBp, hRp, hCp, ?_⟩
  intro i j hi hj
  rw [hcells i j hi hj, if_pos hi.2, ctor2_get init _ _ i j hi hj hb]
  rfl

/-- The product computed by `operator*`: `InvalidArgument` exactly when
`lhs.cols != rhs.rows`; otherwise, for operands whose cells are backed by their buffers and a
result whose element count fits an `int`, the result has shape `(lhs.rows, rhs.cols)` and
cell `(i, j)` is the sum of the products `lhs(i, k) * rhs(k, j)` accumulated in the order
`k = 0, 1, ...` from `0` when the result is dynamic, and from the previous content of the
result object's storage when it is inline. -/
theorem mul_spec [Zero Val] [Add Val] [Mul Val] (init : Stack Val)
    (lhs rhs : SmallMatrix Val) :
    (SmallMatrix.mul init lhs rhs = .error .invalidArgument ↔
      lhs.mNumCols ≠ rhs.mNumRows) ∧
    (lhs.mNumCols = rhs.mNumRows → lhs.Backed → rhs.Backed →
      lhs.mNumRows * rhs.mNumCols < 2147483648 →
      ∃ p, SmallMatrix.mul init lhs rhs = .ok p ∧
        p.size = (lhs.mNumRows, rhs.mNumCols) ∧
        ∀ i j, 0 ≤ i ∧ i < lhs.mNumRows → 0 ≤ j ∧ j < rhs.mNumCols →
          p.get i j = .ok ((upTo 0 lhs.mNumCols).foldl
            (fun acc k => acc + lhs.cell i k * rhs.cell k j)
            (if lhs.mNumRows * rhs.mNumCols ≥ 144 then 0 else init i j))) := by
  constructor
  · constructor
    · intro h hdim
      unfold SmallMatrix.mul at h
      simp only [hdim, ne_eq, not_true_eq_false, if_false] at h
      have := foldlM_error_kind _ (fun s i e he =>
        foldlM_error_kind _ (fun s j e he =>
          foldlM_error_kind _ (fun s k e he => mul_step_error lhs rhs s i j k e he) _ s e he)
          _ s e he) _ _ _ h
      cases this
    · intro hdim
      unfold SmallMatrix.mul
      simp [hdim]
  · intro hdim hBl hBr hb
    obtain ⟨p, hp, _, hRp, hCp, hcells⟩ := mul_loops init lhs rhs hdim hBl hBr hb
    refine ⟨p, ?_, ?_, hcells⟩
    · unfold SmallMatrix.mul
      simp only [hdim, ne_eq, not_true_eq_false, if_false]
      rw [← hdim]
      exact hp
    · simp [SmallMatrix.size, hRp, hCp]

/-! ### Evaluations on concrete inputs -/

/-- C2. After `eraseCol(0)` on a `12 x 12` matrix filled with `1` the size is `(12, 11)`, the
matrix is still dynamic but `mHeapData` is empty, and the in-range access `(0, 0)` fails with
`OutOfRange`. -/
theorem access_after_eraseCol_throws :
    ∃ m, SmallMatrix.eraseCol (fun _ _ => (0 : Int)) (fun _ _ => 0)
        (SmallMatrix.ctor3 (fun _ _ => 0) 12 12 1) 0 = .ok m ∧
      m.size = (12, 11) ∧ m.isSmall = false ∧ m.mHeapData = [] ∧
      m.get 0 0 = .error .outOfRange :=
  ⟨_, rfl, rfl, rfl, rfl, rfl⟩

/-- C3. The matrix built by `SmallMatrix(1, 1)` in storage that holds `1` has size `(1, 1)`,
is inline, and its element `(0, 0)` is `1`, not `0`. -/
theorem ctor2_inline_not_zeroed :
    (SmallMatrix.ctor2 (fun _ _ => (1 : Int)) 1 1).size = (1, 1) ∧
    (SmallMatrix.ctor2 (fun _ _ => (1 : Int)) 1 1).isSmall = true ∧
    (SmallMatrix.ctor2 (fun _ _ => (1 : Int)) 1 1).get 0 0 = .ok 1 :=
  ⟨rfl, rfl, rfl⟩

/-- C4. The product of `{{1, 2, 3}, {4, 5, 6}}` and `{{4}, {5}, {6}}`, computed into a result
object whose storage holds `1`, has size `(2, 1)` and the cells `33` and `78`, not `32` and
`77`. -/
theorem mul_accumulates_from_indeterminate :
    (do
      let m1 ← SmallMatrix.ctorList (fun _ _ => (0 : Int)) [[1, 2, 3], [4, 5, 6]]
      let m2 ← SmallMatrix.ctorList (fun _ _ => (0 : Int)) [[4], [5], [6]]
      let p ← SmallMatrix.mul (fun _ _ => (1 : Int)) m1 m2
      let a ← p.get 0 0
      let b ← p.get 1 0
      pure (p.size, a, b)) = Except.ok ((2, 1), 33, 78) :=
  rfl

/-- C5. An inline `11 x 12` matrix filled with `5` receives a row at index `0` (which makes it
dynamic, of size `(12, 12)`) and is then resized to `(13, 12)`: the new cell `(12, 0)` holds
`5`, not `0`. -/
theorem resize_exposes_stale_row :
    ∃ m m2, (SmallMatrix.ctor3 (fun _ _ => (0 : Int)) 11 12 5).insertRow 0
        [1, 2, 3, 4, 5, 6, 7, 8, 9, 10, 11, 12] = .ok m ∧
      m.size = (12, 12) ∧ m.resize 13 12 = .ok m2 ∧ m2.size = (13, 12) ∧
      m2.get 12 0 = .ok 5 :=
  ⟨_, _, rfl, rfl, rfl, rfl, rfl⟩

/-! ### Evaluations on concrete inputs: column operations, transpose, list construction -/

set_option maxRecDepth 100000

/-- C12. An inline `11 x 12` matrix filled with `5` receives the row `1, ..., 12` at index
`0` (it becomes dynamic) and loses row `1`: `M` is `11 x 12`, dynamic with `132` elements, and
its first row is `1, ..., 12`. It then receives a column of nines at index `0`: `insertCol`
returns and the size is `(11, 13)`, but the matrix is still dynamic with its old `11 x 12`
buffer, so element `(0, 0)` is `1` instead of `9`, element `(0, 1)` is `2` instead of `1`, and
the in-range access `(0, 12)` fails with `OutOfRange`. -/
theorem insertCol_after_eraseRow_keeps_old_buffer :
    ∃ m M m2, (SmallMatrix.ctor3 (fun _ _ => (0 : Int)) 11 12 5).insertRow 0
        [1, 2, 3, 4, 5, 6, 7, 8, 9, 10, 11, 12] = .ok m ∧
      m.eraseRow 1 = .ok M ∧ M.size = (11, 12) ∧ M.isSmall = false ∧
      M.get 0 0 = .ok 1 ∧ M.get 0 11 = .ok 12 ∧
      SmallMatrix.insertCol (fun _ _ => 0) (fun _ _ => 0) M 0
        [9, 9, 9, 9, 9, 9, 9, 9, 9, 9, 9] = .ok m2 ∧
      m2.size = (11, 13) ∧ m2.isSmall = false ∧ m2.get 0 0 = .ok 1 ∧ m2.get 0 1 = .ok 2 ∧
      m2.get 0 12 = .error .outOfRange :=
  ⟨_, _, _, rfl, rfl, rfl, rfl, rfl, rfl, rfl, rfl, rfl, rfl, rfl, rfl⟩

/-- Element access on a dynamic matrix whose `mHeapData` is empty always throws. -/
theorem get_of_empty_heap (m : SmallMatrix Val) (hflag : m.mIsLargeMatrix = true)
    (hheap : m.mHeapData = []) (i j : Int) : m.get i j = .error .outOfRange := by
  unfold SmallMatrix.get
  simp only [hflag, hheap, if_true]
  split
  · rfl
  · unfold heapAt
    split <;> simp

/-- C13. `eraseCol(0)` on a `12 x 12` matrix filled with `1` (the erase drops the count to
`132`) returns and the size is `(12, 11)`, but the matrix is still dynamic and `mHeapData` is
empty, so no element is accessible any more: every access fails with `OutOfRange`. -/
theorem eraseCol_under_threshold_loses_elements :
    ∃ m, SmallMatrix.eraseCol (fun _ _ => (0 : Int)) (fun _ _ => 0)
        (SmallMatrix.ctor3 (fun _ _ => 0) 12 12 1) 0 = .ok m ∧
      m.size = (12, 11) ∧ ∀ i j, m.get i j = .error .outOfRange :=
  ⟨_, rfl, rfl, fun i j => get_of_empty_heap _ rfl rfl i j⟩

/-- C14. An inline `11 x 12` matrix filled with `5` receives the row `1, ..., 12` at index
`0` (it becomes dynamic) and loses row `1`: `M` is `11 x 12`, dynamic with `132` elements,
`M(0, 0) = 1` and `M(0, 3) = 4`. Its transpose `T` has size `(12, 11)` and is inline, but
`T(0, 0) = 5` and `T(3, 0) = 5`: `transpose` read the inline buffer of `M`. -/
theorem transpose_reads_inactive_buffer :
    ∃ m M T, (SmallMatrix.ctor3 (fun _ _ => (0 : Int)) 11 12 5).insertRow 0
        [1, 2, 3, 4, 5, 6, 7, 8, 9, 10, 11, 12] = .ok m ∧
      m.eraseRow 1 = .ok M ∧ M.size = (11, 12) ∧ M.isSmall = false ∧
      M.get 0 0 = .ok 1 ∧ M.get 0 3 = .ok 4 ∧
      transpose (fun _ _ => 0) M = .ok T ∧ T.size = (12, 11) ∧ T.isSmall = true ∧
      T.get 0 0 = .ok 5 ∧ T.get 3 0 = .ok 5 :=
  ⟨_, _, _, rfl, rfl, rfl, rfl, rfl, rfl, rfl, rfl, rfl, rfl, rfl⟩

/-- C15. For the dynamic `11 x 12` matrix `M` of `132` elements with first row `1, ..., 12`
and `5` elsewhere, `transpose(transpose(M))` has the size of `M` but holds `5` at `(0, 0)` and
at `(0, 3)`, where `M` holds `1` and `4`. -/
theorem transpose_twice_differs :
    ∃ m M T T2, (SmallMatrix.ctor3 (fun _ _ => (0 : Int)) 11 12 5).insertRow 0
        [1, 2, 3, 4, 5, 6, 7, 8, 9, 10, 11, 12] = .ok m ∧
      m.eraseRow 1 = .ok M ∧ transpose (fun _ _ => 0) M = .ok T ∧
      transpose (fun _ _ => 0) T = .ok T2 ∧ T2.size = M.size ∧
      M.get 0 0 = .ok 1 ∧ T2.get 0 0 = .ok 5 ∧ M.get 0 3 = .ok 4 ∧ T2.get 0 3 = .ok 5 :=
  ⟨_, _, _, _, rfl, rfl, rfl, rfl, rfl, rfl, rfl, rfl, rfl⟩

/-- C18. The list of `145` empty rows is rectangular, yet the list constructor fails on it,
with `OutOfRange`: the loop reaches `mStackData.at(144)`. -/
theorem ctorList_many_empty_rows_throws :
    adjacentSizesDiffer (List.replicate 145 ([] : List Int)) = false ∧
    SmallMatrix.ctorList (fun _ _ => (0 : Int)) (List.replicate 145 []) =
      .error .outOfRange :=
  ⟨rfl, rfl⟩

theorem mem_upTo (a b j : Int) : j ∈ upTo a b ↔ a ≤ j ∧ j < b := by
  unfold upTo
  simp only [List.mem_map, List.mem_range]
  constructor
  · rintro ⟨k, hk, rfl⟩
    omega
  · intro h
    exact ⟨(j - a).toNat, by omega, by omega⟩

theorem withState_ok {σ α : Type} (s : σ) (x : Except Err α) (a : α) (h : x = .ok a) :
    withState s x = .ok a := by
  rw [h]
  rfl

/-- The lemma `cellwise_row` for a body with any type of exception. -/
theorem cellwise_row_gen {ε : Type} (R C : Int)
    (body : SmallMatrix Val → Int → Int → Except ε (SmallMatrix Val))
    (f : Int → Int → Val → Val)
    (hbody : ∀ p i j, p.Backed → p.mNumRows = R → p.mNumCols = C → 0 ≤ i ∧ i < R →
      0 ≤ j ∧ j < C →
      ∃ p2, body p i j = .ok p2 ∧ p2.Backed ∧ p2.mNumRows = R ∧ p2.mNumCols = C ∧
        p2.mIsLargeMatrix = p.mIsLargeMatrix ∧
        ∀ a b, 0 ≤ a ∧ a < R → 0 ≤ b ∧ b < C →
          p2.get a b = if a = i ∧ b = j then (p.get a b).map (f a b) else p.get a b)
    (i : Int) (hi : 0 ≤ i ∧ i < R) (p : SmallMatrix Val) (hB : p.Backed)
    (hR : p.mNumRows = R) (hC : p.mNumCols = C) (t : Nat) (ht : (t : Int) ≤ C) :
    ∃ p2, (upTo 0 (t : Int)).foldlM (fun n j => body n i j) p = .ok p2 ∧ p2.Backed ∧
      p2.mNumRows = R ∧ p2.mNumCols = C ∧ p2.mIsLargeMatrix = p.mIsLargeMatrix ∧
      ∀ a b, 0 ≤ a ∧ a < R → 0 ≤ b ∧ b < C →
        p2.get a b = if a = i ∧ b < (t : Int) then (p.get a b).map (f a b) else p.get a b := by
  induction t with
  | zero =>
    refine ⟨p, ?_, hB, hR, hC, rfl, ?_⟩
    · rw [upTo_nil 0 ((0 : Nat) : Int) (le_of_eq rfl)]
      rfl
    · intro a b ha hb
      have : ¬ (a = i ∧ b < ((0 : Nat) : Int)) := by omega
      rw [if_neg this]
  | succ t ih =>
    obtain ⟨p1, hp1, hB1, hR1, hC1, hF1, hcells1⟩ := ih (by omega)
    have hcast : ((t + 1 : Nat) : Int) = (t : Int) + 1 := by push_cast; rfl
    obtain ⟨p2, hp2, hB2, hR2, hC2, hF2, hcells2⟩ :=
      hbody p1 i t hB1 hR1 hC1 hi ⟨by omega, by omega⟩
    refine ⟨p2, ?_, hB2, hR2, hC2, hF2.trans hF1, ?_⟩
    · rw [hcast, upTo_succ 0 t (by omega)]
      exact foldlM_snoc_ok _ _ _ _ _ _ hp1 hp2
    · intro a b ha hb
      rw [hcells2 a b ha hb, hcells1 a b ha hb, hcast]
      by_cases h1 : a = i ∧ b = (t : Int)
      · have h2 : ¬ (a = i ∧ b < (t : Int)) := by omega
        have h3 : a = i ∧ b < (t : Int) + 1 := by omega
        rw [if_pos h1, if_neg h2, if_pos h3]
      · rw [if_neg h1]
        by_cases h2 : a = i ∧ b < (t : Int)
        · have h3 : a = i ∧ b < (t : Int) + 1 := by omega
          rw [if_pos h2, if_pos h3]
        · have h3 : ¬ (a = i ∧ b < (t : Int) + 1) := by omega
          rw [if_neg h2, if_neg h3]

/-- The lemma `cellwise_loop` for a body with any type of exception. -/
theorem cellwise_loop_gen {ε : Type} (R C : Int) (hC0 : 0 ≤ C)
    (body : SmallMatrix Val → Int → Int → Except ε (SmallMatrix Val))
    (f : Int → Int → Val → Val)
    (hbody : ∀ p i j, p.Backed → p.mNumRows = R → p.mNumCols = C → 0 ≤ i ∧ i < R →
      0 ≤ j ∧ j < C →
      ∃ p2, body p i j = .ok p2 ∧ p2.Backed ∧ p2.mNumRows = R ∧ p2.mNumCols = C ∧
        p2.mIsLargeMatrix = p.mIsLargeMatrix ∧
        ∀ a b, 0 ≤ a ∧ a < R → 0 ≤ b ∧ b < C →
          p2.get a b = if a = i ∧ b = j then (p.get a b).map (f a b) else p.get a b)
    (p : SmallMatrix Val) (hB : p.Backed) (hR : p.mNumRows = R) (hC : p.mNumCols = C)
    (s : Nat) (hs : (s : Int) ≤ R) :
    ∃ p2, (upTo 0 (s : Int)).foldlM
        (fun n i => (upTo 0 C).foldlM (fun n j => body n i j) n) p = .ok p2 ∧
      p2.Backed ∧ p2.mNumRows = R ∧ p2.mNumCols = C ∧
      p2.mIsLargeMatrix = p.mIsLargeMatrix ∧
      ∀ a b, 0 ≤ a ∧ a < R → 0 ≤ b ∧ b < C →
        p2.get a b = if a < (s : Int) then (p.get a b).map (f a b) else p.get a b := by
  induction s with
  | zero =>
    refine ⟨p, ?_, hB, hR, hC, rfl, ?_⟩
    · rw [upTo_nil 0 ((0 : Nat) : Int) (le_of_eq rfl)]
      rfl
    · intro a b ha hb
      have : ¬ (a < ((0 : Nat) : Int)) := by omega
      rw [if_neg this]
  | succ s ih =>
    obtain ⟨p1, hp1, hB1, hR1, hC1, hF1, hcells1⟩ := ih (by omega)
    have hcast : ((s + 1 : Nat) : Int) = (s : Int) + 1 := by push_cast; rfl
    obtain ⟨p2, hp2, hB2, hR2, hC2, hF2, hcells2⟩ :=
      cellwise_row_gen R C body f hbody s ⟨by omega, by omega⟩ p1 hB1 hR1 hC1 C.toNat
        (by omega)
    have hCc : ((C.toNat : Nat) : Int) = C := Int.toNat_of_nonneg hC0
    rw [hCc] at hp2
    refine ⟨p2, ?_, hB2, hR2, hC2, hF2.trans hF1, ?_⟩
    · rw [hcast, upTo_succ 0 s (by omega)]
      exact foldlM_snoc_ok _ _ _ _ _ _ hp1 hp2
    · intro a b ha hb
      rw [hcells2 a b ha hb, hcells1 a b ha hb, hcast, hCc]
      by_cases h1 : a = (s : Int) ∧ b < C
      · have h2 : ¬ (a < (s : Int)) := by omega
        have h3 : a < (s : Int) + 1 := by omega
        rw [if_pos h1, if_neg h2, if_pos h3]
      · rw [if_neg h1]
        by_cases h2 : a < (s : Int)
        · have h3 : a < (s : Int) + 1 := by omega
          rw [if_pos h2, if_pos h3]
        · have h3 : ¬ (a < (s : Int) + 1) := by omega
          rw [if_neg h2, if_neg h3]

/-- All cells after the two nested loops over an `R x C` matrix, `R, C >= 0`. -/
theorem cellwise_all {ε : Type} (R C : Int) (hR0 : 0 ≤ R) (hC0 : 0 ≤ C)
    (body : SmallMatrix Val → Int → Int → Except ε (SmallMatrix Val))
    (f : Int → Int → Val → Val)
    (hbody : ∀ p i j, p.Backed → p.mNumRows = R → p.mNumCols = C → 0 ≤ i ∧ i < R →
      0 ≤ j ∧ j < C →
      ∃ p2, body p i j = .ok p2 ∧ p2.Backed ∧ p2.mNumRows = R ∧ p2.mNumCols = C ∧
        p2.mIsLargeMatrix = p.mIsLargeMatrix ∧
        ∀ a b, 0 ≤ a ∧ a < R → 0 ≤ b ∧ b < C →
          p2.get a b = if a = i ∧ b = j then (p.get a b).map (f a b) else p.get a b)
    (p : SmallMatrix Val) (hB : p.Backed) (hR : p.mNumRows = R) (hC : p.mNumCols = C) :
    ∃ p2, (upTo 0 R).foldlM
        (fun n i => (upTo 0 C).foldlM (fun n j => body n i j) n) p = .ok p2 ∧
      p2.Backed ∧ p2.mNumRows = R ∧ p2.mNumCols = C ∧
      p2.mIsLargeMatrix = p.mIsLargeMatrix ∧
      ∀ a b, 0 ≤ a ∧ a < R → 0 ≤ b ∧ b < C → p2.get a b = (p.get a b).map (f a b) := by
  have hRc : ((R.toNat : Nat) : Int) = R := Int.toNat_of_nonneg hR0
  obtain ⟨p2, hp2, hB2, hR2, hC2, hF2, hcells⟩ :=
    cellwise_loop_gen R C hC0 body f hbody p hB hR hC R.toNat (by omega)
  rw [hRc] at hp2 hcells
  refine ⟨p2, hp2, hB2, hR2, hC2, hF2, ?_⟩
  intro a b ha hb
  rw [hcells a b ha hb, if_pos ha.2]

/-- Writing the value `v` into cell `(i, j)` as the body of such a loop: for any `f` with
`f i j x = v` on the value `x` the cell held. -/
theorem write_step [Zero Val] (R C : Int) (p : SmallMatrix Val) (hB : p.Backed)
    (hR : p.mNumRows = R) (hC : p.mNumCols = C) (i j : Int) (hi : 0 ≤ i ∧ i < R)
    (hj : 0 ≤ j ∧ j < C) (v : Val) (f : Int → Int → Val → Val)
    (hf : f i j (p.cell i j) = v) :
    ∃ p2, p.set i j v = .ok p2 ∧ p2.Backed ∧ p2.mNumRows = R ∧ p2.mNumCols = C ∧
      p2.mIsLargeMatrix = p.mIsLargeMatrix ∧
      ∀ a b, 0 ≤ a ∧ a < R → 0 ≤ b ∧ b < C →
        p2.get a b = if a = i ∧ b = j then (p.get a b).map (f a b) else p.get a b := by
  obtain ⟨p2, hp2, e1, e2, e3, hB2, hcells⟩ :=
    set_spec p hB i j ⟨hi.1, by omega⟩ ⟨hj.1, by omega⟩ v
  refine ⟨p2, hp2, hB2, by omega, by omega, e3, ?_⟩
  intro a b ha hb
  rw [hcells a b ⟨ha.1, by omega⟩ ⟨hb.1, by omega⟩]
  by_cases h : a = i ∧ b = j
  · rw [if_pos h, if_pos h]
    obtain ⟨rfl, rfl⟩ := h
    rw [get_cell p hB a b ⟨ha.1, by omega⟩ ⟨hb.1, by omega⟩]
    simp only [Except.map, hf]
  · rw [if_neg h, if_neg h]

/-! ### Addition and subtraction -/

theorem ctor2_rows [Zero Val] (init : Stack Val) (r c : Int) :
    (SmallMatrix.ctor2 init r c).mNumRows = r := by
  unfold SmallMatrix.ctor2
  dsimp only
  split <;> rfl

theorem ctor2_cols [Zero Val] (init : Stack Val) (r c : Int) :
    (SmallMatrix.ctor2 init r c).mNumCols = c := by
  unfold SmallMatrix.ctor2
  dsimp only
  split <;> rfl

/-- The statement `m(i, j) = lhs(i, j) op rhs(i, j)` throws nothing but `std::out_of_range`. -/
theorem combine_step_error (op : Val → Val → Val) (lhs rhs n : SmallMatrix Val) (i j : Int)
    (e : Err)
    (he : (do
      let a ← lhs.get i j
      let b ← rhs.get i j
      n.set i j (op a b)) = Except.error e) : e = .outOfRange := by
  cases h1 : lhs.get i j with
  | error e1 =>
    rw [h1] at he
    cases he
    exact get_error _ _ _ _ h1
  | ok a =>
    cases h2 : rhs.get i j with
    | error e2 =>
      rw [h1, h2] at he
      cases he
      exact get_error _ _ _ _ h2
    | ok b =>
      rw [h1, h2] at he
      exact set_error _ _ _ _ _ he

/-- The statement `m(i, j) = lhs(i, j) op rhs(i, j)` on operands of the shape of `m` whose
cells are backed: cell `(i, j)` of `m` becomes `lhs(i, j) op rhs(i, j)`, nothing else
changes. -/
theorem combine_step [Zero Val] (op : Val → Val → Val) (lhs rhs : SmallMatrix Val)
    (hBl : lhs.Backed) (hBr : rhs.Backed) (hR : lhs.mNumRows = rhs.mNumRows)
    (hC : lhs.mNumCols = rhs.mNumCols) (p : SmallMatrix Val) (hB : p.Backed)
    (hRp : p.mNumRows = lhs.mNumRows) (hCp : p.mNumCols = lhs.mNumCols) (i j : Int)
    (hi : 0 ≤ i ∧ i < lhs.mNumRows) (hj : 0 ≤ j ∧ j < lhs.mNumCols) :
    ∃ p2, (do
        let a ← lhs.get i j
        let b ← rhs.get i j
        p.set i j (op a b)) = Except.ok p2 ∧
      p2.Backed ∧ p2.mNumRows = lhs.mNumRows ∧ p2.mNumCols = lhs.mNumCols ∧
      p2.mIsLargeMatrix = p.mIsLargeMatrix ∧
      ∀ a b, 0 ≤ a ∧ a < lhs.mNumRows → 0 ≤ b ∧ b < lhs.mNumCols →
        p2.get a b = if a = i ∧ b = j then
            (p.get a b).map (fun _ => op (lhs.cell a b) (rhs.cell a b))
          else p.get a b := by
  have hl := get_cell lhs hBl i j hi hj
  have hr := get_cell rhs hBr i j ⟨hi.1, by omega⟩ ⟨hj.1, by omega⟩
  obtain ⟨p2, hp2, rest⟩ :=
    write_step lhs.mNumRows lhs.mNumCols p hB hRp hCp i j hi hj
      (op (lhs.cell i j) (rhs.cell i j))
      (fun a b _ => op (lhs.cell a b) (rhs.cell a b)) rfl
  refine ⟨p2, ?_, rest⟩
  rw [hl, hr]
  exact hp2

/-- The two nested loops of `operator+` and `operator-`, for an element operation `op`: on
operands of equal shape whose cells are backed and whose element count fits an `int`, the
loops return and every cell `(i, j)` of the result is `lhs(i, j) op rhs(i, j)`. -/
theorem combine_loops [Zero Val] (op : Val → Val → Val) (init : Stack Val)
    (lhs rhs : SmallMatrix Val) (hBl : lhs.Backed) (hBr : rhs.Backed)
    (hR : lhs.mNumRows = rhs.mNumRows) (hC : lhs.mNumCols = rhs.mNumCols)
    (hb : lhs.mNumRows * lhs.mNumCols < 2147483648) :
    ∃ p, (upTo 0 lhs.mNumRows).foldlM (fun n i =>
        (upTo 0 lhs.mNumCols).foldlM (fun n j => do
          let a ← lhs.get i j
          let b ← rhs.get i j
          n.set i j (op a b)) n) (SmallMatrix.ctor2 init lhs.mNumRows lhs.mNumCols) = .ok p ∧
      p.Backed ∧ p.size = lhs.size ∧
      p.isSmall = decide (lhs.mNumRows * lhs.mNumCols < 144) ∧
      ∀ i j, 0 ≤ i ∧ i < lhs.mNumRows → 0 ≤ j ∧ j < lhs.mNumCols →
        ∃ a b, lhs.get i j = .ok a ∧ rhs.get i j = .ok b ∧ p.get i j = .ok (op a b) := by
  have hB0 := ctor2_backed init lhs.mNumRows lhs.mNumCols hBl.1 hBl.2.1 hb
  obtain ⟨p, hp, hBp, hRp, hCp, hFp, hcells⟩ :=
    cellwise_all lhs.mNumRows lhs.mNumCols hBl.1 hBl.2.1
      (fun n i j => do
        let a ← lhs.get i j
        let b ← rhs.get i j
        n.set i j (op a b))
      (fun a b _ => op (lhs.cell a b) (rhs.cell a b))
      (fun q i j hBq hRq hCq hi hj =>
        combine_step op lhs rhs hBl hBr hR hC q hBq hRq hCq i j hi hj)
      (SmallMatrix.ctor2 init lhs.mNumRows lhs.mNumCols) hB0 (ctor2_rows _ _ _)
      (ctor2_cols _ _ _)
  refine ⟨p, hp, hBp, ?_, ?_, ?_⟩
  · simp [SmallMatrix.size, hRp, hCp]
  · have h2 := ctor2_isSmall init lhs.mNumRows lhs.mNumCols hBl.1 hBl.2.1 hb
    unfold SmallMatrix.isSmall at h2 ⊢
    rw [hFp]
    exact h2
  · intro i j hi hj
    refine ⟨lhs.cell i j, rhs.cell i j, get_cell lhs hBl i j hi hj,
      get_cell rhs hBr i j ⟨hi.1, by omega⟩ ⟨hj.1, by omega⟩, ?_⟩
    rw [hcells i j hi hj, ctor2_get init _ _ i j hi hj hb]
    rfl

/-- The loops of `operator+` and `operator-` throw nothing but `std::out_of_range`. -/
theorem combine_loops_error (op : Val → Val → Val) (lhs rhs p : SmallMatrix Val)
    (R C : Int) (e : Err)
    (he : (upTo 0 R).foldlM (fun n i =>
        (upTo 0 C).foldlM (fun n j => do
          let a ← lhs.get i j
          let b ← rhs.get i j
          n.set i j (op a b)) n) p = .error e) : e = .outOfRange :=
  foldlM_error_kind _ (fun s i e he =>
    foldlM_error_kind _ (fun s j e he => combine_step_error op lhs rhs s i j e he) _ s e he)
    _ _ _ he

/-- The operators `A + B` and `A - B` fail with `InvalidArgument` exactly when the sizes of
`A` and `B` differ. For operands of equal size whose cells are backed by their buffers and
whose element count fits an `int`, both return a matrix of the size of `A` in which every
cell `(i, j)` is `A(i, j) + B(i, j)`, respectively `A(i, j) - B(i, j)`, and whose
representation is inline exactly when `rows * cols < 144`. The operands are passed by
reference to const and are values of the model: they do not change. -/
theorem add_sub_spec [Zero Val] [Add Val] [Sub Val] (init : Stack Val)
    (A B : SmallMatrix Val) :
    (SmallMatrix.add init A B = .error .invalidArgument ↔ A.size ≠ B.size) ∧
    (SmallMatrix.sub init A B = .error .invalidArgument ↔ A.size ≠ B.size) ∧
    (A.size = B.size → A.Backed → B.Backed → A.mNumRows * A.mNumCols < 2147483648 →
      (∃ S, SmallMatrix.add init A B = .ok S ∧ S.size = A.size ∧
        S.isSmall = decide (A.mNumRows * A.mNumCols < 144) ∧
        ∀ i j, 0 ≤ i ∧ i < A.mNumRows → 0 ≤ j ∧ j < A.mNumCols →
          ∃ a b, A.get i j = .ok a ∧ B.get i j = .ok b ∧ S.get i j = .ok (a + b)) ∧
      (∃ D, SmallMatrix.sub init A B = .ok D ∧ D.size = A.size ∧
        D.isSmall = decide (A.mNumRows * A.mNumCols < 144) ∧
        ∀ i j, 0 ≤ i ∧ i < A.mNumRows → 0 ≤ j ∧ j < A.mNumCols →
          ∃ a b, A.get i j = .ok a ∧ B.get i j = .ok b ∧ D.get i j = .ok (a - b))) := by
  have hsize : A.size ≠ B.size ↔ (A.mNumRows ≠ B.mNumRows ∨ A.mNumCols ≠ B.mNumCols) := by
    unfold SmallMatrix.size
    rw [Ne, Prod.mk.injEq]
    tauto
  refine ⟨?_, ?_, ?_⟩
  · rw [hsize]
    constructor
    · intro h
      by_contra hdim
      unfold SmallMatrix.add at h
      rw [if_neg hdim] at h
      have := combine_loops_error (fun x y => x + y) A B _ _ _ _ h
      cases this
    · intro hdim
      unfold SmallMatrix.add
      rw [if_pos hdim]
  · rw [hsize]
    constructor
    · intro h
      by_contra hdim
      unfold SmallMatrix.sub at h
      rw [if_neg hdim] at h
      have := combine_loops_error (fun x y => x - y) A B _ _ _ _ h
      cases this
    · intro hdim
      unfold SmallMatrix.sub
      rw [if_pos hdim]
  · intro hs hBA hBB hb
    have hdim : ¬ (A.mNumRows ≠ B.mNumRows ∨ A.mNumCols ≠ B.mNumCols) := by
      rw [← hsize]
      exact fun h => h hs
    have hR : A.mNumRows = B.mNumRows := by
      by_contra h
      exact hdim (Or.inl h)
    have hC : A.mNumCols = B.mNumCols := by
      by_contra h
      exact hdim (Or.inr h)
    constructor
    · obtain ⟨p, hp, _, hsz, hsm, hcells⟩ :=
        combine_loops (fun x y => x + y) init A B hBA hBB hR hC hb
      refine ⟨p, ?_, hsz, hsm, hcells⟩
      unfold SmallMatrix.add
      rw [if_neg hdim]
      exact hp
    · obtain ⟨p, hp, _, hsz, hsm, hcells⟩ :=
        combine_loops (fun x y => x - y) init A B hBA hBB hR hC hb
      refine ⟨p, ?_, hsz, hsm, hcells⟩
      unfold SmallMatrix.sub
      rw [if_neg hdim]
      exact hp

/-- An instance: the sum and the difference of two `2 x 2` matrices. -/
theorem add_sub_spec_witness :
    (SmallMatrix.ctor3 (fun _ _ => (0 : Int)) 2 2 1).size =
      (SmallMatrix.ctor3 (fun _ _ => (0 : Int)) 2 2 2).size ∧
    (SmallMatrix.ctor3 (fun _ _ => (0 : Int)) 2 2 1).Backed ∧
    (SmallMatrix.ctor3 (fun _ _ => (0 : Int)) 2 2 2).Backed ∧
    (∃ S, SmallMatrix.add (fun _ _ => 7) (SmallMatrix.ctor3 (fun _ _ => (0 : Int)) 2 2 1)
        (SmallMatrix.ctor3 (fun _ _ => (0 : Int)) 2 2 2) = .ok S ∧
      S.size = (SmallMatrix.ctor3 (fun _ _ => (0 : Int)) 2 2 1).size) ∧
    (∃ D, SmallMatrix.sub (fun _ _ => 7) (SmallMatrix.ctor3 (fun _ _ => (0 : Int)) 2 2 1)
        (SmallMatrix.ctor3 (fun _ _ => (0 : Int)) 2 2 2) = .ok D ∧
      D.size = (SmallMatrix.ctor3 (fun _ _ => (0 : Int)) 2 2 1).size) := by
  have hA : (SmallMatrix.ctor3 (fun _ _ => (0 : Int)) 2 2 1).Backed := by
    unfold SmallMatrix.Backed
    decide
  have hB : (SmallMatrix.ctor3 (fun _ _ => (0 : Int)) 2 2 2).Backed := by
    unfold SmallMatrix.Backed
    decide
  obtain ⟨⟨S, hS, hsz, _⟩, ⟨D, hD, hdz, _⟩⟩ :=
    (add_sub_spec (fun _ _ => (7 : Int)) (SmallMatrix.ctor3 (fun _ _ => (0 : Int)) 2 2 1)
      (SmallMatrix.ctor3 (fun _ _ => (0 : Int)) 2 2 2)).2.2 rfl hA hB (by decide)
  exact ⟨rfl, hA, hB, ⟨S, hS, hsz⟩, ⟨D, hD, hdz⟩⟩

/-! ### Copy construction and copy assignment -/

/-- The statement `(*this)(i, j) = sm(i, j)` of the copy operations, on a source whose cells
are backed and a destination of the same shape. -/
theorem copy_step [Zero Val] (sm : SmallMatrix Val) (hBs : sm.Backed) (p : SmallMatrix Val)
    (hB : p.Backed) (hRp : p.mNumRows = sm.mNumRows) (hCp : p.mNumCols = sm.mNumCols)
    (i j : Int) (hi : 0 ≤ i ∧ i < sm.mNumRows) (hj : 0 ≤ j ∧ j < sm.mNumCols) :
    ∃ p2, (do
        let v ← sm.get i j
        p.set i j v) = Except.ok p2 ∧
      p2.Backed ∧ p2.mNumRows = sm.mNumRows ∧ p2.mNumCols = sm.mNumCols ∧
      p2.mIsLargeMatrix = p.mIsLargeMatrix ∧
      ∀ a b, 0 ≤ a ∧ a < sm.mNumRows → 0 ≤ b ∧ b < sm.mNumCols →
        p2.get a b = if a = i ∧ b = j then (p.get a b).map (fun _ => sm.cell a b)
          else p.get a b := by
  have hs := get_cell sm hBs i j hi hj
  obtain ⟨p2, hp2, rest⟩ :=
    write_step sm.mNumRows sm.mNumCols p hB hRp hCp i j hi hj (sm.cell i j)
      (fun a b _ => sm.cell a b) rfl
  refine ⟨p2, ?_, rest⟩
  rw [hs]
  exact hp2

/-- A dynamic matrix that adopts the dynamic buffer of a source of the same shape returns the
same result as the source for every access. -/
theorem get_of_same_heap (m sm : SmallMatrix Val) (hR : m.mNumRows = sm.mNumRows)
    (hC : m.mNumCols = sm.mNumCols) (hF : m.mIsLargeMatrix = true)
    (hFs : sm.mIsLargeMatrix = true) (hH : m.mHeapData = sm.mHeapData) (i j : Int) :
    m.get i j = sm.get i j := by
  unfold SmallMatrix.get
  rw [hR, hC, hF, hFs, hH]
  simp only [if_true]

/-- A matrix whose cells are backed and that has at least `144` elements is dynamic. -/
theorem backed_large (m : SmallMatrix Val) (hB : m.Backed)
    (h : m.mNumRows * m.mNumCols ≥ 144) : m.mIsLargeMatrix = true := by
  cases hf : m.mIsLargeMatrix with
  | true => rfl
  | false =>
    have := hB.2.2.2 hf
    omega

/-- A copy of a matrix whose cells are backed, built from any initial destination `n0` that
has the shape of the source and the flag `rows * cols >= 144`, with any treatment `wrap` of the
exceptions of the element loop that keeps results. -/
theorem copy_cells [Zero Val] {ε : Type} (wrap : SmallMatrix Val → Except Err (SmallMatrix Val) →
      Except ε (SmallMatrix Val))
    (hwrap : ∀ n x, wrap n (.ok x) = .ok x)
    (sm n0 : SmallMatrix Val) (hBs : sm.Backed) (hR : n0.mNumRows = sm.mNumRows)
    (hC : n0.mNumCols = sm.mNumCols)
    (hF : n0.mIsLargeMatrix = decide (sm.mNumRows * sm.mNumCols ≥ mSmallSize)) :
    ∃ c, (if n0.mIsLargeMatrix then Except.ok { n0 with mHeapData := sm.mHeapData }
        else (upTo 0 n0.mNumRows).foldlM (fun n i =>
          (upTo 0 n0.mNumCols).foldlM (fun n j =>
            wrap n (do
              let v ← sm.get i j
              n.set i j v)) n) n0) = Except.ok c ∧
      c.Backed ∧ c.size = sm.size ∧
      c.isSmall = decide (sm.mNumRows * sm.mNumCols < 144) ∧
      ∀ i j, 0 ≤ i ∧ i < sm.mNumRows → 0 ≤ j ∧ j < sm.mNumCols →
        ∃ x, sm.get i j = .ok x ∧ c.get i j = .ok x := by
  unfold mSmallSize at hF
  by_cases hcount : sm.mNumRows * sm.mNumCols ≥ 144
  · have hFt : n0.mIsLargeMatrix = true := by
      rw [hF]
      exact decide_eq_true hcount
    have hFs := backed_large sm hBs hcount
    rw [if_pos hFt]
    refine ⟨_, rfl, ?_, ?_, ?_, ?_⟩
    · refine ⟨?_, ?_, ?_, ?_⟩
      · show 0 ≤ n0.mNumRows
        rw [hR]
        exact hBs.1
      · show 0 ≤ n0.mNumCols
        rw [hC]
        exact hBs.2.1
      · intro _
        show n0.mNumRows.toNat ≤ sm.mHeapData.length ∧
          ∀ row ∈ sm.mHeapData.take n0.mNumRows.toNat, row.length = n0.mNumCols.toNat
        rw [hR, hC]
        exact hBs.2.2.1 hFs
      · intro hf
        have : n0.mIsLargeMatrix = false := hf
        rw [hFt] at this
        cases this
    · show (n0.mNumRows, n0.mNumCols) = (sm.mNumRows, sm.mNumCols)
      rw [hR, hC]
    · show (!n0.mIsLargeMatrix) = decide (sm.mNumRows * sm.mNumCols < 144)
      rw [hFt]
      have : ¬ (sm.mNumRows * sm.mNumCols < 144) := by omega
      simp [this]
    · intro i j hi hj
      refine ⟨sm.cell i j, get_cell sm hBs i j hi hj, ?_⟩
      rw [← get_cell sm hBs i j hi hj]
      exact get_of_same_heap { n0 with mHeapData := sm.mHeapData } sm hR hC hFt hFs rfl i j
  · have hlt : sm.mNumRows * sm.mNumCols < 144 := by omega
    have hFf : n0.mIsLargeMatrix = false := by
      rw [hF]
      exact decide_eq_false hcount
    have hB0 : n0.Backed := by
      refine ⟨?_, ?_, ?_, ?_⟩
      · rw [hR]
        exact hBs.1
      · rw [hC]
        exact hBs.2.1
      · intro hf
        rw [hFf] at hf
        cases hf
      · intro _
        rw [hR, hC]
        exact hlt
    obtain ⟨p, hp, hBp, hRp, hCp, hFp, hcells⟩ :=
      cellwise_all sm.mNumRows sm.mNumCols hBs.1 hBs.2.1
        (fun n i j => wrap n (do
          let v ← sm.get i j
          n.set i j v))
        (fun a b _ => sm.cell a b)
        (fun q i j hBq hRq hCq hi hj => by
          obtain ⟨p2, hp2, rest⟩ := copy_step sm hBs q hBq hRq hCq i j hi hj
          refine ⟨p2, ?_, rest⟩
          beta_reduce
          rw [hp2]
          exact hwrap q p2)
        n0 hB0 hR hC
    rw [hFf, hR, hC]
    refine ⟨p, hp, hBp, ?_, ?_, ?_⟩
    · simp [SmallMatrix.size, hRp, hCp]
    · unfold SmallMatrix.isSmall
      rw [hFp, hFf]
      simp [hlt]
    · intro i j hi hj
      refine ⟨sm.cell i j, get_cell sm hBs i j hi hj, ?_⟩
      rw [hcells i j hi hj,
        get_cell n0 hB0 i j ⟨hi.1, by omega⟩ ⟨hj.1, by omega⟩]
      rfl

/-- For every matrix `M` whose cells are backed by its active buffer, whichever
representation that is, the copy constructor and the copy assignment into any other object
`R` return, and the copy `C` has the size of `M`, `C(i, j) = M(i, j)` for every in-range
`(i, j)`, and `C.isSmall()` holds exactly when `rows * cols < 144`. The source is passed by
reference to const and is a value of the model: it does not change. -/
theorem copy_spec [Zero Val] (init : Stack Val) (R M : SmallMatrix Val) (hB : M.Backed) :
    (∃ C, SmallMatrix.copyCtor init M = .ok C ∧ C.size = M.size ∧
      C.isSmall = decide (M.mNumRows * M.mNumCols < 144) ∧
      ∀ i j, 0 ≤ i ∧ i < M.mNumRows → 0 ≤ j ∧ j < M.mNumCols →
        ∃ x, M.get i j = .ok x ∧ C.get i j = .ok x) ∧
    (∃ C, R.copyAssign M = .ok C ∧ C.size = M.size ∧
      C.isSmall = decide (M.mNumRows * M.mNumCols < 144) ∧
      ∀ i j, 0 ≤ i ∧ i < M.mNumRows → 0 ≤ j ∧ j < M.mNumCols →
        ∃ x, M.get i j = .ok x ∧ C.get i j = .ok x) := by
  constructor
  · obtain ⟨c, hc, _, hsz, hsm, hcells⟩ :=
      copy_cells (fun _ x => x) (fun _ _ => rfl) M
        { mNumRows := M.mNumRows, mNumCols := M.mNumCols,
          mIsLargeMatrix := decide (M.mNumRows * M.mNumCols ≥ mSmallSize),
          mStackData := init, mHeapData := [] } hB rfl rfl rfl
    exact ⟨c, hc, hsz, hsm, hcells⟩
  · obtain ⟨c, hc, _, hsz, hsm, hcells⟩ :=
      copy_cells (fun n x => withState n x) (fun _ _ => rfl) M
        { R with mNumRows := M.mNumRows, mNumCols := M.mNumCols,
                 mIsLargeMatrix := decide (getNumberOfElements M ≥ mSmallSize) } hB rfl rfl rfl
    exact ⟨c, hc, hsz, hsm, hcells⟩

/-- An instance: copies of a dynamic `11 x 12` matrix of `132` elements (a `12 x 12` matrix
after `eraseRow(0)`); the copies are inline. -/
theorem copy_spec_witness :
    ∃ M, (SmallMatrix.ctor3 (fun _ _ => (0 : Int)) 12 12 1).eraseRow 0 = .ok M ∧
      M.Backed ∧ M.isSmall = false ∧
      (∃ C, SmallMatrix.copyCtor (fun _ _ => 7) M = .ok C ∧ C.size = M.size ∧
        C.isSmall = decide (M.mNumRows * M.mNumCols < 144)) ∧
      (∃ C, (SmallMatrix.ctor3 (fun _ _ => (0 : Int)) 2 2 3).copyAssign M = .ok C ∧
        C.size = M.size ∧ C.isSmall = decide (M.mNumRows * M.mNumCols < 144)) := by
  have hB0 : (SmallMatrix.ctor3 (fun _ _ => (0 : Int)) 12 12 1).Backed :=
    ctor3_backed _ 12 12 (by decide) (by decide) 1 (by decide)
  have hM : ∃ M, (SmallMatrix.ctor3 (fun _ _ => (0 : Int)) 12 12 1).eraseRow 0 = .ok M ∧
      M.isSmall = false := ⟨_, rfl, rfl⟩
  obtain ⟨M, hM, hsmall⟩ := hM
  have hB := eraseRow_backed _ M hB0 0 hM
  obtain ⟨⟨C1, h1, s1, f1, _⟩, ⟨C2, h2, s2, f2, _⟩⟩ :=
    copy_spec (fun _ _ => (7 : Int)) (SmallMatrix.ctor3 (fun _ _ => (0 : Int)) 2 2 3) M hB
  exact ⟨M, hM, hB, hsmall, ⟨C1, h1, s1, f1⟩, ⟨C2, h2, s2, f2⟩⟩

/-! ### Comparison -/

/-- The inner loop of `operator==` on a row whose cells can be read on both sides: it returns,
and it returns `true` exactly when no pair of the row is far apart. -/
theorem eqRow_spec [Zero Val] (far : Val → Val → Bool) (lhs rhs : SmallMatrix Val) (i : Int)
    (js : List Int) (hl : ∀ j ∈ js, lhs.get i j = .ok (lhs.cell i j))
    (hr : ∀ j ∈ js, rhs.get i j = .ok (rhs.cell i j)) :
    ∃ r, eqRow far lhs rhs i js = .ok r ∧
      (r = true ↔ ∀ j ∈ js, far (lhs.cell i j) (rhs.cell i j) = false) := by
  induction js with
  | nil => exact ⟨true, rfl, by simp⟩
  | cons j js ih =>
    obtain ⟨r, hr1, hr2⟩ := ih (fun x hx => hl x (List.mem_cons_of_mem _ hx))
      (fun x hx => hr x (List.mem_cons_of_mem _ hx))
    unfold eqRow
    rw [hl j (List.mem_cons_self _ _), hr j (List.mem_cons_self _ _)]
    cases hfar : far (lhs.cell i j) (rhs.cell i j) with
    | true =>
      refine ⟨false, ?_, ?_⟩
      · show (if far (lhs.cell i j) (rhs.cell i j) = true then pure false
          else eqRow far lhs rhs i js) = Except.ok false
        rw [hfar]
        rfl
      · constructor
        · intro h
          cases h
        · intro h
          have := h j (List.mem_cons_self _ _)
          rw [hfar] at this
          cases this
    | false =>
      refine ⟨r, ?_, ?_⟩
      · show (if far (lhs.cell i j) (rhs.cell i j) = true then pure false
          else eqRow far lhs rhs i js) = Except.ok r
        rw [hfar]
        exact hr1
      · rw [hr2]
        constructor
        · intro h x hx
          rcases List.mem_cons.mp hx with rfl | hx2
          · exact hfar
          · exact h x hx2
        · intro h x hx
          exact h x (List.mem_cons_of_mem _ hx)

/-- The outer loop of `operator==` over rows whose cells can be read on both sides. -/
theorem eqRows_spec [Zero Val] (far : Val → Val → Bool) (lhs rhs : SmallMatrix Val)
    (cols rows : List Int)
    (hl : ∀ i ∈ rows, ∀ j ∈ cols, lhs.get i j = .ok (lhs.cell i j))
    (hr : ∀ i ∈ rows, ∀ j ∈ cols, rhs.get i j = .ok (rhs.cell i j)) :
    ∃ r, eqRows far lhs rhs cols rows = .ok r ∧
      (r = true ↔ ∀ i ∈ rows, ∀ j ∈ cols, far (lhs.cell i j) (rhs.cell i j) = false) := by
  induction rows with
  | nil => exact ⟨true, rfl, by simp⟩
  | cons i rows ih =>
    obtain ⟨r, hr1, hr2⟩ := ih (fun x hx => hl x (List.mem_cons_of_mem _ hx))
      (fun x hx => hr x (List.mem_cons_of_mem _ hx))
    obtain ⟨q, hq1, hq2⟩ := eqRow_spec far lhs rhs i cols (hl i (List.mem_cons_self _ _))
      (hr i (List.mem_cons_self _ _))
    unfold eqRows
    rw [hq1]
    cases hq : q with
    | false =>
      refine ⟨false, rfl, ?_⟩
      constructor
      · intro h
        cases h
      · intro h
        have := hq2.mpr (h i (List.mem_cons_self _ _))
        rw [hq] at this
        cases this
    | true =>
      refine ⟨r, hr1, ?_⟩
      rw [hr2]
      constructor
      · intro h x hx
        rcases List.mem_cons.mp hx with rfl | hx2
        · exact hq2.mp hq
        · exact h x hx2
      · intro h x hx
        exact h x (List.mem_cons_of_mem _ hx)

/-- The functions `operator==` and `operator!=` for any element test `far`, on operands whose
cells are backed by their buffers: `==` returns `true` exactly when the sizes are equal and no
pair of corresponding elements is far apart, and `!=` returns the negation. -/
theorem eq_spec [Zero Val] (far : Val → Val → Bool) (A B : SmallMatrix Val) (hA : A.Backed)
    (hB : B.Backed) :
    ∃ r, SmallMatrix.eq far A B = .ok r ∧ SmallMatrix.ne far A B = .ok (!r) ∧
      (r = true ↔ A.size = B.size ∧
        ∀ i j, 0 ≤ i ∧ i < A.mNumRows → 0 ≤ j ∧ j < A.mNumCols →
          far (A.cell i j) (B.cell i j) = false) := by
  by_cases hs : A.size = B.size
  · have hdims : A.mNumRows = B.mNumRows ∧ A.mNumCols = B.mNumCols := by
      unfold SmallMatrix.size at hs
      exact Prod.mk.inj hs
    obtain ⟨r, hr1, hr2⟩ := eqRows_spec far A B (upTo 0 A.mNumCols) (upTo 0 A.mNumRows)
      (fun i hi j hj => get_cell A hA i j ((mem_upTo 0 _ i).mp hi) ((mem_upTo 0 _ j).mp hj))
      (fun i hi j hj => by
        have h1 := (mem_upTo 0 _ i).mp hi
        have h2 := (mem_upTo 0 _ j).mp hj
        exact get_cell B hB i j ⟨h1.1, by omega⟩ ⟨h2.1, by omega⟩)
    have heq : SmallMatrix.eq far A B = .ok r := by
      unfold SmallMatrix.eq
      rw [if_neg (fun h => h hs)]
      exact hr1
    refine ⟨r, heq, ?_, ?_⟩
    · unfold SmallMatrix.ne
      rw [heq]
      rfl
    · rw [hr2]
      constructor
      · intro h
        exact ⟨hs, fun i j hi hj => h i ((mem_upTo 0 _ i).mpr hi) j ((mem_upTo 0 _ j).mpr hj)⟩
      · intro h i hi j hj
        exact h.2 i j ((mem_upTo 0 _ i).mp hi) ((mem_upTo 0 _ j).mp hj)
  · have heq : SmallMatrix.eq far A B = .ok false := by
      unfold SmallMatrix.eq
      rw [if_pos hs]
    refine ⟨false, heq, ?_, ?_⟩
    · unfold SmallMatrix.ne
      rw [heq]
      rfl
    · constructor
      · intro h
        cases h
      · intro h
        exact absurd h.1 hs

/-- Two matrices of the same size whose corresponding cells hold the same values compare
equal, for any element test `far` that never separates a value from itself (the test
`std::abs(a - b) > epsilon` is such a test). -/
theorem eq_of_same_cells [Zero Val] (far : Val → Val → Bool) (hfar : ∀ x, far x x = false)
    (A B : SmallMatrix Val) (hA : A.Backed) (hB : B.Backed) (hs : A.size = B.size)
    (hcells : ∀ i j, 0 ≤ i ∧ i < A.mNumRows → 0 ≤ j ∧ j < A.mNumCols →
      ∃ x, A.get i j = .ok x ∧ B.get i j = .ok x) :
    SmallMatrix.eq far A B = .ok true := by
  obtain ⟨r, h1, _, h3⟩ := eq_spec far A B hA hB
  have hr : r = true := by
    refine h3.mpr ⟨hs, fun i j hi hj => ?_⟩
    obtain ⟨x, hx1, hx2⟩ := hcells i j hi hj
    unfold SmallMatrix.cell
    rw [hx1, hx2]
    exact hfar x
  rw [hr] at h1
  exact h1

/-- For operands whose cells are backed, `operator==` returns the same in both orders when
the element test does not depend on the order of its arguments. -/
theorem eq_comm_of_far_comm [Zero Val] (far : Val → Val → Bool)
    (hcomm : ∀ a b, far a b = far b a) (A B : SmallMatrix Val) (hA : A.Backed)
    (hB : B.Backed) : SmallMatrix.eq far B A = SmallMatrix.eq far A B := by
  obtain ⟨r, h1, _, h3⟩ := eq_spec far A B hA hB
  obtain ⟨q, g1, _, g3⟩ := eq_spec far B A hB hA
  have hqr : q = r := by
    rw [Bool.eq_iff_iff, h3, g3]
    constructor
    · rintro ⟨hs, h⟩
      have hd : B.mNumRows = A.mNumRows ∧ B.mNumCols = A.mNumCols := by
        unfold SmallMatrix.size at hs
        exact Prod.mk.inj hs
      refine ⟨hs.symm, fun i j hi hj => ?_⟩
      rw [hcomm]
      exact h i j ⟨hi.1, by omega⟩ ⟨hj.1, by omega⟩
    · rintro ⟨hs, h⟩
      have hd : A.mNumRows = B.mNumRows ∧ A.mNumCols = B.mNumCols := by
        unfold SmallMatrix.size at hs
        exact Prod.mk.inj hs
      refine ⟨hs.symm, fun i j hi hj => ?_⟩
      rw [hcomm]
      exact h i j ⟨hi.1, by omega⟩ ⟨hj.1, by omega⟩
  rw [g1, h1, hqr]

/-! ### insertRow followed by eraseRow -/

/-- For every matrix `M` of shape `(r, c)` whose cells are backed by its active buffer
(with `c <= 144` when it is inline), every `0 <= k <= r` and every `v` of length `c`:
`insertRow(k, v)` followed by `eraseRow(k)` returns a matrix of the original size with the
original value in every cell, which compares equal to the original under `operator==` in both
orders, for any element test that never separates a value from itself. This includes the
insertion that crosses the threshold, after which the matrix stays dynamic. -/
theorem insertRow_eraseRow_roundtrip [Zero Val] (far : Val → Val → Bool)
    (hfar : ∀ x, far x x = false) (m : SmallMatrix Val) (hB : m.Backed)
    (hfit : m.mIsLargeMatrix = false → m.mNumCols ≤ 144) (k : Int) (v : List Val)
    (hk : 0 ≤ k ∧ k ≤ m.mNumRows) (hv : (v.length : Int) = m.mNumCols) :
    ∃ m2 m3, m.insertRow k v = .ok m2 ∧ m2.eraseRow k = .ok m3 ∧ m3.size = m.size ∧
      (∀ i j, 0 ≤ i ∧ i < m.mNumRows → 0 ≤ j ∧ j < m.mNumCols →
        ∃ x, m.get i j = .ok x ∧ m3.get i j = .ok x) ∧
      SmallMatrix.eq far m3 m = .ok true ∧ SmallMatrix.eq far m m3 = .ok true ∧
      m3.isSmall = (m.isSmall && decide ((m.mNumRows + 1) * m.mNumCols < 144)) := by
  obtain ⟨m2, hm2, hsz2, _, hlow2, hhigh2, hsm2⟩ := insertRow_cells m hB hfit k v hk hv
  have hB2 := insertRow_backed m m2 hB k v hm2
  have hd2 : m2.mNumRows = m.mNumRows + 1 ∧ m2.mNumCols = m.mNumCols := by
    unfold SmallMatrix.size at hsz2
    exact Prod.mk.inj hsz2
  obtain ⟨m3, hm3, hsz3, hsm3, hlow3, hhigh3⟩ :=
    (eraseRow_cells m2 hB2 k).2 (by omega)
  have hB3 := eraseRow_backed m2 m3 hB2 k hm3
  have hsize : m3.size = m.size := by
    rw [hsz3, hd2.1, hd2.2]
    unfold SmallMatrix.size
    rw [add_sub_cancel_right]
  have hd3 : m3.mNumRows = m.mNumRows ∧ m3.mNumCols = m.mNumCols := by
    unfold SmallMatrix.size at hsize
    exact Prod.mk.inj hsize
  have hcells : ∀ i j, 0 ≤ i ∧ i < m.mNumRows → 0 ≤ j ∧ j < m.mNumCols →
      ∃ x, m.get i j = .ok x ∧ m3.get i j = .ok x := by
    intro i j hi hj
    by_cases hik : i < k
    · obtain ⟨x, hx1, hx2⟩ := hlow2 i j hi.1 hik hj.1 hj.2
      obtain ⟨y, hy1, hy2⟩ := hlow3 i j hi.1 hik hj.1 (by omega)
      rw [hx2] at hy1
      rw [← Except.ok.inj hy1] at hy2
      exact ⟨x, hx1, hy2⟩
    · obtain ⟨x, hx1, hx2⟩ := hhigh2 (i + 1) j (by omega) (by omega) hj.1 hj.2
      obtain ⟨y, hy1, hy2⟩ := hhigh3 i j (by omega) (by omega) hj.1 (by omega)
      rw [hx2] at hy1
      rw [← Except.ok.inj hy1] at hy2
      rw [add_sub_cancel_right] at hx1
      exact ⟨x, hx1, hy2⟩
  refine ⟨m2, m3, hm2, hm3, hsize, hcells, ?_, ?_, ?_⟩
  · refine eq_of_same_cells far hfar m3 m hB3 hB hsize (fun i j hi hj => ?_)
    obtain ⟨x, hx1, hx2⟩ := hcells i j ⟨hi.1, by omega⟩ ⟨hj.1, by omega⟩
    exact ⟨x, hx2, hx1⟩
  · exact eq_of_same_cells far hfar m m3 hB hB3 hsize.symm hcells
  · rw [hsm3, hsm2]

/-- An instance: an inline `11 x 12` matrix receives a twelfth row at the front, which
crosses the threshold, and loses it again; elements are compared for exact equality. -/
theorem insertRow_eraseRow_roundtrip_witness :
    (∀ x : Int, (fun (a b : Int) => decide (a ≠ b)) x x = false) ∧
    (SmallMatrix.ctor3 (fun _ _ => (0 : Int)) 11 12 5).Backed ∧
    ((SmallMatrix.ctor3 (fun _ _ => (0 : Int)) 11 12 5).mIsLargeMatrix = false →
      (SmallMatrix.ctor3 (fun _ _ => (0 : Int)) 11 12 5).mNumCols ≤ 144) ∧
    ∃ m2 m3, (SmallMatrix.ctor3 (fun _ _ => (0 : Int)) 11 12 5).insertRow 0
        [1, 2, 3, 4, 5, 6, 7, 8, 9, 10, 11, 12] = .ok m2 ∧
      m2.eraseRow 0 = .ok m3 ∧
      m3.size = (SmallMatrix.ctor3 (fun _ _ => (0 : Int)) 11 12 5).size ∧
      SmallMatrix.eq (fun (a b : Int) => decide (a ≠ b)) m3
        (SmallMatrix.ctor3 (fun _ _ => (0 : Int)) 11 12 5) = .ok true ∧
      m3.isSmall = false := by
  have hfar : ∀ x : Int, (fun (a b : Int) => decide (a ≠ b)) x x = false := fun x => by simp
  have hB : (SmallMatrix.ctor3 (fun _ _ => (0 : Int)) 11 12 5).Backed := by
    unfold SmallMatrix.Backed
    decide
  have hfit : (SmallMatrix.ctor3 (fun _ _ => (0 : Int)) 11 12 5).mIsLargeMatrix = false →
      (SmallMatrix.ctor3 (fun _ _ => (0 : Int)) 11 12 5).mNumCols ≤ 144 := fun _ => by decide
  obtain ⟨m2, m3, h2, h3, hsz, _, heq, _, hsm⟩ :=
    insertRow_eraseRow_roundtrip (fun (a b : Int) => decide (a ≠ b)) hfar _ hB hfit 0
      [1, 2, 3, 4, 5, 6, 7, 8, 9, 10, 11, 12] (by decide) (by decide)
  exact ⟨hfar, hB, hfit, m2, m3, h2, h3, hsz, heq, hsm⟩

/-! ### The receiver after a failure -/

theorem insertCol_outOfRange [Zero Val] (init1 init2 : Stack Val) (m : SmallMatrix Val)
    (k : Int) (v : List Val) (h : k < 0 ∨ k > m.mNumCols) :
    m.insertCol init1 init2 k v = .error (.outOfRange, m) := by
  unfold SmallMatrix.insertCol
  simp [h]

theorem insertCol_invalidArgument [Zero Val] (init1 init2 : Stack Val) (m : SmallMatrix Val)
    (k : Int) (v : List Val) (h : ¬ (k < 0 ∨ k > m.mNumCols))
    (hv : (v.length : Int) ≠ m.mNumRows) :
    m.insertCol init1 init2 k v = .error (.invalidArgument, m) := by
  unfold SmallMatrix.insertCol
  simp [h, hv]

theorem eraseCol_outOfRange [Zero Val] (init1 init2 : Stack Val) (m : SmallMatrix Val)
    (k : Int) (h : k < 0 ∨ k ≥ m.mNumCols) :
    m.eraseCol init1 init2 k = .error (.outOfRange, m) := by
  unfold SmallMatrix.eraseCol
  simp [h]

/-- The member function `eraseCol` assigns to the receiver only after the last call that can
throw: whatever exception leaves it, the receiver is as it was. -/
theorem eraseCol_failure_state [Zero Val] (init1 init2 : Stack Val) (m : SmallMatrix Val)
    (k : Int) (e : Err) (st : SmallMatrix Val)
    (h : m.eraseCol init1 init2 k = .error (e, st)) : st = m := by
  unfold SmallMatrix.eraseCol at h
  dsimp only at h
  split at h
  · cases h
    rfl
  · split at h
    · cases h
      rfl
    · split at h
      · cases h
        rfl
      · split at h
        · cases h
          rfl
        · cases h

/-- Whatever exception leaves `insertCol`, the shape and both buffers of the receiver are as
they were; only the flag may have been set, by the statement `mIsLargeMatrix = true;` that
precedes the second call of `transpose`. -/
theorem insertCol_failure_state [Zero Val] (init1 init2 : Stack Val) (m : SmallMatrix Val)
    (k : Int) (v : List Val) (e : Err) (st : SmallMatrix Val)
    (h : m.insertCol init1 init2 k v = .error (e, st)) :
    st.mNumRows = m.mNumRows ∧ st.mNumCols = m.mNumCols ∧ st.mStackData = m.mStackData ∧
      st.mHeapData = m.mHeapData ∧
      (st.mIsLargeMatrix = m.mIsLargeMatrix ∨ st.mIsLargeMatrix = true) := by
  unfold SmallMatrix.insertCol at h
  dsimp only at h
  split at h
  · cases h
    exact ⟨rfl, rfl, rfl, rfl, Or.inl rfl⟩
  · split at h
    · cases h
      exact ⟨rfl, rfl, rfl, rfl, Or.inl rfl⟩
    · split at h
      · cases h
        exact ⟨rfl, rfl, rfl, rfl, Or.inl rfl⟩
      · split at h
        · cases h
          exact ⟨rfl, rfl, rfl, rfl, Or.inl rfl⟩
        · split at h
          · cases h
            split
            · exact ⟨rfl, rfl, rfl, rfl, Or.inr rfl⟩
            · exact ⟨rfl, rfl, rfl, rfl, Or.inl rfl⟩
          · cases h

/-- The statement `(*this)(i, j) = (*this)(i, j) op sm(i, j)` of `operator+=` and
`operator-=`, on a receiver and an operand of the same shape whose cells are backed. -/
theorem opAssign_step [Zero Val] (op : Val → Val → Val) (sm : SmallMatrix Val)
    (hBs : sm.Backed) (p : SmallMatrix Val) (hB : p.Backed)
    (hRp : p.mNumRows = sm.mNumRows) (hCp : p.mNumCols = sm.mNumCols) (i j : Int)
    (hi : 0 ≤ i ∧ i < sm.mNumRows) (hj : 0 ≤ j ∧ j < sm.mNumCols) :
    ∃ p2, withState p (do
        let a ← p.get i j
        let b ← sm.get i j
        p.set i j (op a b)) = Except.ok p2 ∧
      p2.Backed ∧ p2.mNumRows = sm.mNumRows ∧ p2.mNumCols = sm.mNumCols ∧
      p2.mIsLargeMatrix = p.mIsLargeMatrix ∧
      ∀ a b, 0 ≤ a ∧ a < sm.mNumRows → 0 ≤ b ∧ b < sm.mNumCols →
        p2.get a b = if a = i ∧ b = j then (p.get a b).map (fun x => op x (sm.cell a b))
          else p.get a b := by
  have hs := get_cell sm hBs i j hi hj
  have hp := get_cell p hB i j ⟨hi.1, by omega⟩ ⟨hj.1, by omega⟩
  obtain ⟨p2, hp2, rest⟩ :=
    write_step sm.mNumRows sm.mNumCols p hB hRp hCp i j hi hj
      (op (p.cell i j) (sm.cell i j)) (fun a b x => op x (sm.cell a b)) rfl
  refine ⟨p2, ?_, rest⟩
  rw [hp, hs]
  exact withState_ok _ _ _ hp2

/-- The two nested loops of `operator+=` and `operator-=`, for an element operation `op`: on a
receiver and an operand of the same shape whose cells are backed, the loops return and every
cell `(i, j)` of the receiver becomes `old(i, j) op sm(i, j)`; shape and flag stay. -/
theorem opAssign_loops [Zero Val] (op : Val → Val → Val) (m sm : SmallMatrix Val)
    (hBm : m.Backed) (hBs : sm.Backed) (hR : m.mNumRows = sm.mNumRows)
    (hC : m.mNumCols = sm.mNumCols) :
    ∃ p, (upTo 0 m.mNumRows).foldlM (fun n i =>
        (upTo 0 m.mNumCols).foldlM (fun n j =>
          withState n (do
            let a ← n.get i j
            let b ← sm.get i j
            n.set i j (op a b))) n) m = .ok p ∧
      p.Backed ∧ p.size = m.size ∧ p.mIsLargeMatrix = m.mIsLargeMatrix ∧
      ∀ i j, 0 ≤ i ∧ i < m.mNumRows → 0 ≤ j ∧ j < m.mNumCols →
        ∃ a b, m.get i j = .ok a ∧ sm.get i j = .ok b ∧ p.get i j = .ok (op a b) := by
  obtain ⟨p, hp, hBp, hRp, hCp, hFp, hcells⟩ :=
    cellwise_all sm.mNumRows sm.mNumCols hBs.1 hBs.2.1
      (fun n i j => withState n (do
        let a ← n.get i j
        let b ← sm.get i j
        n.set i j (op a b)))
      (fun a b x => op x (sm.cell a b))
      (fun q i j hBq hRq hCq hi hj => opAssign_step op sm hBs q hBq hRq hCq i j hi hj)
      m hBm hR hC
  rw [hR, hC]
  refine ⟨p, hp, hBp, ?_, hFp, ?_⟩
  · simp [SmallMatrix.size, hRp, hCp, hR, hC]
  · intro i j hi hj
    refine ⟨m.cell i j, sm.cell i j, get_cell m hBm i j ⟨hi.1, by omega⟩ ⟨hj.1, by omega⟩,
      get_cell sm hBs i j hi hj, ?_⟩
    rw [hcells i j hi hj, get_cell m hBm i j ⟨hi.1, by omega⟩ ⟨hj.1, by omega⟩]
    rfl

/-- An exception of `resize` that is not a raw iterator leaving its buffer is the validation
failure, and the receiver is as it was. -/
theorem resize_failure_state [Zero Val] (m : SmallMatrix Val) (r c : Int) (e : Err)
    (st : SmallMatrix Val) (h : m.resize r c = .error (e, st))
    (he : e ≠ .undefinedBehaviour) : st = m := by
  by_cases hneg : r < 0 ∨ c < 0
  · rw [resize_of_negative m r c hneg] at h
    cases h
    rfl
  · exfalso
    apply he
    unfold SmallMatrix.resize at h
    rw [if_neg hneg] at h
    dsimp only at h
    split at h
    · split at h
      · split at h
        · rename_i e2 hconv
          cases h
          unfold convertStdArrayToStdVector at hconv
          split at hconv
          · cases hconv
            rfl
          · cases hconv
        · cases h
      · cases h
    · split at h
      · cases h
      · split at h
        · rename_i e2 hfill
          cases h
          split at hfill
          · unfold fillRows at hfill
            split at hfill
            · cases hfill
            · cases hfill
              rfl
          · cases hfill
        · split at h
          · rename_i e2 hfill
            cases h
            split at hfill
            · unfold fillCols at hfill
              split at hfill
              · cases hfill
              · cases hfill
                rfl
            · cases hfill
          · cases h

/-- An exception of `insertRow` that is not a raw iterator leaving its buffer is a validation
failure, and the receiver is as it was. -/
theorem insertRow_failure_state [Zero Val] (m : SmallMatrix Val) (k : Int) (v : List Val)
    (e : Err) (st : SmallMatrix Val) (h : m.insertRow k v = .error (e, st))
    (he : e ≠ .undefinedBehaviour) : st = m := by
  by_cases hk : k < 0 ∨ k > m.mNumRows
  · rw [insertRow_outOfRange m k v hk] at h
    cases h
    rfl
  · by_cases hv : (v.length : Int) ≠ m.mNumCols
    · rw [insertRow_invalidArgument m k v hk hv] at h
      cases h
      rfl
    · exfalso
      rcases insertRow_body m k v (by omega) (by omega) with ⟨m2, hm2⟩ | ⟨st2, hst2⟩
      · rw [hm2] at h
        cases h
      · rw [hst2] at h
        cases h
        exact he rfl

/-- On a matrix whose cells are backed, `eraseRow` fails only by validation, and then the
receiver is as it was. -/
theorem eraseRow_failure_state (m : SmallMatrix Val) (hB : m.Backed) (k : Int) (e : Err)
    (st : SmallMatrix Val) (h : m.eraseRow k = .error (e, st)) : st = m := by
  by_cases hk : k < 0 ∨ k ≥ m.mNumRows
  · rw [eraseRow_outOfRange m k hk] at h
    cases h
    rfl
  · obtain ⟨m2, hm2, _⟩ := (eraseRow_cells m hB k).2 hk
    rw [hm2] at h
    cases h

/-- On a receiver and an operand whose cells are backed, `operator*=` with
`cols == sm.rows` and a product whose element count fits an `int` returns. -/
theorem mulAssign_ok [Zero Val] [Add Val] [Mul Val] (init : Stack Val)
    (m sm : SmallMatrix Val) (hBm : m.Backed) (hBs : sm.Backed)
    (hdim : m.mNumCols = sm.mNumRows) (hb : m.mNumRows * sm.mNumCols < 2147483648) :
    ∃ p, m.mulAssign init sm = .ok p := by
  obtain ⟨q, hq, hBq, _⟩ := mul_loops init m sm hdim hBm hBs hb
  obtain ⟨c, hc, _⟩ :=
    copy_cells (fun n x => withState n x) (fun _ _ => rfl) q
      { m with mNumRows := q.mNumRows, mNumCols := q.mNumCols,
               mIsLargeMatrix := decide (getNumberOfElements q ≥ mSmallSize) } hBq rfl rfl rfl
  refine ⟨c, ?_⟩
  unfold SmallMatrix.mulAssign
  rw [if_neg (fun h => h hdim)]
  dsimp only
  rw [hq]
  exact hc

/-- A failure of the argument validation is atomic: when `resize` is given a
negative size, `insertRow`, `insertCol`, `eraseRow` or `eraseCol` an index out of range,
`insertRow` or `insertCol` a sequence of the wrong length, `+=` or `-=` an operand of another
shape, or `*=` an operand with `sm.rows != cols`, the operation fails with the documented kind
and the receiver is exactly as it was. Beyond validation: an exception of `resize` or
`insertRow` other than a raw iterator leaving its buffer, and any exception of `eraseCol`,
leaves the receiver as it was; any exception of `insertCol` leaves its shape and both buffers
as they were; and on a receiver and an operand whose cells are backed by their buffers,
`eraseRow`, `+=`, `-=` and `*=` (with a product whose element count fits an `int`) fail only
by validation. -/
theorem validation_failure_atomic [Zero Val] [Add Val] [Sub Val] [Mul Val]
    (init1 init2 : Stack Val) (m sm : SmallMatrix Val) :
    (∀ r c, r < 0 ∨ c < 0 → m.resize r c = .error (Err.outOfRange, m)) ∧
    (∀ k v, k < 0 ∨ k > m.mNumRows → m.insertRow k v = .error (Err.outOfRange, m)) ∧
    (∀ k v, ¬ (k < 0 ∨ k > m.mNumRows) → (v.length : Int) ≠ m.mNumCols →
      m.insertRow k v = .error (Err.invalidArgument, m)) ∧
    (∀ k v, k < 0 ∨ k > m.mNumCols →
      m.insertCol init1 init2 k v = .error (Err.outOfRange, m)) ∧
    (∀ k v, ¬ (k < 0 ∨ k > m.mNumCols) → (v.length : Int) ≠ m.mNumRows →
      m.insertCol init1 init2 k v = .error (Err.invalidArgument, m)) ∧
    (∀ k, k < 0 ∨ k ≥ m.mNumRows → m.eraseRow k = .error (Err.outOfRange, m)) ∧
    (∀ k, k < 0 ∨ k ≥ m.mNumCols → m.eraseCol init1 init2 k = .error (Err.outOfRange, m)) ∧
    (m.mNumRows ≠ sm.mNumRows ∨ m.mNumCols ≠ sm.mNumCols →
      m.addAssign sm = .error (Err.invalidArgument, m) ∧
      m.subAssign sm = .error (Err.invalidArgument, m)) ∧
    (m.mNumCols ≠ sm.mNumRows → m.mulAssign init1 sm = .error (Err.invalidArgument, m)) ∧
    (∀ e st, e ≠ Err.undefinedBehaviour →
      (∀ r c, m.resize r c = .error (e, st) → st = m) ∧
      (∀ k v, m.insertRow k v = .error (e, st) → st = m) ∧
      (∀ k, m.eraseCol init1 init2 k = .error (e, st) → st = m) ∧
      (∀ k v, m.insertCol init1 init2 k v = .error (e, st) →
        st.mNumRows = m.mNumRows ∧ st.mNumCols = m.mNumCols ∧
        st.mStackData = m.mStackData ∧ st.mHeapData = m.mHeapData) ∧
      (m.Backed → ∀ k, m.eraseRow k = .error (e, st) → st = m) ∧
      (m.Backed → sm.Backed →
        (m.addAssign sm = .error (e, st) → st = m) ∧
        (m.subAssign sm = .error (e, st) → st = m) ∧
        (m.mNumRows * sm.mNumCols < 2147483648 →
          m.mulAssign init1 sm = .error (e, st) → st = m))) := by
  have hadd : m.mNumRows ≠ sm.mNumRows ∨ m.mNumCols ≠ sm.mNumCols →
      m.addAssign sm = .error (Err.invalidArgument, m) := by
    intro h
    unfold SmallMatrix.addAssign
    rw [if_pos h]
  have hsub : m.mNumRows ≠ sm.mNumRows ∨ m.mNumCols ≠ sm.mNumCols →
      m.subAssign sm = .error (Err.invalidArgument, m) := by
    intro h
    unfold SmallMatrix.subAssign
    rw [if_pos h]
  have hmul : m.mNumCols ≠ sm.mNumRows →
      m.mulAssign init1 sm = .error (Err.invalidArgument, m) := by
    intro h
    unfold SmallMatrix.mulAssign
    rw [if_pos h]
  refine ⟨fun r c h => resize_of_negative m r c h,
    fun k v h => insertRow_outOfRange m k v h,
    fun k v h hv => insertRow_invalidArgument m k v h hv,
    fun k v h => insertCol_outOfRange init1 init2 m k v h,
    fun k v h hv => insertCol_invalidArgument init1 init2 m k v h hv,
    fun k h => eraseRow_outOfRange m k h,
    fun k h => eraseCol_outOfRange init1 init2 m k h,
    fun h => ⟨hadd h, hsub h⟩, hmul, ?_⟩
  intro e st he
  refine ⟨fun r c h => resize_failure_state m r c e st h he,
    fun k v h => insertRow_failure_state m k v e st h he,
    fun k h => eraseCol_failure_state init1 init2 m k e st h,
    fun k v h => ?_,
    fun hB k h => eraseRow_failure_state m hB k e st h,
    fun hBm hBs => ⟨?_, ?_, ?_⟩⟩
  · obtain ⟨h1, h2, h3, h4, _⟩ := insertCol_failure_state init1 init2 m k v e st h
    exact ⟨h1, h2, h3, h4⟩
  · intro h
    by_cases hdim : m.mNumRows ≠ sm.mNumRows ∨ m.mNumCols ≠ sm.mNumCols
    · rw [hadd hdim] at h
      cases h
      rfl
    · have hR : m.mNumRows = sm.mNumRows := by
        by_contra hne
        exact hdim (Or.inl hne)
      have hC : m.mNumCols = sm.mNumCols := by
        by_contra hne
        exact hdim (Or.inr hne)
      obtain ⟨p, hp, _⟩ := opAssign_loops (fun x y => x + y) m sm hBm hBs hR hC
      unfold SmallMatrix.addAssign at h
      rw [if_neg hdim] at h
      exact absurd (hp.symm.trans h) (by intro hc; cases hc)
  · intro h
    by_cases hdim : m.mNumRows ≠ sm.mNumRows ∨ m.mNumCols ≠ sm.mNumCols
    · rw [hsub hdim] at h
      cases h
      rfl
    · have hR : m.mNumRows = sm.mNumRows := by
        by_contra hne
        exact hdim (Or.inl hne)
      have hC : m.mNumCols = sm.mNumCols := by
        by_contra hne
        exact hdim (Or.inr hne)
      obtain ⟨p, hp, _⟩ := opAssign_loops (fun x y => x - y) m sm hBm hBs hR hC
      unfold SmallMatrix.subAssign at h
      rw [if_neg hdim] at h
      exact absurd (hp.symm.trans h) (by intro hc; cases hc)
  · intro hb h
    by_cases hdim : m.mNumCols ≠ sm.mNumRows
    · rw [hmul hdim] at h
      cases h
      rfl
    · have hK : m.mNumCols = sm.mNumRows := by
        by_contra hne
        exact hdim hne
      obtain ⟨p, hp⟩ := mulAssign_ok init1 m sm hBm hBs hK hb
      rw [hp] at h
      cases h

/-- An instance: every validation failure on a `2 x 2` matrix `M`, with a `3 x 3` operand
`S`. -/
theorem validation_failure_atomic_witness :
    ∃ M S : SmallMatrix Int, M = SmallMatrix.ctor3 (fun _ _ => 0) 2 2 5 ∧
      S = SmallMatrix.ctor3 (fun _ _ => 0) 3 3 1 ∧
      (((-1 : Int) < 0 ∨ (3 : Int) < 0) ∧ M.resize (-1) 3 = .error (Err.outOfRange, M)) ∧
      (((5 : Int) < 0 ∨ 5 > M.mNumRows) ∧
        M.insertRow 5 [1, 2] = .error (Err.outOfRange, M)) ∧
      ((¬ ((0 : Int) < 0 ∨ 0 > M.mNumRows) ∧ (([1] : List Int).length : Int) ≠ M.mNumCols) ∧
        M.insertRow 0 [1] = .error (Err.invalidArgument, M)) ∧
      (((5 : Int) < 0 ∨ 5 > M.mNumCols) ∧
        M.insertCol (fun _ _ => 0) (fun _ _ => 0) 5 [1, 2] = .error (Err.outOfRange, M)) ∧
      ((¬ ((0 : Int) < 0 ∨ 0 > M.mNumCols) ∧ (([1] : List Int).length : Int) ≠ M.mNumRows) ∧
        M.insertCol (fun _ _ => 0) (fun _ _ => 0) 0 [1] = .error (Err.invalidArgument, M)) ∧
      (((2 : Int) < 0 ∨ 2 ≥ M.mNumRows) ∧ M.eraseRow 2 = .error (Err.outOfRange, M)) ∧
      (((2 : Int) < 0 ∨ 2 ≥ M.mNumCols) ∧
        M.eraseCol (fun _ _ => 0) (fun _ _ => 0) 2 = .error (Err.outOfRange, M)) ∧
      ((M.mNumRows ≠ S.mNumRows ∨ M.mNumCols ≠ S.mNumCols) ∧
        M.addAssign S = .error (Err.invalidArgument, M) ∧
        M.subAssign S = .error (Err.invalidArgument, M)) ∧
      (M.mNumCols ≠ S.mNumRows ∧
        M.mulAssign (fun _ _ => 0) S = .error (Err.invalidArgument, M)) := by
  obtain ⟨h1, h2, h3, h4, h5, h6, h7, h8, h9, _⟩ :=
    validation_failure_atomic (fun _ _ => (0 : Int)) (fun _ _ => 0)
      (SmallMatrix.ctor3 (fun _ _ => 0) 2 2 5) (SmallMatrix.ctor3 (fun _ _ => 0) 3 3 1)
  exact ⟨_, _, rfl, rfl, ⟨by decide, h1 (-1) 3 (by decide)⟩,
    ⟨by decide, h2 5 [1, 2] (by decide)⟩,
    ⟨⟨by decide, by decide⟩, h3 0 [1] (by decide) (by decide)⟩,
    ⟨by decide, h4 5 [1, 2] (by decide)⟩,
    ⟨⟨by decide, by decide⟩, h5 0 [1] (by decide) (by decide)⟩,
    ⟨by decide, h6 2 (by decide)⟩, ⟨by decide, h7 2 (by decide)⟩,
    ⟨by decide, h8 (by decide)⟩, ⟨by decide, h9 (by decide)⟩⟩

/-! ### Evaluations on concrete inputs: move operations, accessors, the empty constructor -/

/-- The source of a move keeps its shape, for every source and every destination. -/
theorem move_keeps_source_shape [Zero Val] (init : Stack Val) (R M : SmallMatrix Val) :
    (SmallMatrix.moveCtor init M).2.size = M.size ∧ (R.moveAssign M).2.size = M.size := by
  unfold SmallMatrix.moveCtor SmallMatrix.moveAssign
  dsimp only
  constructor <;> split <;> rfl

/-- C21. A dynamic `11 x 12` matrix `M` (a `12 x 12` matrix of ones after `eraseRow(0)`) is
move-assigned to an inline `11 x 12` matrix and, separately, move-constructed from: in both
cases the source still reports the size `(11, 12)`, not `(0, 0)`, and its element `(0, 0)`,
which is in range, can no longer be accessed. An inline `2 x 2` source also keeps its size. -/
theorem move_does_not_reset_source :
    ∃ M, (SmallMatrix.ctor3 (fun _ _ => (0 : Int)) 12 12 1).eraseRow 0 = .ok M ∧
      M.size = (11, 12) ∧
      ((SmallMatrix.ctor3 (fun _ _ => (0 : Int)) 11 12 7).moveAssign M).2.size = (11, 12) ∧
      ((SmallMatrix.ctor3 (fun _ _ => (0 : Int)) 11 12 7).moveAssign M).2.get 0 0 =
        .error .outOfRange ∧
      (SmallMatrix.moveCtor (fun _ _ => 0) M).2.size = (11, 12) ∧
      (SmallMatrix.moveCtor (fun _ _ => 0) M).2.get 0 0 = .error .outOfRange ∧
      (SmallMatrix.moveCtor (fun _ _ => 0)
        (SmallMatrix.ctor3 (fun _ _ => (0 : Int)) 2 2 5)).2.size = (2, 2) :=
  ⟨_, rfl, rfl, rfl, rfl, rfl, rfl, rfl⟩

/-- A move from a source whose flag agrees with its shape gives a destination that returns
what the source returned, for every access. -/
theorem move_get_of_consistent [Zero Val] (init : Stack Val) (R M : SmallMatrix Val)
    (hF : M.mIsLargeMatrix = decide (M.mNumRows * M.mNumCols ≥ mSmallSize)) (i j : Int) :
    (SmallMatrix.moveCtor init M).1.get i j = M.get i j ∧
    (R.moveAssign M).1.get i j = M.get i j := by
  unfold SmallMatrix.moveCtor SmallMatrix.moveAssign SmallMatrix.get
  dsimp only
  rw [← hF]
  cases hflag : M.mIsLargeMatrix <;> simp

/-- C22. A dynamic `11 x 12` matrix `M` of ones with `132` elements (a `12 x 12` matrix after
`eraseRow(0)`) is move-assigned to an inline `11 x 12` matrix `R` filled with `7`: afterwards
`R` has the size of `M` but is inline, although the flag of `M` selected the dynamic buffer,
and `R(0, 0)` is `7`, where `M(0, 0)` was `1`. A matrix move-constructed from `M` is inline as
well and returns the previous content of its own storage (here `9`). -/
theorem move_flag_from_shape_buffer_from_source :
    ∃ M, (SmallMatrix.ctor3 (fun _ _ => (0 : Int)) 12 12 1).eraseRow 0 = .ok M ∧
      M.size = (11, 12) ∧ M.isSmall = false ∧ M.get 0 0 = .ok 1 ∧
      ((SmallMatrix.ctor3 (fun _ _ => (0 : Int)) 11 12 7).moveAssign M).1.size = (11, 12) ∧
      ((SmallMatrix.ctor3 (fun _ _ => (0 : Int)) 11 12 7).moveAssign M).1.isSmall = true ∧
      ((SmallMatrix.ctor3 (fun _ _ => (0 : Int)) 11 12 7).moveAssign M).1.get 0 0 = .ok 7 ∧
      (SmallMatrix.moveCtor (fun _ _ => 9) M).1.isSmall = true ∧
      (SmallMatrix.moveCtor (fun _ _ => 9) M).1.get 0 0 = .ok 9 :=
  ⟨_, rfl, rfl, rfl, rfl, rfl, rfl, rfl, rfl, rfl⟩

/-- C23. On an inline `2 x 3` matrix the non-const `col(0)` returns three pointers, the
third to element `(2, 0)` of the inline array, which is outside the matrix, where the const
overload returns the two pointers to `(0, 0)` and `(1, 0)`; on an inline `3 x 2` matrix it
returns two pointers and misses element `(2, 0)`. On the `12 x 12` matrix that an inline
`11 x 12` matrix becomes through `insertRow`, both overloads of `col(0)` return `13`
pointers, while `row(0)` returns the `12` pointers to the elements of row `0`. -/
theorem col_returns_wrong_count :
    (SmallMatrix.ctor3 (fun _ _ => (0 : Int)) 2 3 5).size = (2, 3) ∧
    (SmallMatrix.ctor3 (fun _ _ => (0 : Int)) 2 3 5).col 0 =
      .ok [Ref.stack 0 0, Ref.stack 1 0, Ref.stack 2 0] ∧
    (SmallMatrix.ctor3 (fun _ _ => (0 : Int)) 2 3 5).colConst 0 =
      .ok [Ref.stack 0 0, Ref.stack 1 0] ∧
    (SmallMatrix.ctor3 (fun _ _ => (0 : Int)) 3 2 5).col 0 =
      .ok [Ref.stack 0 0, Ref.stack 1 0] ∧
    ∃ m l1 l2, (SmallMatrix.ctor3 (fun _ _ => (0 : Int)) 11 12 5).insertRow 0
        [1, 2, 3, 4, 5, 6, 7, 8, 9, 10, 11, 12] = .ok m ∧
      m.size = (12, 12) ∧ m.col 0 = .ok l1 ∧ l1.length = 13 ∧
      m.colConst 0 = .ok l2 ∧ l2.length = 13 ∧
      m.row 0 = .ok ((upTo 0 12).map fun k => m.refTo 0 k) :=
  ⟨rfl, rfl, rfl, rfl, _, _, _, rfl, rfl, rfl, rfl, rfl, rfl, rfl⟩

/-- C24. When the storage of the flag holds `true`, the matrix that `SmallMatrix()` builds
has size `(0, 0)` and every element access fails with `OutOfRange`, but `isSmall()` is
`false`; in general `isSmall()` returns the negation of what the storage held. -/
theorem ctor0_flag_indeterminate :
    (SmallMatrix.ctor0 true (fun _ _ => (0 : Int))).size = (0, 0) ∧
    (SmallMatrix.ctor0 true (fun _ _ => (0 : Int))).isSmall = false ∧
    (∀ i j, (SmallMatrix.ctor0 true (fun _ _ => (0 : Int))).get i j = .error .outOfRange) ∧
    ∀ b, (SmallMatrix.ctor0 b (fun _ _ => (0 : Int))).isSmall = !b := by
  refine ⟨rfl, rfl, fun i j => ?_, fun b => rfl⟩
  apply get_outOfRange
  show i < 0 ∨ i ≥ 0 ∨ j < 0 ∨ j ≥ 0
  omega

/-- C26. Right after the `insertRow` that takes an inline `11 x 12` matrix across the
threshold, the matrix is dynamic with size `(12, 12)` and `mHeapData` has `13` rows. Right
after `eraseCol(0)` on a dynamic `12 x 12` matrix, the matrix is dynamic with size `(12, 11)`
and `mHeapData` has no row. -/
theorem heap_not_sized_exactly :
    ∃ m m2, (SmallMatrix.ctor3 (fun _ _ => (0 : Int)) 11 12 5).insertRow 0
        [1, 2, 3, 4, 5, 6, 7, 8, 9, 10, 11, 12] = .ok m ∧
      m.size = (12, 12) ∧ m.mIsLargeMatrix = true ∧ m.mHeapData.length = 13 ∧
      SmallMatrix.eraseCol (fun _ _ => (0 : Int)) (fun _ _ => 0)
        (SmallMatrix.ctor3 (fun _ _ => 0) 12 12 1) 0 = .ok m2 ∧
      m2.size = (12, 11) ∧ m2.mIsLargeMatrix = true ∧ m2.mHeapData.length = 0 :=
  ⟨_, _, rfl, rfl, rfl, rfl, rfl, rfl, rfl, rfl⟩

/-! ### The shape and the flag after an operation that returns -/

theorem foldlM_invariant {ε σ ι : Type} (P : σ → Prop) (f : σ → ι → Except ε σ)
    (hf : ∀ s x s2, P s → f s x = .ok s2 → P s2) :
    ∀ (l : List ι) (s s2 : σ), P s → l.foldlM f s = .ok s2 → P s2 := by
  intro l
  induction l with
  | nil =>
    intro s s2 hP h
    cases h
    exact hP
  | cons x rest ih =>
    intro s s2 hP h
    rw [List.foldlM_cons] at h
    cases hx : f s x with
    | error e =>
      rw [hx] at h
      cases h
    | ok s1 =>
      rw [hx] at h
      exact ih s1 s2 (hf s x s1 hP hx) h

theorem bind_ok {ε α β : Type} (x : Except ε α) (f : α → Except ε β) (r : β)
    (h : (x >>= f) = .ok r) : ∃ a, x = .ok a ∧ f a = .ok r := by
  cases x with
  | error e => cases h
  | ok a => exact ⟨a, rfl, h⟩

/-- An assignment through `operator()` changes neither the shape nor the flag. -/
theorem set_keeps (m m2 : SmallMatrix Val) (i j : Int) (v : Val) (h : m.set i j v = .ok m2) :
    m2.mNumRows = m.mNumRows ∧ m2.mNumCols = m.mNumCols ∧
      m2.mIsLargeMatrix = m.mIsLargeMatrix := by
  unfold SmallMatrix.set at h
  dsimp only at h
  split at h
  · cases h
  · split at h
    · cases hh : heapAssign m.mHeapData i j v with
      | error e =>
        rw [hh] at h
        cases h
      | ok x =>
        rw [hh] at h
        cases h
        exact ⟨rfl, rfl, rfl⟩
    · cases hh : stackAssign m.mStackData i j v with
      | error e =>
        rw [hh] at h
        cases h
      | ok x =>
        rw [hh] at h
        cases h
        exact ⟨rfl, rfl, rfl⟩

/-- Two nested loops whose body keeps the shape and the flag keep them. -/
theorem loops_keep {ε : Type} (body : SmallMatrix Val → Int → Int → Except ε (SmallMatrix Val))
    (hbody : ∀ p i j p2, body p i j = .ok p2 →
      p2.mNumRows = p.mNumRows ∧ p2.mNumCols = p.mNumCols ∧
        p2.mIsLargeMatrix = p.mIsLargeMatrix)
    (rows cols : List Int) (p p2 : SmallMatrix Val)
    (h : rows.foldlM (fun n i => cols.foldlM (fun n j => body n i j) n) p = .ok p2) :
    p2.mNumRows = p.mNumRows ∧ p2.mNumCols = p.mNumCols ∧
      p2.mIsLargeMatrix = p.mIsLargeMatrix := by
  refine foldlM_invariant
    (fun n => n.mNumRows = p.mNumRows ∧ n.mNumCols = p.mNumCols ∧
      n.mIsLargeMatrix = p.mIsLargeMatrix) _ ?_ rows p p2 ⟨rfl, rfl, rfl⟩ h
  intro s i s2 hP hs
  refine foldlM_invariant
    (fun n => n.mNumRows = p.mNumRows ∧ n.mNumCols = p.mNumCols ∧
      n.mIsLargeMatrix = p.mIsLargeMatrix) _ ?_ cols s s2 hP hs
  intro t j t2 hQ ht
  obtain ⟨h1, h2, h3⟩ := hbody t i j t2 ht
  exact ⟨h1.trans hQ.1, h2.trans hQ.2.1, h3.trans hQ.2.2⟩

/-- A matrix of non-negative shape whose flag is the threshold test on its shape. -/
theorem flagSound_of_exact (m : SmallMatrix Val) (hr : 0 ≤ m.mNumRows) (hc : 0 ≤ m.mNumCols)
    (hF : m.mIsLargeMatrix = decide (m.mNumRows * m.mNumCols ≥ 144)) : m.FlagSound := by
  refine ⟨hr, hc, fun hf => ?_⟩
  rw [hf] at hF
  have := of_decide_eq_false hF.symm
  omega

/-- The element that `SmallMatrix(r, c, v)` holds in every in-range cell, for arguments whose
product fits an `int`. -/
theorem ctor3_get (init : Stack Val) (r c i j : Int) (v : Val) (hi : 0 ≤ i ∧ i < r)
    (hj : 0 ≤ j ∧ j < c) (hb : r * c < 2147483648) :
    (SmallMatrix.ctor3 init r c v).get i j = .ok v := by
  have hfit := intMul_of_fit r c (by omega) (by omega) hb
  by_cases h : r * c ≥ 144
  · have hm : (SmallMatrix.ctor3 init r c v) =
        { mNumRows := r, mNumCols := c, mIsLargeMatrix := true, mStackData := init,
          mHeapData := List.replicate r.toNat (List.replicate c.toNat v) } := by
      simp [SmallMatrix.ctor3, mSmallSize, hfit, h]
    rw [hm, get_large _ rfl i j hi hj]
    apply heapAt_ok _ i j (List.replicate c.toNat v) v hi.1 hj.1
    · exact List.getElem?_replicate_of_lt (by omega)
    · exact List.getElem?_replicate_of_lt (by omega)
  · have hm : (SmallMatrix.ctor3 init r c v) =
        { mNumRows := r, mNumCols := c, mIsLargeMatrix := false,
          mStackData := fun a b => if 0 ≤ a ∧ a < 144 ∧ 0 ≤ b ∧ b < 144 then v else init a b,
          mHeapData := [] } := by
      simp [SmallMatrix.ctor3, mSmallSize, hfit, h]
    have hb := inline_index_bound r c i j (by omega) hi hj
    rw [hm, get_inline _ rfl i j hi hj hb]
    have hc : 0 ≤ i ∧ i < 144 ∧ 0 ≤ j ∧ j < 144 := ⟨hi.1, hb.1, hj.1, hb.2⟩
    simp only [if_pos hc]

/-- Two matrices of the same size that return the same for every in-range access return the
same for every access. -/
theorem get_eq_everywhere (A A2 : SmallMatrix Val) (hs : A.size = A2.size)
    (hg : ∀ i j, 0 ≤ i ∧ i < A.mNumRows → 0 ≤ j ∧ j < A.mNumCols → A.get i j = A2.get i j)
    (i j : Int) : A.get i j = A2.get i j := by
  have hd : A.mNumRows = A2.mNumRows ∧ A.mNumCols = A2.mNumCols := by
    unfold SmallMatrix.size at hs
    exact Prod.mk.inj hs
  by_cases h : (0 ≤ i ∧ i < A.mNumRows) ∧ (0 ≤ j ∧ j < A.mNumCols)
  · exact hg i j h.1 h.2
  · rw [get_outOfRange A i j (by omega), get_outOfRange A2 i j (by omega)]

/-- The two nested loops of `operator*(double, SmallMatrix const&)` on an operand whose cells
are backed: they return and every cell `(i, j)` of the result is `s * sm(i, j)`. -/
theorem smul_loops [Zero Val] [Mul Val] (init : Stack Val) (s : Val) (sm : SmallMatrix Val)
    (hBs : sm.Backed) (hb : sm.mNumRows * sm.mNumCols < 2147483648) :
    ∃ p, SmallMatrix.smul init s sm = .ok p ∧ p.Backed ∧ p.size = sm.size ∧
      ∀ i j, 0 ≤ i ∧ i < sm.mNumRows → 0 ≤ j ∧ j < sm.mNumCols →
        ∃ a, sm.get i j = .ok a ∧ p.get i j = .ok (s * a) := by
  have hB0 := ctor2_backed init sm.mNumRows sm.mNumCols hBs.1 hBs.2.1 hb
  obtain ⟨p, hp, hBp, hRp, hCp, _, hcells⟩ :=
    cellwise_all sm.mNumRows sm.mNumCols hBs.1 hBs.2.1
      (fun n i j => do
        let v ← sm.get i j
        n.set i j (s * v))
      (fun a b _ => s * sm.cell a b)
      (fun q i j hBq hRq hCq hi hj => by
        obtain ⟨p2, hp2, rest⟩ :=
          write_step sm.mNumRows sm.mNumCols q hBq hRq hCq i j hi hj (s * sm.cell i j)
            (fun a b _ => s * sm.cell a b) rfl
        refine ⟨p2, ?_, rest⟩
        beta_reduce
        rw [get_cell sm hBs i j hi hj]
        exact hp2)
      (SmallMatrix.ctor2 init sm.mNumRows sm.mNumCols) hB0 (ctor2_rows _ _ _)
      (ctor2_cols _ _ _)
  refine ⟨p, hp, hBp, ?_, ?_⟩
  · simp [SmallMatrix.size, hRp, hCp]
  · intro i j hi hj
    refine ⟨sm.cell i j, get_cell sm hBs i j hi hj, ?_⟩
    rw [hcells i j hi hj, ctor2_get init _ _ i j hi hj hb]
    rfl

/-- Two results of the same size whose in-range cells hold the same known values return the
same for every access. -/
theorem get_eq_of_cells (S S2 : SmallMatrix Val) (R C : Int) (f : Int → Int → Val)
    (hs : S.size = (R, C)) (hs2 : S2.size = (R, C))
    (h1 : ∀ i j, 0 ≤ i ∧ i < R → 0 ≤ j ∧ j < C → S.get i j = .ok (f i j))
    (h2 : ∀ i j, 0 ≤ i ∧ i < R → 0 ≤ j ∧ j < C → S2.get i j = .ok (f i j))
    (i j : Int) : S.get i j = S2.get i j := by
  have hd : S.mNumRows = R ∧ S.mNumCols = C := by
    unfold SmallMatrix.size at hs
    exact Prod.mk.inj hs
  refine get_eq_everywhere S S2 (hs.trans hs2.symm) (fun a b ha hb => ?_) i j
  rw [h1 a b ⟨ha.1, by omega⟩ ⟨hb.1, by omega⟩, h2 a b ⟨ha.1, by omega⟩ ⟨hb.1, by omega⟩]

/-- On operands whose cells are backed, the elements of `lhs op rhs` for `op` one of `+`, `-`
do not depend on the previous content of the storage in which the result is built. -/
theorem combine_init_free [Zero Val] (op : Val → Val → Val) (init init2 : Stack Val)
    (lhs rhs : SmallMatrix Val) (hBl : lhs.Backed) (hBr : rhs.Backed)
    (hR : lhs.mNumRows = rhs.mNumRows) (hC : lhs.mNumCols = rhs.mNumCols)
    (hb : lhs.mNumRows * lhs.mNumCols < 2147483648) :
    ∃ S S2, (upTo 0 lhs.mNumRows).foldlM (fun n i =>
        (upTo 0 lhs.mNumCols).foldlM (fun n j => do
          let a ← lhs.get i j
          let b ← rhs.get i j
          n.set i j (op a b)) n) (SmallMatrix.ctor2 init lhs.mNumRows lhs.mNumCols) = .ok S ∧
      (upTo 0 lhs.mNumRows).foldlM (fun n i =>
        (upTo 0 lhs.mNumCols).foldlM (fun n j => do
          let a ← lhs.get i j
          let b ← rhs.get i j
          n.set i j (op a b)) n) (SmallMatrix.ctor2 init2 lhs.mNumRows lhs.mNumCols) = .ok S2 ∧
      S.size = S2.size ∧ ∀ i j, S.get i j = S2.get i j := by
  obtain ⟨S, hS, _, hsz, _, hcells⟩ := combine_loops op init lhs rhs hBl hBr hR hC hb
  obtain ⟨S2, hS2, _, hsz2, _, hcells2⟩ := combine_loops op init2 lhs rhs hBl hBr hR hC hb
  refine ⟨S, S2, hS, hS2, hsz.trans hsz2.symm, ?_⟩
  refine get_eq_of_cells S S2 lhs.mNumRows lhs.mNumCols
    (fun i j => op (lhs.cell i j) (rhs.cell i j)) hsz hsz2 (fun i j hi hj => ?_)
    (fun i j hi hj => ?_)
  · obtain ⟨a, b, ha, hb, hab⟩ := hcells i j hi hj
    show S.get i j = Except.ok (op (lhs.cell i j) (rhs.cell i j))
    unfold SmallMatrix.cell
    rw [ha, hb]
    exact hab
  · obtain ⟨a, b, ha, hb, hab⟩ := hcells2 i j hi hj
    show S2.get i j = Except.ok (op (lhs.cell i j) (rhs.cell i j))
    unfold SmallMatrix.cell
    rw [ha, hb]
    exact hab

/-- Let `A`, `A'` have the same size and return the same for every in-range access, and
likewise `B`, `B'`, whatever representation backs each of them. Then `A + B`, `A - B`, `A * B`,
`s * A`, `A * s`, `A == B` and `A != B` return or throw exactly what `A' + B'`, `A' - B'`,
`A' * B'`, `s * A'`, `A' * s`, `A' == B'` and `A' != B'` return or throw, for the same
previous content `init` of the storage in which the result is built. When the cells of the
operands are backed by their buffers and the element counts fit an `int`, the elements of the
sum, the difference, the scalar
product, and of a matrix product with at least `144` elements are the same for any two
previous contents of that storage. -/
theorem arithmetic_representation_agnostic [Zero Val] [Add Val] [Sub Val] [Mul Val]
    (far : Val → Val → Bool) (init init2 : Stack Val) (s : Val)
    (A A2 B B2 : SmallMatrix Val) (hA : A.size = A2.size)
    (hAg : ∀ i j, 0 ≤ i ∧ i < A.mNumRows → 0 ≤ j ∧ j < A.mNumCols →
      A.get i j = A2.get i j)
    (hB : B.size = B2.size)
    (hBg : ∀ i j, 0 ≤ i ∧ i < B.mNumRows → 0 ≤ j ∧ j < B.mNumCols →
      B.get i j = B2.get i j) :
    (SmallMatrix.add init A B = SmallMatrix.add init A2 B2 ∧
      SmallMatrix.sub init A B = SmallMatrix.sub init A2 B2 ∧
      SmallMatrix.mul init A B = SmallMatrix.mul init A2 B2 ∧
      SmallMatrix.smul init s A = SmallMatrix.smul init s A2 ∧
      SmallMatrix.mulScalar init A s = SmallMatrix.mulScalar init A2 s ∧
      SmallMatrix.eq far A B = SmallMatrix.eq far A2 B2 ∧
      SmallMatrix.ne far A B = SmallMatrix.ne far A2 B2) ∧
    (A.Backed → B.Backed → A.size = B.size → A.mNumRows * A.mNumCols < 2147483648 →
      (∃ S S2, SmallMatrix.add init A B = .ok S ∧ SmallMatrix.add init2 A2 B2 = .ok S2 ∧
        S.size = S2.size ∧ ∀ i j, S.get i j = S2.get i j) ∧
      (∃ D D2, SmallMatrix.sub init A B = .ok D ∧ SmallMatrix.sub init2 A2 B2 = .ok D2 ∧
        D.size = D2.size ∧ ∀ i j, D.get i j = D2.get i j)) ∧
    (A.Backed → A.mNumRows * A.mNumCols < 2147483648 →
      ∃ P P2, SmallMatrix.smul init s A = .ok P ∧ SmallMatrix.smul init2 s A2 = .ok P2 ∧
        P.size = P2.size ∧ ∀ i j, P.get i j = P2.get i j) ∧
    (A.Backed → B.Backed → A.mNumCols = B.mNumRows → A.mNumRows * B.mNumCols ≥ 144 →
      A.mNumRows * B.mNumCols < 2147483648 →
      ∃ P P2, SmallMatrix.mul init A B = .ok P ∧ SmallMatrix.mul init2 A2 B2 = .ok P2 ∧
        P.size = P2.size ∧ ∀ i j, P.get i j = P2.get i j) := by
  have hAd : A.mNumRows = A2.mNumRows ∧ A.mNumCols = A2.mNumCols := by
    unfold SmallMatrix.size at hA
    exact Prod.mk.inj hA
  have hBd : B.mNumRows = B2.mNumRows ∧ B.mNumCols = B2.mNumCols := by
    unfold SmallMatrix.size at hB
    exact Prod.mk.inj hB
  have hAf : A.get = A2.get :=
    funext fun i => funext fun j => get_eq_everywhere A A2 hA hAg i j
  have hBf : B.get = B2.get :=
    funext fun i => funext fun j => get_eq_everywhere B B2 hB hBg i j
  have heq : SmallMatrix.eq far A B = SmallMatrix.eq far A2 B2 := by
    have hrow : ∀ i js, eqRow far A B i js = eqRow far A2 B2 i js := by
      intro i js
      induction js with
      | nil => rfl
      | cons j js ih =>
        unfold eqRow
        rw [hAf, hBf, ih]
    have hrows : ∀ cols is, eqRows far A B cols is = eqRows far A2 B2 cols is := by
      intro cols is
      induction is with
      | nil => rfl
      | cons i is ih =>
        unfold eqRows
        rw [hrow, ih]
    unfold SmallMatrix.eq
    rw [hA, hB, hAd.1, hAd.2, hrows]
  have hadd : ∀ ini, SmallMatrix.add ini A B = SmallMatrix.add ini A2 B2 := by
    intro ini
    unfold SmallMatrix.add
    rw [hAd.1, hAd.2, hBd.1, hBd.2, hAf, hBf]
  have hsub : ∀ ini, SmallMatrix.sub ini A B = SmallMatrix.sub ini A2 B2 := by
    intro ini
    unfold SmallMatrix.sub
    rw [hAd.1, hAd.2, hBd.1, hBd.2, hAf, hBf]
  have hmul : ∀ ini, SmallMatrix.mul ini A B = SmallMatrix.mul ini A2 B2 := by
    intro ini
    unfold SmallMatrix.mul
    rw [hAd.1, hAd.2, hBd.1, hBd.2, hAf, hBf]
  have hsmul : ∀ ini, SmallMatrix.smul ini s A = SmallMatrix.smul ini s A2 := by
    intro ini
    unfold SmallMatrix.smul
    rw [hAd.1, hAd.2, hAf]
  refine ⟨⟨hadd init, hsub init, hmul init, hsmul init, ?_, heq, ?_⟩, ?_, ?_, ?_⟩
  · unfold SmallMatrix.mulScalar
    exact hsmul init
  · unfold SmallMatrix.ne
    rw [heq]
  · intro hBA hBB hs hb
    have hd : A.mNumRows = B.mNumRows ∧ A.mNumCols = B.mNumCols := by
      unfold SmallMatrix.size at hs
      exact Prod.mk.inj hs
    have hdim : ¬ (A.mNumRows ≠ B.mNumRows ∨ A.mNumCols ≠ B.mNumCols) := by
      rintro (h | h)
      · exact h hd.1
      · exact h hd.2
    constructor
    · obtain ⟨S, S2, h1, h2, h3, h4⟩ :=
        combine_init_free (fun x y => x + y) init init2 A B hBA hBB hd.1 hd.2 hb
      refine ⟨S, S2, ?_, ?_, h3, h4⟩
      · unfold SmallMatrix.add
        rw [if_neg hdim]
        exact h1
      · rw [← hadd init2]
        unfold SmallMatrix.add
        rw [if_neg hdim]
        exact h2
    · obtain ⟨S, S2, h1, h2, h3, h4⟩ :=
        combine_init_free (fun x y => x - y) init init2 A B hBA hBB hd.1 hd.2 hb
      refine ⟨S, S2, ?_, ?_, h3, h4⟩
      · unfold SmallMatrix.sub
        rw [if_neg hdim]
        exact h1
      · rw [← hsub init2]
        unfold SmallMatrix.sub
        rw [if_neg hdim]
        exact h2
  · intro hBA hb
    obtain ⟨P, hP, _, hsz, hcells⟩ := smul_loops init s A hBA hb
    obtain ⟨P2, hP2, _, hsz2, hcells2⟩ := smul_loops init2 s A hBA hb
    refine ⟨P, P2, hP, (hsmul init2).symm.trans hP2, hsz.trans hsz2.symm, ?_⟩
    refine get_eq_of_cells P P2 A.mNumRows A.mNumCols (fun i j => s * A.cell i j) hsz hsz2
      (fun i j hi hj => ?_) (fun i j hi hj => ?_)
    · obtain ⟨a, ha, hab⟩ := hcells i j hi hj
      show P.get i j = Except.ok (s * A.cell i j)
      unfold SmallMatrix.cell
      rw [ha]
      exact hab
    · obtain ⟨a, ha, hab⟩ := hcells2 i j hi hj
      show P2.get i j = Except.ok (s * A.cell i j)
      unfold SmallMatrix.cell
      rw [ha]
      exact hab
  · intro hBA hBB hdim hcount hb
    obtain ⟨P, hP, _, hR, hC, hcells⟩ := mul_loops init A B hdim hBA hBB hb
    obtain ⟨P2, hP2, _, hR2, hC2, hcells2⟩ := mul_loops init2 A B hdim hBA hBB hb
    have hmulP : ∀ ini Q, (upTo 0 A.mNumRows).foldlM (fun n i =>
        (upTo 0 B.mNumCols).foldlM (fun n j =>
          (upTo 0 A.mNumCols).foldlM (fun n k => do
            let a ← A.get i k
            let b ← B.get k j
            let cur ← n.get i j
            n.set i j (cur + a * b)) n) n)
          (SmallMatrix.ctor2 ini A.mNumRows B.mNumCols) = .ok Q →
        SmallMatrix.mul ini A B = .ok Q := by
      intro ini Q hQ
      unfold SmallMatrix.mul
      rw [if_neg (fun h => h hdim)]
      exact hQ
    have hszP : P.size = (A.mNumRows, B.mNumCols) := by
      simp [SmallMatrix.size, hR, hC]
    have hszP2 : P2.size = (A.mNumRows, B.mNumCols) := by
      simp [SmallMatrix.size, hR2, hC2]
    refine ⟨P, P2, hmulP init P hP, (hmul init2).symm.trans (hmulP init2 P2 hP2),
      hszP.trans hszP2.symm, ?_⟩
    refine get_eq_of_cells P P2 A.mNumRows B.mNumCols
      (fun i j => (upTo 0 A.mNumCols).foldl
        (fun acc k => acc + A.cell i k * B.cell k j) 0) hszP hszP2
      (fun i j hi hj => ?_) (fun i j hi hj => ?_)
    · rw [hcells i j hi hj, if_pos hcount]
    · rw [hcells2 i j hi hj, if_pos hcount]

/-- An instance: `A` is the inline `11 x 12` matrix of ones, `A'` the dynamic `11 x 12`
matrix of ones that a `12 x 12` matrix becomes through `eraseRow(0)`; both operands of each
operation are `A`, respectively `A'`. -/
theorem arithmetic_representation_agnostic_witness :
    ∃ A A2 : SmallMatrix Int, A = SmallMatrix.ctor3 (fun _ _ => 0) 11 12 1 ∧
      (SmallMatrix.ctor3 (fun _ _ => 0) 12 12 1).eraseRow 0 = .ok A2 ∧
      A.isSmall = true ∧ A2.isSmall = false ∧ A.size = A2.size ∧ A.Backed ∧
      (∀ i j, 0 ≤ i ∧ i < A.mNumRows → 0 ≤ j ∧ j < A.mNumCols → A.get i j = A2.get i j) ∧
      SmallMatrix.add (fun _ _ => 7) A A = SmallMatrix.add (fun _ _ => 7) A2 A2 ∧
      SmallMatrix.mul (fun _ _ => 7) A A = SmallMatrix.mul (fun _ _ => 7) A2 A2 ∧
      SmallMatrix.smul (fun _ _ => 7) 3 A = SmallMatrix.smul (fun _ _ => 7) 3 A2 ∧
      SmallMatrix.eq (fun a b => decide (a ≠ b)) A A =
        SmallMatrix.eq (fun a b => decide (a ≠ b)) A2 A2 ∧
      ∃ S S2, SmallMatrix.add (fun _ _ => 7) A A = .ok S ∧
        SmallMatrix.add (fun _ _ => 8) A2 A2 = .ok S2 ∧ S.size = S2.size ∧
        ∀ i j, S.get i j = S2.get i j := by
  have hBM := ctor3_backed (fun _ _ => (0 : Int)) 12 12 (by decide) (by decide) 1 (by decide)
  have hBA := ctor3_backed (fun _ _ => (0 : Int)) 11 12 (by decide) (by decide) 1 (by decide)
  obtain ⟨A2, hA2, hsz, hsm, _, hhigh⟩ :=
    (eraseRow_cells (SmallMatrix.ctor3 (fun _ _ => (0 : Int)) 12 12 1) hBM 0).2 (by decide)
  have hsize : (SmallMatrix.ctor3 (fun _ _ => (0 : Int)) 11 12 1).size = A2.size := by
    rw [hsz]
    rfl
  have hget : ∀ i j, 0 ≤ i ∧ i < (SmallMatrix.ctor3 (fun _ _ => (0 : Int)) 11 12 1).mNumRows →
      0 ≤ j ∧ j < (SmallMatrix.ctor3 (fun _ _ => (0 : Int)) 11 12 1).mNumCols →
      (SmallMatrix.ctor3 (fun _ _ => (0 : Int)) 11 12 1).get i j = A2.get i j := by
    intro i j hi hj
    have hi2 : i < 11 := hi.2
    have hj2 : j < 12 := hj.2
    obtain ⟨x, hx1, hx2⟩ := hhigh i j hi.1 (by
      show i < 12 - 1
      omega) hj.1 hj2
    rw [ctor3_get _ 12 12 (i + 1) j 1 ⟨by omega, by omega⟩ ⟨hj.1, hj2⟩ (by decide)] at hx1
    rw [hx2, ← Except.ok.inj hx1]
    exact ctor3_get _ 11 12 i j 1 ⟨hi.1, hi2⟩ ⟨hj.1, hj2⟩ (by decide)
  obtain ⟨⟨h1, _, h3, h4, _, h6, _⟩, h7, _⟩ :=
    arithmetic_representation_agnostic (fun (a b : Int) => decide (a ≠ b))
      (fun _ _ => (7 : Int)) (fun _ _ => 8) 3
      (SmallMatrix.ctor3 (fun _ _ => (0 : Int)) 11 12 1) A2
      (SmallMatrix.ctor3 (fun _ _ => (0 : Int)) 11 12 1) A2 hsize hget hsize hget
  exact ⟨_, A2, rfl, hA2, rfl, hsm, hsize, hBA, hget, h1, h3, h4, h6,
    (h7 hBA hBA rfl (by decide)).1⟩

/-! ### The constructors and the maintained part of the flag invariant -/

theorem firstRowSize_nonneg (il : List (List Val)) : 0 ≤ firstRowSize il := by
  cases il with
  | nil => exact le_refl _
  | cons row rest => exact Int.natCast_nonneg _

/-- The statement `(*this)(i, j) = sm(i, j)` of the copy constructor keeps the shape and the
flag. -/
theorem copyCtorStep_keeps (sm p p2 : SmallMatrix Val) (i j : Int)
    (h : (do
      let v ← sm.get i j
      p.set i j v) = Except.ok p2) :
    p2.mNumRows = p.mNumRows ∧ p2.mNumCols = p.mNumCols ∧
      p2.mIsLargeMatrix = p.mIsLargeMatrix := by
  obtain ⟨a, _, h2⟩ := bind_ok _ _ _ h
  exact set_keeps _ _ _ _ _ h2

/-- The list constructor, the copy constructor and the move constructor build a matrix whose
flag is the threshold test on its shape, so the maintained part of the flag invariant holds
for it when the shape is non-negative. -/
theorem more_ctors_flagSound [Zero Val] (init : Stack Val) (sm m : SmallMatrix Val) :
    (∀ il, SmallMatrix.ctorList init il = .ok m → m.FlagSound) ∧
    (sm.FlagSound → SmallMatrix.copyCtor init sm = .ok m → m.FlagSound) ∧
    (sm.FlagSound → (SmallMatrix.moveCtor init sm).1.FlagSound) := by
  refine ⟨fun il h => ?_, fun hs h => ?_, fun hs => ?_⟩
  · unfold SmallMatrix.ctorList at h
    dsimp only at h
    split at h
    · cases h
    · cases hfold : il.foldlM ctorListStep
          (({ mNumRows := (il.length : Int), mNumCols := firstRowSize il,
              mIsLargeMatrix := decide ((il.length : Int) * firstRowSize il ≥ mSmallSize),
              mStackData := init,
              mHeapData :=
                if decide ((il.length : Int) * firstRowSize il ≥ mSmallSize) = true then
                  vecResize (il.length : Int).toNat [] [] else [] } : SmallMatrix Val), 0) with
      | error e =>
        rw [hfold] at h
        cases h
      | ok st =>
        rw [hfold] at h
        cases h
        obtain ⟨h1, h2, h3⟩ := ctorList_loop_keeps il _ st hfold
        refine flagSound_of_exact st.1 ?_ ?_ ?_
        · rw [h2]
          exact Int.natCast_nonneg _
        · rw [h3]
          exact firstRowSize_nonneg il
        · rw [h1, h2, h3]
          rfl
  · unfold SmallMatrix.copyCtor at h
    dsimp only at h
    split at h
    · cases h
      exact flagSound_of_exact _ hs.1 hs.2.1 rfl
    · obtain ⟨h1, h2, h3⟩ := loops_keep (fun n i j => do
          let v ← sm.get i j
          n.set i j v)
        (fun p i j p2 hp => copyCtorStep_keeps sm p p2 i j hp) _ _ _ _ h
      refine flagSound_of_exact m ?_ ?_ ?_
      · rw [h1]
        exact hs.1
      · rw [h2]
        exact hs.2.1
      · rw [h1, h2, h3]
        rfl
  · unfold SmallMatrix.moveCtor
    dsimp only
    split
    · exact flagSound_of_exact _ hs.1 hs.2.1 rfl
    · exact flagSound_of_exact _ hs.1 hs.2.1 rfl

/-! ### Evaluations on concrete inputs: the constructors beyond the range of `int`, and
operations on matrices that `eraseCol` has left without a buffer -/

/-- C1. `SmallMatrix(46341, 46341)` and `SmallMatrix(46341, 46341, v)` report the size
`(46341, 46341)`, that is `46341 * 46341 = 2147488281 >= 144` elements, and yet
`isSmall() == true`: the `int` product in the initialiser of `mIsLargeMatrix` wraps to
`-2147479015`. -/
theorem ctor_isSmall_wraps_at_46341 [Zero Val] (init : Stack Val) (v : Val) :
    (SmallMatrix.ctor2 init 46341 46341).size = (46341, 46341) ∧
    (SmallMatrix.ctor3 init 46341 46341 v).size = (46341, 46341) ∧
    (46341 : Int) * 46341 ≥ 144 ∧ intMul 46341 46341 = -2147479015 ∧
    (SmallMatrix.ctor2 init 46341 46341).isSmall = true ∧
    (SmallMatrix.ctor3 init 46341 46341 v).isSmall = true :=
  ⟨rfl, rfl, by decide, by decide, rfl, rfl⟩

/-- C8. Two calls of `insertRow(k, v)` with `0 <= k <= rows` and `len(v) == cols` that do
not succeed. On `SmallMatrix(0, 145, 5)`, which is inline, `insertRow(0, v)` crosses the
threshold and `convertStdArrayToStdVector` copies `145` elements out of a row of `144`. On the
`12 x 11` matrix that `eraseCol(0)` makes of a `12 x 12` matrix, which is dynamic with an
empty `mHeapData`, `insertRow(1, v)` inserts at `begin() + 1` of an empty vector. -/
theorem insertRow_valid_arguments_undefined :
    (SmallMatrix.ctor3 (fun _ _ => (0 : Int)) 0 145 5).size = (0, 145) ∧
    (SmallMatrix.ctor3 (fun _ _ => (0 : Int)) 0 145 5).isSmall = true ∧
    ((List.replicate 145 (1 : Int)).length : Int) = 145 ∧
    (∃ st, (SmallMatrix.ctor3 (fun _ _ => (0 : Int)) 0 145 5).insertRow 0
        (List.replicate 145 1) = .error (Err.undefinedBehaviour, st)) ∧
    ∃ M st, SmallMatrix.eraseCol (fun _ _ => (0 : Int)) (fun _ _ => 0)
        (SmallMatrix.ctor3 (fun _ _ => 0) 12 12 1) 0 = .ok M ∧
      M.size = (12, 11) ∧ M.isSmall = false ∧ M.mHeapData = [] ∧
      ((List.replicate 11 (7 : Int)).length : Int) = 11 ∧
      M.insertRow 1 (List.replicate 11 7) = .error (Err.undefinedBehaviour, st) :=
  ⟨rfl, rfl, rfl, ⟨_, rfl⟩, _, _, rfl, rfl, rfl, rfl, rfl, rfl⟩

/-- C9. On the `12 x 11` matrix `M` that `eraseCol(0)` makes of a `12 x 12` matrix (dynamic,
with an empty `mHeapData`), `insertRow(0, v)` with `v` of length `11` returns and the size is
`(13, 11)`, but `mHeapData` then holds the single row `v`: row `0` equals `v`, and the rows
`1 .. 12`, which should be the old rows `0 .. 11`, cannot be read. On `SmallMatrix(0, 145, 5)`
the insertion that crosses the threshold reads past a row of the inline array. -/
theorem insertRow_rows_unreadable :
    (∃ M m2, SmallMatrix.eraseCol (fun _ _ => (0 : Int)) (fun _ _ => 0)
        (SmallMatrix.ctor3 (fun _ _ => 0) 12 12 1) 0 = .ok M ∧
      M.size = (12, 11) ∧
      M.insertRow 0 (List.replicate 11 7) = .ok m2 ∧ m2.size = (13, 11) ∧
      m2.mHeapData = [List.replicate 11 7] ∧
      m2.get 0 0 = .ok 7 ∧ m2.get 0 10 = .ok 7 ∧
      m2.get 1 0 = .error .outOfRange ∧ m2.get 12 10 = .error .outOfRange) ∧
    ∃ st, (SmallMatrix.ctor3 (fun _ _ => (0 : Int)) 0 145 5).insertRow 0
        (List.replicate 145 1) = .error (Err.undefinedBehaviour, st) ∧
      st.size = (1, 145) :=
  ⟨⟨_, _, rfl, rfl, rfl, rfl, rfl, rfl, rfl, rfl, rfl⟩, _, rfl, rfl⟩

/-- C10. On the `12 x 11` matrix `M` that `eraseCol(0)` makes of a `12 x 12` matrix (dynamic,
with an empty `mHeapData`), `eraseRow(0)` has an index in range, decrements `mNumRows` and
erases `begin() + 0` of an empty vector: no row is removed and nothing is returned. -/
theorem eraseRow_after_eraseCol_undefined :
    ∃ M st, SmallMatrix.eraseCol (fun _ _ => (0 : Int)) (fun _ _ => 0)
        (SmallMatrix.ctor3 (fun _ _ => 0) 12 12 1) 0 = .ok M ∧
      M.size = (12, 11) ∧ M.isSmall = false ∧ M.mHeapData = [] ∧
      M.eraseRow 0 = .error (Err.undefinedBehaviour, st) ∧ st.size = (11, 11) :=
  ⟨_, _, rfl, rfl, rfl, rfl, rfl, rfl⟩

/-- C16. On the `12 x 11` matrix `M` that `eraseCol(0)` makes of a `12 x 12` matrix, `M == M`
and `M != M` throw `OutOfRange` for every element test: the sizes agree and neither operator
returns a truth value. On two `1 x 1` matrices `{{a}}` and `{{b}}` the result of `==` is the
negation of the element test `std::abs(a - b) > epsilon`, whatever that test returns. -/
theorem eq_throws_after_eraseCol (far : Int → Int → Bool) (init init2 : Stack Int)
    (a b : Int) :
    (∃ M, SmallMatrix.eraseCol (fun _ _ => (0 : Int)) (fun _ _ => 0)
        (SmallMatrix.ctor3 (fun _ _ => 0) 12 12 1) 0 = .ok M ∧
      M.size = (12, 11) ∧
      SmallMatrix.eq far M M = .error .outOfRange ∧
      SmallMatrix.ne far M M = .error .outOfRange) ∧
    SmallMatrix.eq far (SmallMatrix.ctor3 init 1 1 a) (SmallMatrix.ctor3 init2 1 1 b) =
      .ok (!far a b) := by
  refine ⟨⟨_, rfl, rfl, rfl, rfl⟩, ?_⟩
  have h : SmallMatrix.eq far (SmallMatrix.ctor3 init 1 1 a) (SmallMatrix.ctor3 init2 1 1 b) =
      (do
        let r ← (if far a b = true then (pure false : Except Err Bool) else Except.ok true)
        if r = true then Except.ok true else pure false) := rfl
  rw [h]
  cases far a b <;> rfl

/-- C17. On the `12 x 11` matrix `M` that `eraseCol(0)` makes of a `12 x 12` matrix, `M + M`
and `M - M` throw `OutOfRange` although the sizes of the operands agree. -/
theorem add_sub_throw_after_eraseCol :
    ∃ M, SmallMatrix.eraseCol (fun _ _ => (0 : Int)) (fun _ _ => 0)
        (SmallMatrix.ctor3 (fun _ _ => 0) 12 12 1) 0 = .ok M ∧
      M.size = (12, 11) ∧
      SmallMatrix.add (fun _ _ => 0) M M = .error .outOfRange ∧
      SmallMatrix.sub (fun _ _ => 0) M M = .error .outOfRange :=
  ⟨_, rfl, rfl, rfl, rfl⟩

/-- C20. The `12 x 11` matrix `M` that `eraseCol(0)` makes of a `12 x 12` matrix cannot be
copied: the copy is inline by its shape and reads `M(0, 0)`, which throws `OutOfRange`, in the
copy constructor and in the copy assignment; the copy assignment leaves its receiver, a
`2 x 2` matrix, with the size `(12, 11)`. -/
theorem copy_throws_after_eraseCol :
    ∃ M st, SmallMatrix.eraseCol (fun _ _ => (0 : Int)) (fun _ _ => 0)
        (SmallMatrix.ctor3 (fun _ _ => 0) 12 12 1) 0 = .ok M ∧
      M.size = (12, 11) ∧
      SmallMatrix.copyCtor (fun _ _ => 0) M = .error .outOfRange ∧
      (SmallMatrix.ctor3 (fun _ _ => 0) 2 2 3).size = (2, 2) ∧
      (SmallMatrix.ctor3 (fun _ _ => 0) 2 2 3).copyAssign M = .error (Err.outOfRange, st) ∧
      st.size = (12, 11) :=
  ⟨_, _, rfl, rfl, rfl, rfl, rfl, rfl⟩

/-- C27. `A` is the inline `11 x 12` matrix of ones, `A'` the dynamic `11 x 12` matrix of ones
that a `12 x 12` matrix becomes through `eraseRow(0)`: they have the same size and return the
same for every access. `B` is the `12 x 1` matrix of ones. `A * B` and `A' * B` both return an
`11 x 1` matrix, whose elements are `12` more than the previous content of the storage in
which each result object was built: `12` where that storage held `0`, `17` where it held `5`.
The two products do not have the same element values. -/
theorem mul_differs_across_representations :
    ∃ A2 P P2, (SmallMatrix.ctor3 (fun _ _ => (0 : Int)) 12 12 1).eraseRow 0 = .ok A2 ∧
      (SmallMatrix.ctor3 (fun _ _ => (0 : Int)) 11 12 1).isSmall = true ∧
      A2.isSmall = false ∧
      (SmallMatrix.ctor3 (fun _ _ => (0 : Int)) 11 12 1).size = A2.size ∧
      (∀ i j, (SmallMatrix.ctor3 (fun _ _ => (0 : Int)) 11 12 1).get i j = A2.get i j) ∧
      SmallMatrix.mul (fun _ _ => 0) (SmallMatrix.ctor3 (fun _ _ => (0 : Int)) 11 12 1)
        (SmallMatrix.ctor3 (fun _ _ => 0) 12 1 1) = .ok P ∧
      SmallMatrix.mul (fun _ _ => 5) A2 (SmallMatrix.ctor3 (fun _ _ => 0) 12 1 1) = .ok P2 ∧
      P.size = (11, 1) ∧ P2.size = (11, 1) ∧
      P.get 0 0 = .ok 12 ∧ P2.get 0 0 = .ok 17 := by
  have hBM := ctor3_backed (fun _ _ => (0 : Int)) 12 12 (by decide) (by decide) 1 (by decide)
  have heval : ∃ A2 P P2,
      (SmallMatrix.ctor3 (fun _ _ => (0 : Int)) 12 12 1).eraseRow 0 = .ok A2 ∧
      (SmallMatrix.ctor3 (fun _ _ => (0 : Int)) 11 12 1).isSmall = true ∧
      A2.isSmall = false ∧
      (SmallMatrix.ctor3 (fun _ _ => (0 : Int)) 11 12 1).size = A2.size ∧
      SmallMatrix.mul (fun _ _ => 0) (SmallMatrix.ctor3 (fun _ _ => (0 : Int)) 11 12 1)
        (SmallMatrix.ctor3 (fun _ _ => 0) 12 1 1) = .ok P ∧
      SmallMatrix.mul (fun _ _ => 5) A2 (SmallMatrix.ctor3 (fun _ _ => 0) 12 1 1) = .ok P2 ∧
      P.size = (11, 1) ∧ P2.size = (11, 1) ∧
      P.get 0 0 = .ok 12 ∧ P2.get 0 0 = .ok 17 :=
    ⟨_, _, _, rfl, rfl, rfl, rfl, rfl, rfl, rfl, rfl, rfl, rfl⟩
  obtain ⟨A2, P, P2, hA2, h1, h2, hsize, h4, h5, h6, h7, h8, h9⟩ := heval
  obtain ⟨A3, hA3, _, _, _, hhigh⟩ :=
    (eraseRow_cells (SmallMatrix.ctor3 (fun _ _ => (0 : Int)) 12 12 1) hBM 0).2 (by decide)
  have hsame : A3 = A2 := Except.ok.inj (hA3.symm.trans hA2)
  rw [hsame] at hhigh
  have hget : ∀ i j, 0 ≤ i ∧ i < (SmallMatrix.ctor3 (fun _ _ => (0 : Int)) 11 12 1).mNumRows →
      0 ≤ j ∧ j < (SmallMatrix.ctor3 (fun _ _ => (0 : Int)) 11 12 1).mNumCols →
      (SmallMatrix.ctor3 (fun _ _ => (0 : Int)) 11 12 1).get i j = A2.get i j := by
    intro i j hi hj
    have hi2 : i < 11 := hi.2
    have hj2 : j < 12 := hj.2
    obtain ⟨x, hx1, hx2⟩ := hhigh i j hi.1 (by
      show i < 12 - 1
      omega) hj.1 hj2
    rw [ctor3_get _ 12 12 (i + 1) j 1 ⟨by omega, by omega⟩ ⟨hj.1, hj2⟩ (by decide)] at hx1
    rw [hx2, ← Except.ok.inj hx1]
    exact ctor3_get _ 11 12 i j 1 ⟨hi.1, hi2⟩ ⟨hj.1, hj2⟩ (by decide)
  exact ⟨A2, P, P2, hA2, h1, h2, hsize,
    fun i j => get_eq_everywhere _ A2 hsize hget i j, h4, h5, h6, h7, h8, h9⟩

end smallMatrix
